import Mathlib

/-!
# ZorkUL (Zork.cpp): event bus and game-state transitions

A shallow embedding of `src/Zork.cpp`.

Modelling decisions, each local to the definition it concerns:

* Rooms. `Game::rooms` is a vector of ten `Room*` filled once by the
  constructor; a room pointer is modelled by its index `RoomId = Fin 10`.
  Room names and exits are written once (`Room::Room`, `Room::setExits`) and
  never changed, so they are functions of the index; only the two vectors
  `itemsInRoom` and `enemiesInRoom` are state.
* Objects. `Item*` and `Enemy*` values are compared as pointers by
  `std::find`, `Room::removeItem` and `Room::removeEnemy`; a record carries
  the address of its object in the field `addr`. An item never changes after
  construction. A container is assumed to hold an enemy object at most once.
  `Game::reset` drops every older object from every container before it
  allocates, so only the distinctness of the five addresses it hands out is
  observable; they are numbered 1 to 5 in the order of allocation.
* Names. `Character::name` is set by the constructor only (`"Hero"`,
  `"mojo"`), so it is a constant and not a field.
* Numbers. `int` is `Int`; no value of the program comes near the machine
  bounds. A weight is given to the program as a decimal with at most two
  digits after the point; the field `weightGrams` keeps that decimal in
  hundredths of a gram (`centi`), which decides the comparisons with 0 and
  9999 of `Item::setWeight`. The `float` the program stores for it is
  `Item.getWeight`, the decimal rounded to 24 binary digits, and the `double`
  sum of `Game::go` is `Game.sumWeight`, each addition rounded to 53 binary
  digits.
* `rand()`. The values the coming calls return are the list `World.rand`;
  a call on the empty list has no result (`none`).
* `std::cout`. Each operand of `<<` is one `Tok` appended to `World.cout`;
  the text built by `Player::getItems` is kept as the token `inventory`.
* Dispatch. The registry is built by `listen` in `Game::Game` and `main` and
  is not changed afterwards. `EventManager::trigger` calls handlers that
  call `trigger` again; the handlers take the bus as an argument and
  `EventManager.trigger` is defined by recursion on the number of nested
  dispatches still allowed, with no result when it is used up.
* Payloads. The `void*` argument is the sum `Payload`; a handler that casts
  it to a type it does not have has no result.
-/

namespace Zork

/-! ## Entity model -/

/-- Index of a room in `Game::rooms`. -/
abbrev RoomId := Fin 10

/-- Weight of `g` grams `c` hundredths, in hundredths of a gram. -/
def centi (g : Int) (c : Int) : Int := 100 * g + c

/-- Class `Item` (and `Weapon`, told apart by `isWeapon`). -/
structure Item where
  addr : Nat
  description : String
  weightGrams : Int
  multiplier : Int
  isWeapon : Bool
  deriving DecidableEq, Repr

/-- Class `Enemy`, for the enemy objects owned by rooms. -/
structure Enemy where
  addr : Nat
  name : String
  description : String
  health : Int
  stamina : Int
  deriving DecidableEq, Repr

/-- The run-time fields of class `Character`; the member `Game::mojo`. -/
structure Character where
  health : Int
  stamina : Int
  currentRoom : RoomId
  deriving DecidableEq, Repr

/-- Class `Player`. -/
structure Player where
  health : Int
  stamina : Int
  currentRoom : RoomId
  itemInventory : List Item
  deriving DecidableEq, Repr

/-- The run-time fields of class `Room`. -/
structure Room where
  itemsInRoom : List Item
  enemiesInRoom : List Enemy
  deriving DecidableEq, Repr

/-- Class `Game`. -/
structure Game where
  player : Player
  rooms : RoomId → Room
  gameOver : Bool
  mojo : Character
  key : Item
  sword : Item

/-- One operand written to `std::cout`. -/
inductive Tok where
  | lit (s : String)
  | text (s : String)
  | int (n : Int)
  | inventory (items : List Item)
  deriving DecidableEq, Repr

/-- The program state: the game, `EventManager::running`, the output so far
and the coming values of `rand()`. -/
structure World where
  game : Game
  running : Bool
  cout : List Tok
  rand : List Nat

/-- The argument of `EventListener::run`. -/
inductive Payload where
  | null
  | words (args : List String)
  | room (r : RoomId)
  | player
  deriving DecidableEq, Repr

/-- The listener classes, one object of each being registered. -/
inductive Listener where
  | go | map | info | restart | teleport | exit | take | use | inventory | attack
  | characterDeath | enterRoom | victory | defeat | curse | input
  deriving DecidableEq, Repr

/-- `EventManager::registeredEvents`. -/
abbrev Registry := List (String × List Listener)

/-- `EventManager::trigger` as seen by a handler. -/
abbrev Trigger := String → Payload → World → Option World

/-- `std::endl`. -/
def endl : Tok := Tok.lit "\n"

/-- `cout << t1 << t2 ...`. -/
def World.print (w : World) (ts : List Tok) : World :=
  { w with cout := w.cout ++ ts }

/-- `rand()`. -/
def World.nextRand (w : World) : Option (Nat × World) :=
  match w.rand with
  | [] => none
  | r :: rest => some (r, { w with rand := rest })

/-! ## World graph -/

/-- `Room::getName`, the names given in `Game::Game`. -/
def Room.getName (r : RoomId) : String :=
  match r.val with
  | 0 => "A" | 1 => "B" | 2 => "C" | 3 => "D" | 4 => "E"
  | 5 => "F" | 6 => "G" | 7 => "H" | 8 => "I" | _ => "J"

/-- The arguments of the `setExits` calls of `Game::Game`: north, east,
south, west. -/
def Room.exits (r : RoomId) : Option RoomId × Option RoomId × Option RoomId × Option RoomId :=
  match r.val with
  | 0 => (some 4, some 2, some 7, some 1)
  | 1 => (none, some 0, none, none)
  | 2 => (none, none, none, some 0)
  | 3 => (none, some 4, none, none)
  | 4 => (none, some 5, some 0, some 3)
  | 5 => (none, none, none, some 4)
  | 6 => (none, some 7, none, none)
  | 7 => (some 0, some 8, some 9, some 6)
  | 8 => (none, none, none, some 7)
  | _ => (some 7, none, none, none)

/-- `Room::getExit`: `exits[direction]`, null for a key that was never set. -/
def Room.getExit (r : RoomId) (direction : String) : Option RoomId :=
  if direction = "north" then (Room.exits r).1
  else if direction = "east" then (Room.exits r).2.1
  else if direction = "south" then (Room.exits r).2.2.1
  else if direction = "west" then (Room.exits r).2.2.2
  else none

/-- `Room::removeItem` and `Room::removeEnemy`: the index loop that erases
position `i` when it holds the pointer and then moves on to `i + 1`, so the
element that slid into position `i` is not examined. -/
def eraseLoop {α : Type} (addrOf : α → Nat) (p : Nat) : List α → List α
  | [] => []
  | x :: xs =>
    if addrOf x = p then
      match xs with
      | [] => []
      | y :: ys => y :: eraseLoop addrOf p ys
    else x :: eraseLoop addrOf p xs

/-- `Room::removeItem`. -/
def Room.removeItem (r : Room) (newItem : Item) : Room :=
  { r with itemsInRoom := eraseLoop Item.addr newItem.addr r.itemsInRoom }

/-- `Room::removeEnemy`. -/
def Room.removeEnemy (r : Room) (enemy : Enemy) : Room :=
  { r with enemiesInRoom := eraseLoop Enemy.addr enemy.addr r.enemiesInRoom }

/-- `Room::addItem`. -/
def Room.addItem (r : Room) (inItem : Item) : Room :=
  { r with itemsInRoom := r.itemsInRoom ++ [inItem] }

/-- `Room::addEnemy`. -/
def Room.addEnemy (r : Room) (enemy : Enemy) : Room :=
  { r with enemiesInRoom := r.enemiesInRoom ++ [enemy] }

/-- `Room::displayItems`. -/
def Room.displayItems (r : Room) : String :=
  if r.itemsInRoom.length < 1 then "No items in room"
  else r.itemsInRoom.foldl (fun acc it => acc ++ it.description ++ "  ") "Items in room = "

/-! ## Items -/

/-- `Item::setWeight`: the bound 9999 grams is 999900 hundredths. -/
def Item.setWeight (it : Item) (inWeightGrams : Int) (w : World) : Item × World :=
  if inWeightGrams > centi 9999 0 ∨ inWeightGrams < 0 then
    (it, w.print [Tok.lit "weight invalid, must be 0<weight<9999"])
  else ({ it with weightGrams := inWeightGrams }, w)

/-- `Item::Item`, at address `addr`; the member `weightGrams` is not
initialised before `setWeight` runs, `junk` is what it holds then. -/
def Item.new (addr : Nat) (inDescription : String) (inWeightGrams : Int) (multiplier : Int)
    (junk : Int) (w : World) : Item × World :=
  Item.setWeight
    { addr := addr, description := inDescription, weightGrams := junk,
      multiplier := multiplier, isWeapon := false } inWeightGrams w

/-- `Weapon::Weapon`. -/
def Weapon.new (addr : Nat) (inDescription : String) (inWeightGrams : Int) (multiplier : Int)
    (junk : Int) (w : World) : Item × World :=
  let r := Item.new addr inDescription inWeightGrams multiplier junk w
  ({ r.1 with isWeapon := true }, r.2)

/-! ## Floating point

The program keeps a weight in a `float` and adds the weights of the inventory
up in a `double`. Every `float` from 0.01 gram up is a whole number of units of
2^-30 gram, and so is every `double` sum of such values; the values below are
in that unit. -/

/-- The integer nearest to `n / d`, the even one of the two when both are
equally near: the rounding of the floating-point arithmetic. -/
def roundEven (n d : Nat) : Nat :=
  if 2 * (n % d) < d then n / d
  else if d < 2 * (n % d) then n / d + 1
  else if (n / d) % 2 = 0 then n / d else n / d + 1

/-- The number of binary digits of `n`, by halving at most `fuel` times. -/
def bitsFuel : Nat → Nat → Nat
  | 0, _ => 0
  | fuel + 1, n => if n = 0 then 0 else bitsFuel fuel (n / 2) + 1

/-- The number of binary digits of `n`. -/
def bits (n : Nat) : Nat := bitsFuel n n

/-- The value `n / d` rounded to `p` significant binary digits, nearest and
ties to even, for a value that is 0 or at least `2 ^ (p - 1)`, or whole and
below `2 ^ p`. -/
def roundBits (p n d : Nat) : Nat :=
  roundEven n (d * 2 ^ (bits (n / d) - p)) * 2 ^ (bits (n / d) - p)

/-- A whole number of grams in units of 2^-30 gram. -/
def grams (g : Int) : Int := g * 2 ^ 30

/-- `Item::getWeight`: the `float` (24 significant binary digits) that the
program stores for a weight of `weightGrams` hundredths of a gram, in units of
2^-30 gram. -/
def Item.getWeight (it : Item) : Int :=
  if 0 ≤ it.weightGrams then (roundBits 24 (it.weightGrams.toNat * 2 ^ 30) 100 : Nat)
  else - (roundBits 24 ((- it.weightGrams).toNat * 2 ^ 30) 100 : Nat)

/-- The sum of two `double` values (53 significant binary digits), in units of
2^-30 gram. -/
def Double.add (a b : Int) : Int :=
  if 0 ≤ a + b then (roundBits 53 (a + b).toNat 1 : Nat)
  else - (roundBits 53 (- (a + b)).toNat 1 : Nat)

/-! ## Player and enemies -/

/-- `Character::getName` for the player, who is constructed as `Player("Hero")`. -/
def Player.getName (_p : Player) : String := "Hero"

/-- `Player::hasItem`. -/
def Player.hasItem (p : Player) (item : String) : Bool :=
  p.itemInventory.any (fun it => it.description = item)

/-- `Player::addItem`: `std::find` compares the pointers. -/
def Player.addItem (newItem : Item) (w : World) : World :=
  if w.game.player.itemInventory.any (fun it => it.addr = newItem.addr) then w
  else
    { w with
      game := { w.game with
        player := { w.game.player with
          itemInventory := w.game.player.itemInventory ++ [newItem] } },
      cout := w.cout ++
        [Tok.lit "You have picked up a new item! It has been added to your inventory.\n"] }

/-- `Player::emptyInventory`. -/
def Player.emptyInventory (p : Player) : Player := { p with itemInventory := [] }

/-- Assignment to `player.health`. -/
def World.setPlayerHealth (w : World) (health : Int) : World :=
  { w with game := { w.game with player := { w.game.player with health := health } } }

/-- Assignment to `player.stamina`. -/
def World.setPlayerStamina (w : World) (stamina : Int) : World :=
  { w with game := { w.game with player := { w.game.player with stamina := stamina } } }

/-- `player.setCurrentRoom`. -/
def World.setPlayerRoom (w : World) (next : RoomId) : World :=
  { w with game := { w.game with player := { w.game.player with currentRoom := next } } }

/-- `Game::setOver`. -/
def World.setOver (w : World) (over : Bool) : World :=
  { w with game := { w.game with gameOver := over } }

/-- Replace the run-time fields of one room. -/
def World.setRoom (w : World) (i : RoomId) (r : Room) : World :=
  { w with game := { w.game with rooms := Function.update w.game.rooms i r } }

/-- `Player::setHealth`: the event is raised before the field is written. -/
def Player.setHealth (trigger : Trigger) (health : Int) (w : World) : Option World :=
  if health ≤ 0 then
    (trigger "characterDeath" Payload.player w).bind fun w1 => some (w1.setPlayerHealth 0)
  else some (w.setPlayerHealth health)

/-- `Player::setStamina`. -/
def Player.setStamina (trigger : Trigger) (stamina : Int) (w : World) : Option World :=
  if stamina ≤ 0 then
    (trigger "characterDeath" Payload.player w).bind fun w1 => some (w1.setPlayerStamina 0)
  else some (w.setPlayerStamina stamina)

/-- The value `Enemy::setHealth` and `Enemy::setStamina` store. -/
def Enemy.clamp (v : Int) : Int := if v ≤ 0 then 0 else v

/-- `Enemy::setHealth` on an enemy object of a room. -/
def Enemy.setHealth (e : Enemy) (health : Int) : Enemy :=
  { e with health := Enemy.clamp health }

/-- `Enemy::setHealth` on `mojo`. -/
def Character.setHealth (c : Character) (health : Int) : Character :=
  { c with health := Enemy.clamp health }

/-- `Enemy::setStamina` on `mojo`. -/
def Character.setStamina (c : Character) (stamina : Int) : Character :=
  { c with stamina := Enemy.clamp stamina }

/-! ## Game controller -/

/-- The fields of the player's current room. -/
def World.here (w : World) : Room := w.game.rooms w.game.player.currentRoom

/-- `Player::getItems`, written to `cout`. -/
def Player.getItems (p : Player) : Tok := Tok.inventory p.itemInventory

/-- `Game::is_over`. -/
def Game.is_over (g : Game) : Bool := g.gameOver

/-- `Game::enemyCheck`. -/
def Game.enemyCheck (g : Game) : Bool :=
  if g.mojo.health ≤ 0 ∨ g.mojo.stamina ≤ 0 then false else true

/-- The array `directions` of `Game::enemyMove`, indexed by `rand() % 4`. -/
def directions (random : Nat) : String :=
  match random with
  | 0 => "north"
  | 1 => "east"
  | 2 => "south"
  | _ => "west"

/-- The `while (enemyNext == nullptr)` loop of `Game::enemyMove`. -/
def Game.enemyMoveLoop (room : RoomId) : Option RoomId → List Nat → Option (RoomId × List Nat)
  | some enemyNext, tape => some (enemyNext, tape)
  | none, [] => none
  | none, random :: rest =>
    Game.enemyMoveLoop room (Room.getExit room (directions (random % 4))) rest

/-- `Game::enemyMove`. -/
def Game.enemyMove (w : World) : Option World :=
  if w.game.enemyCheck then
    match Game.enemyMoveLoop w.game.mojo.currentRoom
        (Room.getExit w.game.mojo.currentRoom "") w.rand with
    | none => none
    | some (enemyNext, rest) =>
      let w1 : World :=
        { w with
          rand := rest,
          game := { w.game with
            mojo := Character.setStamina { w.game.mojo with currentRoom := enemyNext }
              (w.game.mojo.stamina - 4) } }
      if w1.game.enemyCheck then some w1
      else some (w1.print [Tok.lit "An enemy died due to a lack of stamina!"])
  else some w

/-- The `sumWeight` loop of `Game::go`: a `double` that starts at 0 and to
which the `float` weight of each item is added in turn. -/
def Game.sumWeight (items : List Item) : Int :=
  items.foldl (fun sumWeight it => Double.add sumWeight it.getWeight) 0

/-- `Game::go`. -/
def Game.go (trigger : Trigger) (direction : String) (w : World) : Option World :=
  let next := Room.getExit w.game.player.currentRoom direction
  if next = some 6 ∧ ¬ (w.game.player.hasItem "key" = true) then
    some (w.print [Tok.lit "You need a key to enter this room.", endl,
      Tok.lit "Search for it in another room and then you can enter this one.", endl])
  else
    match next with
    | some n =>
      (Game.enemyMove w).bind fun w1 =>
      let w2 := w1.setPlayerRoom n
      (if w2.game.player.itemInventory.length > 0 then
          if Game.sumWeight w2.game.player.itemInventory > grams 100 then
            Player.setStamina trigger (w2.game.player.stamina - 7) w2
          else if Game.sumWeight w2.game.player.itemInventory ≥ grams 30 then
            Player.setStamina trigger (w2.game.player.stamina - 5) w2
          else
            Player.setStamina trigger (w2.game.player.stamina - 3) w2
        else
          Player.setStamina trigger (w2.game.player.stamina - 1) w2).bind fun w3 =>
      trigger "enterRoom" (Payload.room n) w3
    | none => some (w.print [Tok.lit "You hit a wall", endl])

/-- The room `rooms[rand() % rooms.size()]`. -/
def roomAt (random : Nat) : RoomId := ⟨random % 10, Nat.mod_lt _ (by decide)⟩

/-- The `while` loop of `Game::teleport`. -/
def Game.teleportLoop (hasKey : Bool) (selected : RoomId) : List Nat → Option (RoomId × List Nat)
  | [] => if selected = 6 ∧ ¬ (hasKey = true) then none else some (selected, [])
  | random :: rest =>
    if selected = 6 ∧ ¬ (hasKey = true) then Game.teleportLoop hasKey (roomAt random) rest
    else some (selected, random :: rest)

/-- `Game::teleport`. -/
def Game.teleport (trigger : Trigger) (w : World) : Option World :=
  match w.nextRand with
  | none => none
  | some (random, w0) =>
    match Game.teleportLoop (w0.game.player.hasItem "key") (roomAt random) w0.rand with
    | none => none
    | some (selected, rest) =>
      let w1 := World.setPlayerRoom { w0 with rand := rest } selected
      (Player.setStamina trigger (w1.game.player.stamina - 30) w1).bind fun w2 =>
      (trigger "enterRoom" (Payload.room selected) w2).bind fun w3 =>
      Game.enemyMove w3

/-- `Game::use`; `++player` adds 20 to the health. -/
def Game.use (itemName : String) (w : World) : World :=
  if itemName = "potion" ∧ w.game.player.health ≤ 80 then
    (w.setPlayerHealth (w.game.player.health + 20)).print
      [Tok.lit "You have used a replenishing potion!", endl]
  else
    w.print [Tok.lit "You must have 80 or less health points to use the health potion.", endl]

/-- The `for` loop of `Game::take` over the copy `items`. -/
def Game.takeLoop (trigger : Trigger) (itemName : String) : List Item → World → Option World
  | [], w => some w
  | newItem :: rest, w =>
    if newItem.description = itemName then
      let w1 := Player.addItem newItem w
      let w2 := w1.setRoom w1.game.player.currentRoom (w1.here.removeItem newItem)
      (if newItem.description = "cursed_item" then
          trigger "curse" Payload.player
            (w2.print [Tok.lit "Oh no! You've picked up a cursed item.\n", endl])
        else some w2).bind fun w3 =>
      let w4 := if newItem.description = "potion" then Game.use "potion" w3 else w3
      Game.takeLoop trigger itemName rest w4
    else Game.takeLoop trigger itemName rest w

/-- `Game::take`. -/
def Game.take (trigger : Trigger) (itemName : String) (w : World) : Option World :=
  (if w.here.itemsInRoom.length = 0 then some (w.print [Tok.lit "No items in room."])
    else Game.takeLoop trigger itemName w.here.itemsInRoom w).bind fun w1 =>
  some (w1.print [w1.game.player.getItems, endl])

/-- The `for` loop of the hit branch of `Game::attack` over the copy
`enemies`; `setHealth` writes through the pointer, so the object in the
room's vector changes. -/
def Game.attackLoop (name : String) : List Enemy → World → World
  | [], w => w
  | e :: rest, w =>
    if e.name = name then
      let e1 := e.setHealth (e.health - 20)
      let w1 := w.setRoom w.game.player.currentRoom
        { w.here with
          enemiesInRoom := w.here.enemiesInRoom.map fun x => if x.addr = e.addr then e1 else x }
      if e1.health ≤ 0 then
        Game.attackLoop name rest
          ((w1.setRoom w1.game.player.currentRoom (w1.here.removeEnemy e1)).print
            [Tok.lit "\nYou killed the enemy!\n"])
      else Game.attackLoop name rest (w1.print [Tok.lit "\nYou injured the enemy!\n"])
    else Game.attackLoop name rest w

/-- `Game::attack`; `--player` subtracts 20 from the health. -/
def Game.attack (trigger : Trigger) (name : String) (w : World) : Option World :=
  let enemies := w.here.enemiesInRoom
  if enemies.length > 0 ∨
      (w.game.mojo.currentRoom = w.game.player.currentRoom ∧ w.game.enemyCheck = true) then
    match w.nextRand with
    | none => none
    | some (random, w0) =>
      let winner : Int :=
        if w0.game.player.hasItem "sword" = true then
          ((random % 20 : Nat) : Int) + w0.game.sword.multiplier
        else ((random % 20 : Nat) : Int)
      if winner < 10 then
        let w1 := w0.setPlayerHealth (w0.game.player.health - 20)
        (if w1.game.player.health ≤ 0 then Player.setHealth trigger 0 w1 else some w1).bind
          fun w2 => some (w2.print [Tok.lit "\nYou were injured by the enemy!\n"])
      else if name = "mojo" ∧ w0.game.mojo.currentRoom = w0.game.player.currentRoom ∧
          w0.game.enemyCheck = true then
        let w1 : World :=
          { w0 with game := { w0.game with
              mojo := w0.game.mojo.setHealth (w0.game.mojo.health - 15) } }
        if w1.game.enemyCheck then some (w1.print [Tok.lit "\nYou injured the enemy!\n"])
        else some (w1.print [Tok.lit "\nYou killed the enemy!\n"])
      else some (Game.attackLoop name enemies w0)
  else some (w.print [Tok.lit "\nNo enemies to attack\n"])

/-- `Game::inventory`. -/
def Game.inventory (w : World) : World := w.print [w.game.player.getItems, endl]

/-- `Game::info`. -/
def Game.info (w : World) : World :=
  w.print [Tok.lit "Available commands:", endl,
    Tok.lit " - go <direction>", endl,
    Tok.lit " - teleport", endl,
    Tok.lit " - take <itemName>", endl,
    Tok.lit " - inventory", endl,
    Tok.lit " - map", endl,
    Tok.lit " - info", endl,
    Tok.lit " - attack <enemyName>", endl,
    Tok.lit " - use <itemName>", endl,
    endl,
    Tok.lit "The more items you have in your inventory, the more stamina you use when you move!",
    endl,
    Tok.lit "If you have a weapon, you will be more likely to hurt the enemy when attacking",
    endl]

/-- The entry `roomNames.at(i)` after the loop of `Game::map`. -/
def Game.mapCell (g : Game) (i : RoomId) : String :=
  let n0 := " " ++ Room.getName i ++ " "
  let n1 := if g.player.currentRoom = i then "[" ++ Room.getName i ++ "]" else n0
  let n2 := if g.mojo.currentRoom = i ∧ g.enemyCheck = true then "!" ++ Room.getName i ++ "!"
    else n1
  let n3 := if (g.rooms i).enemiesInRoom.length > 0 then "!" ++ Room.getName i ++ "!" else n2
  if g.player.currentRoom = i ∧
      ((g.mojo.currentRoom = i ∧ g.enemyCheck = true) ∨ (g.rooms i).enemiesInRoom.length > 0)
  then "[" ++ Room.getName i ++ "!" else n3

/-- `Game::map`. -/
def Game.map (w : World) : World :=
  let cell := fun (i : RoomId) => Tok.text (Game.mapCell w.game i)
  w.print [Tok.lit "Subtitle: [player] !enemy! [player & Enemy!", endl,
    Tok.lit " ", cell 3, Tok.lit " -  ", cell 4, Tok.lit "  - ", cell 5, endl,
    Tok.lit "         |   ", endl,
    Tok.lit " ", cell 1, Tok.lit " -  ", cell 0, Tok.lit "  - ", cell 2, endl,
    Tok.lit "         |    ", endl,
    Tok.lit " ", cell 6, Tok.lit " -  ", cell 7, Tok.lit "  - ", cell 8, endl,
    Tok.lit "         |    ", endl,
    Tok.lit "        ", cell 9, endl]

/-- The tokens `Game::update_screen` writes for the enemies of the room. -/
def Game.screenEnemies (g : Game) : List Tok :=
  let enemies := (g.rooms g.player.currentRoom).enemiesInRoom
  let mojoLine := [Tok.lit "Mojo - HP: ", Tok.int g.mojo.health, Tok.lit " ST: ",
    Tok.int g.mojo.stamina]
  if enemies.length ≠ 0 then
    (enemies.map fun e => [Tok.text e.name, Tok.lit " - ", Tok.lit "HP: ", Tok.int e.health,
        Tok.lit " ST: ", Tok.int e.stamina, Tok.lit "     "]).flatten ++
      (if g.player.currentRoom = g.mojo.currentRoom then
        (if g.enemyCheck then mojoLine else [Tok.lit ""]) else []) ++ [endl]
  else if g.player.currentRoom ≠ g.mojo.currentRoom then [Tok.lit "none", endl]
  else if g.enemyCheck then mojoLine ++ [endl]
  else [Tok.lit "none", endl]

/-- `Game::update_screen`. -/
def Game.update_screen (w : World) : World :=
  let g := w.game
  if ¬ (g.gameOver = true) then
    let currentRoom := g.player.currentRoom
    w.print ([endl, Tok.lit "You are in ", Tok.text (Room.getName currentRoom), endl,
        Tok.text (w.here.displayItems), endl, Tok.lit "Enemies in room = "] ++
      Game.screenEnemies g ++ [Tok.lit "Exits:"] ++
      (if (Room.getExit currentRoom "north").isSome then [Tok.lit " north"] else []) ++
      (if (Room.getExit currentRoom "east").isSome then [Tok.lit " east"] else []) ++
      (if (Room.getExit currentRoom "south").isSome then [Tok.lit " south"] else []) ++
      (if (Room.getExit currentRoom "west").isSome then [Tok.lit " west"] else []) ++
      [endl, Tok.lit "HP: ", Tok.int g.player.health, Tok.lit " ST: ",
        Tok.int g.player.stamina, endl])
  else w.print [Tok.lit "Type \"restart\" or \"exit\".", endl]

/-- `Enemy::Enemy` at address `addr`, with the lines the constructors write. -/
def Enemy.new (addr : Nat) (name : String) (description : String) (w : World) : Enemy × World :=
  ({ addr := addr, name := name, description := description, health := 100, stamina := 100 },
    w.print [Tok.lit "Character created (base class)", endl,
      Tok.lit "Enemy created (child class)", endl])

/-- `Game::reset`. The weights given to the constructors are valid, so the
value a fresh item holds before `setWeight` (here 0) is overwritten. -/
def Game.reset (trigger : Trigger) (show_update : Bool) (w : World) : Option World :=
  let w1 : World :=
    { w with game := { w.game with
        gameOver := false,
        rooms := fun i =>
          { w.game.rooms i with itemsInRoom := [], enemiesInRoom := [] } } }
  let k0 := Item.new 1 "key" (centi 22 0) 0 0 w1
  let k1 := Item.setWeight k0.1 (centi 27 0) k0.2
  let w2 : World := World.setRoom { k1.2 with game := { k1.2.game with key := k1.1 } } 2
    ((k1.2.game.rooms 2).addItem k1.1)
  let c := Item.new 2 "cursed_item" (centi 15 56) 0 0 w2
  let w3 := c.2.setRoom 6 ((c.2.game.rooms 6).addItem c.1)
  let p := Item.new 3 "potion" (centi 10 25) 0 0 w3
  let w4 := p.2.setRoom 3 ((p.2.game.rooms 3).addItem p.1)
  let s := Weapon.new 4 "sword" (centi 150 0) 5 0 w4
  let w5 : World := World.setRoom { s.2 with game := { s.2.game with sword := s.1 } } 5
    ((s.2.game.rooms 5).addItem s.1)
  let e := Enemy.new 5 "stationary-man" "is a non-moving enemy" w5
  let w6 := e.2.setRoom 2 ((e.2.game.rooms 2).addEnemy e.1)
  let w7 : World :=
    { w6 with game := { w6.game with
        mojo := Character.setStamina
          (Character.setHealth { w6.game.mojo with currentRoom := 3 } 100) 100 } }
  (Player.setHealth trigger 100 (w7.setPlayerRoom 0)).bind fun w8 =>
  (Player.setStamina trigger 100 w8).bind fun w9 =>
  let w10 : World :=
    { w9 with game := { w9.game with player := w9.game.player.emptyInventory } }
  let w11 := w10.print [Tok.lit "Welcome to Zork!", endl,
    Tok.lit ("To pick up items, type take x where x is the name of the item exactly as it " ++
      "is written in the room description, eg. take cursed_item\n"),
    Tok.lit ("To attack enemies, type attack x where x is the enemy name exactly as it is\n" ++
      "written in the room description"), endl]
  if show_update then some (Game.update_screen w11) else some w11

/-! ## Listeners -/

/-- `DefeatListener::run`. -/
def DefeatListener.run (w : World) : Option World :=
  some ((w.print [endl, Tok.lit "Defeat!", endl]).setOver true)

/-- `VictoryListener::run`. -/
def VictoryListener.run (w : World) : Option World :=
  some ((w.print [endl, Tok.lit "Victory!", endl]).setOver true)

/-- `CharacterDeathListener::run`. -/
def CharacterDeathListener.run (trigger : Trigger) (args : Payload) (w : World) :
    Option World :=
  if w.game.is_over then some w
  else
    match args with
    | Payload.player =>
      if w.game.player.getName = w.game.player.getName then trigger "defeat" Payload.null w
      else some w
    | _ => none

/-- `CurseListener::run`. -/
def CurseListener.run (trigger : Trigger) (args : Payload) (w : World) : Option World :=
  match args with
  | Payload.player =>
    (Player.setHealth trigger (w.game.player.health - 20) w).bind fun w1 =>
    some (w1.print [Tok.lit "You've lost some health points due to the cursed item.", endl])
  | _ => none

/-- `EnterRoomListener::run`. -/
def EnterRoomListener.run (trigger : Trigger) (args : Payload) (w : World) : Option World :=
  if w.game.is_over then some w
  else
    match args with
    | Payload.room room =>
      if Room.getName room = "J" then trigger "victory" Payload.null w else some w
    | _ => none

/-- `ExitListener::run`, that is `EventManager::stop`. -/
def ExitListener.run (w : World) : Option World := some { w with running := false }

/-- `GoListener::run`. -/
def GoListener.run (trigger : Trigger) (args_ptr : Payload) (w : World) : Option World :=
  if w.game.is_over then some w
  else
    match args_ptr with
    | Payload.words args =>
      if _h : args.length > 1 then Game.go trigger args[1] w
      else some (w.print [Tok.lit "Need a direction!", endl])
    | _ => none

/-- `TakeListener::run`. -/
def TakeListener.run (trigger : Trigger) (args_ptr : Payload) (w : World) : Option World :=
  if w.game.is_over then some w
  else
    match args_ptr with
    | Payload.words args =>
      if _h : args.length > 1 then Game.take trigger args[1] w
      else some (w.print [Tok.lit "Need to choose an item to take!", endl])
    | _ => none

/-- `UseListener::run`. -/
def UseListener.run (args_ptr : Payload) (w : World) : Option World :=
  if w.game.is_over then some w
  else
    match args_ptr with
    | Payload.words args =>
      if _h : args.length > 1 then some (Game.use args[1] w)
      else some (w.print [Tok.lit "Need to choose an item to use!", endl])
    | _ => none

/-- `AttackListener::run`. -/
def AttackListener.run (trigger : Trigger) (args_ptr : Payload) (w : World) : Option World :=
  if w.game.is_over then some w
  else
    match args_ptr with
    | Payload.words args =>
      if _h : args.length > 1 then Game.attack trigger args[1] w
      else some (w.print [Tok.lit "Need to specify an enemy to attack!", endl])
    | _ => none

/-- `TeleportListener::run`. -/
def TeleportListener.run (trigger : Trigger) (w : World) : Option World :=
  if w.game.is_over then some w else Game.teleport trigger w

/-- `InventoryListener::run`. -/
def InventoryListener.run (w : World) : Option World := some (Game.inventory w)

/-- `MapListener::run`. -/
def MapListener.run (w : World) : Option World := some (Game.map w)

/-- `InfoListener::run`. -/
def InfoListener.run (w : World) : Option World := some (Game.info w)

/-- `RestartListener::run`. -/
def RestartListener.run (trigger : Trigger) (w : World) : Option World :=
  Game.reset trigger false w

/-- `InputListener::run`. -/
def InputListener.run (trigger : Trigger) (args_ptr : Payload) (w : World) : Option World :=
  match args_ptr with
  | Payload.words args =>
    if _h : args.length > 0 then
      if args[0] = "input" then some w
      else
        (trigger args[0] (Payload.words args) w).bind fun w1 =>
        if w1.running then some (Game.update_screen w1) else some w1
    else trigger "no_command" Payload.null w
  | _ => none

/-- The virtual call `listener->run(args)`. -/
def Listener.run (trigger : Trigger) (l : Listener) (args : Payload) (w : World) :
    Option World :=
  match l with
  | Listener.go => GoListener.run trigger args w
  | Listener.map => MapListener.run w
  | Listener.info => InfoListener.run w
  | Listener.restart => RestartListener.run trigger w
  | Listener.teleport => TeleportListener.run trigger w
  | Listener.exit => ExitListener.run w
  | Listener.take => TakeListener.run trigger args w
  | Listener.use => UseListener.run args w
  | Listener.inventory => InventoryListener.run w
  | Listener.attack => AttackListener.run trigger args w
  | Listener.characterDeath => CharacterDeathListener.run trigger args w
  | Listener.enterRoom => EnterRoomListener.run trigger args w
  | Listener.victory => VictoryListener.run w
  | Listener.defeat => DefeatListener.run w
  | Listener.curse => CurseListener.run trigger args w
  | Listener.input => InputListener.run trigger args w

/-! ## Event bus -/

/-- The function `tolower(string&)` of eventmanager.cpp. -/
def tolower (s : String) : String := ⟨s.data.map Char.toLower⟩

/-- `registeredEvents[key].push_back(listener)`. -/
def Registry.push : Registry → String → Listener → Registry
  | [], key, listener => [(key, [listener])]
  | (k, ls) :: rest, key, listener =>
    if k = key then (k, ls ++ [listener]) :: rest
    else (k, ls) :: Registry.push rest key listener

/-- `registeredEvents[key]` read. -/
def Registry.at : Registry → String → List Listener
  | [], _ => []
  | (k, ls) :: rest, key => if k = key then ls else Registry.at rest key

/-- `EventManager::listen`. -/
def EventManager.listen (reg : Registry) (event_name : String) (listener : Listener) :
    Registry :=
  reg.push (tolower event_name) listener

/-- The `for` loop of `EventManager::trigger`. -/
def EventManager.runAll (run : Listener → Payload → World → Option World) (args : Payload) :
    List Listener → World → Option World
  | [], w => some w
  | listener :: rest, w => (run listener args w).bind (EventManager.runAll run args rest)

/-- `EventManager::trigger`, with `depth` nested dispatches allowed. -/
def EventManager.trigger (reg : Registry) : Nat → Trigger
  | 0 => fun _ _ _ => none
  | depth + 1 => fun event_name args w =>
    EventManager.runAll (Listener.run (EventManager.trigger reg depth)) args
      (reg.at (tolower event_name)) w

/-- The registry after `Game::Game` has run. -/
def Game.registry : Registry :=
  [("go", Listener.go), ("map", Listener.map), ("info", Listener.info),
    ("restart", Listener.restart), ("teleport", Listener.teleport), ("exit", Listener.exit),
    ("take", Listener.take), ("use", Listener.use), ("inventory", Listener.inventory),
    ("attack", Listener.attack), ("characterDeath", Listener.characterDeath),
    ("enterRoom", Listener.enterRoom), ("victory", Listener.victory),
    ("defeat", Listener.defeat), ("curse", Listener.curse)].foldl
    (fun reg p => EventManager.listen reg p.1 p.2) []

/-- The registry after `main` has added the input listener. -/
def registry : Registry := EventManager.listen Game.registry "input" Listener.input

/-- The bus of the running program. -/
def bus (depth : Nat) : Trigger := EventManager.trigger registry depth

/-- `Game::Game`: the members as the constructors leave them, then `reset()`.
The room pointers are null and `gameOver`, `key` and `sword` are not
initialised at that point; `reset` writes all of them before any is read. -/
def Game.new (trigger : Trigger) (tape : List Nat) : Option World :=
  let blank : Item :=
    { addr := 0, description := "", weightGrams := 0, multiplier := 0, isWeapon := false }
  Game.reset trigger true
    { game :=
        { player := { health := 100, stamina := 100, currentRoom := 0, itemInventory := [] },
          rooms := fun _ => { itemsInRoom := [], enemiesInRoom := [] },
          gameOver := false,
          mojo := { health := 100, stamina := 100, currentRoom := 0 },
          key := blank,
          sword := blank },
      running := true,
      cout := [Tok.lit "Character created (base class)", endl,
        Tok.lit "Player created (child class)", endl,
        Tok.lit "Character created (base class)", endl,
        Tok.lit "Enemy created (child class)", endl],
      rand := tape }

/-- The commands of the claims about reachable states. -/
def commands : List Listener :=
  [Listener.go, Listener.take, Listener.use, Listener.attack, Listener.teleport,
    Listener.restart]

/-- The states the program reaches from a fresh game by the commands go,
take, use, attack, teleport and restart, with any arguments, any random
values and any number of nested dispatches allowed. -/
inductive Reachable : World → Prop where
  | fresh (depth : Nat) (tape : List Nat) (w : World) :
      Game.new (bus depth) tape = some w → Reachable w
  | step (depth : Nat) (l : Listener) (args : List String) (w w1 : World) :
      Reachable w → l ∈ commands →
      Listener.run (bus depth) l (Payload.words args) w = some w1 → Reachable w1

/-! ## Reference values and summaries used by the statements -/

/-- The game `Game::reset` leaves: the initial placement. -/
def Game.fresh : Game :=
  { player := { health := 100, stamina := 100, currentRoom := 0, itemInventory := [] },
    rooms := fun i =>
      match i.val with
      | 2 =>
        { itemsInRoom := [{ addr := 1, description := "key", weightGrams := centi 27 0,
                            multiplier := 0, isWeapon := false }],
          enemiesInRoom := [{ addr := 5, name := "stationary-man",
                              description := "is a non-moving enemy", health := 100,
                              stamina := 100 }] }
      | 3 =>
        { itemsInRoom := [{ addr := 3, description := "potion", weightGrams := centi 10 25,
                            multiplier := 0, isWeapon := false }],
          enemiesInRoom := [] }
      | 5 =>
        { itemsInRoom := [{ addr := 4, description := "sword", weightGrams := centi 150 0,
                            multiplier := 5, isWeapon := true }],
          enemiesInRoom := [] }
      | 6 =>
        { itemsInRoom := [{ addr := 2, description := "cursed_item",
                            weightGrams := centi 15 56, multiplier := 0, isWeapon := false }],
          enemiesInRoom := [] }
      | _ => { itemsInRoom := [], enemiesInRoom := [] },
    gameOver := false,
    mojo := { health := 100, stamina := 100, currentRoom := 3 },
    key := { addr := 1, description := "key", weightGrams := centi 27 0, multiplier := 0,
             isWeapon := false },
    sword := { addr := 4, description := "sword", weightGrams := centi 150 0, multiplier := 5,
               isWeapon := true } }

/-- A world whose game is over: the player stands in room J with nothing in
hand, nothing has been written yet. -/
def overWorld : World :=
  { game := { Game.fresh with
      player := { health := 100, stamina := 95, currentRoom := 9, itemInventory := [] },
      gameOver := true,
      mojo := { health := 100, stamina := 92, currentRoom := 4 } },
    running := true,
    cout := [],
    rand := [7, 3] }

/-- What raising `characterDeath` for the player amounts to in the configured
registry: `CharacterDeathListener::run`, which raises `defeat` unless the game
is over, then `DefeatListener::run`. -/
def World.death (w : World) : World :=
  if w.game.gameOver = true then w
  else (w.print [endl, Tok.lit "Defeat!", endl]).setOver true

/-- What raising `enterRoom` for room `r` amounts to in the configured
registry: `EnterRoomListener::run`, then `VictoryListener::run` for room J. -/
def World.enter (w : World) (r : RoomId) : World :=
  if w.game.gameOver = true then w
  else if Room.getName r = "J" then (w.print [endl, Tok.lit "Victory!", endl]).setOver true
  else w

/-- What `Player::setHealth` amounts to when `characterDeath` is handled. -/
def World.setHealthD (w : World) (health : Int) : World :=
  if health ≤ 0 then w.death.setPlayerHealth 0 else w.setPlayerHealth health

/-- What `Player::setStamina` amounts to when `characterDeath` is handled. -/
def World.setStaminaD (w : World) (stamina : Int) : World :=
  if stamina ≤ 0 then w.death.setPlayerStamina 0 else w.setPlayerStamina stamina

/-- What raising `curse` for the player amounts to in the configured
registry: `CurseListener::run`. -/
def World.curse (w : World) : World :=
  (w.setHealthD (w.game.player.health - 20)).print
    [Tok.lit "You've lost some health points due to the cursed item.", endl]

/-- A bus that handles the three events the commands raise as the configured
registry does. -/
structure Live (trigger : Trigger) : Prop where
  death : ∀ w, trigger "characterDeath" Payload.player w = some w.death
  enter : ∀ r w, trigger "enterRoom" (Payload.room r) w = some (w.enter r)
  curse : ∀ w, trigger "curse" Payload.player w = some w.curse

/-- A bus whose results for the three events the commands raise, when it has
any, are those of the configured registry. -/
structure Sound (trigger : Trigger) : Prop where
  death : ∀ w w1, trigger "characterDeath" Payload.player w = some w1 → w1 = w.death
  enter : ∀ r w w1, trigger "enterRoom" (Payload.room r) w = some w1 → w1 = w.enter r
  curse : ∀ w w1, trigger "curse" Payload.player w = some w1 → w1 = w.curse

/-- The stamina `Game::go` takes for a move with this inventory. -/
def Game.goCost (items : List Item) : Int :=
  if items.length > 0 then
    if Game.sumWeight items > grams 100 then 7
    else if Game.sumWeight items ≥ grams 30 then 5
    else 3
  else 1

/-- The roaming enemy can take a step with these random values: it is
defeated already, or one of the values selects a direction with an exit. -/
def Game.canMove (w : World) : Prop :=
  w.game.enemyCheck = false ∨
    ∃ random ∈ w.rand, (Room.getExit w.game.mojo.currentRoom (directions (random % 4))).isSome

/-- One round of the loop of `Game::take` for an item whose name matches,
when `curse` is handled as the configured registry does. -/
def Game.takeStep (newItem : Item) (w : World) : World :=
  let w1 := Player.addItem newItem w
  let w2 := w1.setRoom w1.game.player.currentRoom (w1.here.removeItem newItem)
  let w3 :=
    if newItem.description = "cursed_item" then
      (w2.print [Tok.lit "Oh no! You've picked up a cursed item.\n", endl]).curse
    else w2
  if newItem.description = "potion" then Game.use "potion" w3 else w3

/-- The loop of `Game::take` when `curse` is handled. -/
def Game.takeAll (itemName : String) (items : List Item) (w : World) : World :=
  items.foldl (fun w it => if it.description = itemName then Game.takeStep it w else w) w

/-- The player is alive unless the game is over. -/
def Game.AliveUnlessOver (g : Game) : Prop :=
  g.gameOver = false → 0 < g.player.health ∧ 0 < g.player.stamina

/-- The back-fire branch of `Game::attack` when `characterDeath` is handled:
`--player`, then `setHealth(0)` if the health is not positive. -/
def World.backfire (w : World) : World :=
  if (w.setPlayerHealth (w.game.player.health - 20)).game.player.health ≤ 0 then
    (w.setPlayerHealth (w.game.player.health - 20)).setHealthD 0
  else w.setPlayerHealth (w.game.player.health - 20)

/-- One round of the loop of the hit branch of `Game::attack` for an enemy
whose name matches. -/
def Game.attackStep (e : Enemy) (w : World) : World :=
  let e1 := e.setHealth (e.health - 20)
  let w1 := w.setRoom w.game.player.currentRoom
    { w.here with
      enemiesInRoom := w.here.enemiesInRoom.map fun x => if x.addr = e.addr then e1 else x }
  if e1.health ≤ 0 then
    (w1.setRoom w1.game.player.currentRoom (w1.here.removeEnemy e1)).print
      [Tok.lit "\nYou killed the enemy!\n"]
  else w1.print [Tok.lit "\nYou injured the enemy!\n"]

/-- No health and no stamina is negative. -/
def Game.NonNeg (g : Game) : Prop :=
  0 ≤ g.player.health ∧ 0 ≤ g.player.stamina ∧ 0 ≤ g.mojo.health ∧ 0 ≤ g.mojo.stamina ∧
    ∀ i, ∀ e ∈ (g.rooms i).enemiesInRoom, 0 ≤ e.health ∧ 0 ≤ e.stamina

/-- The player is in room G only with the key in hand. -/
def Game.KeyInG (g : Game) : Prop :=
  g.player.currentRoom = 6 → g.player.hasItem "key" = true

/-- The stamina a move costs as the specification words it: 1 with an empty
inventory, otherwise 7 for a total weight above 100 grams, 5 for a total
weight from 30 to 100 grams and 3 below 30 grams. -/
def specCost (items : List Item) : Int :=
  if items = [] then 1
  else if (items.map Item.weightGrams).sum > centi 100 0 then 7
  else if centi 30 0 ≤ (items.map Item.weightGrams).sum ∧
      (items.map Item.weightGrams).sum ≤ centi 100 0 then 5
  else 3

/-- A world whose player stands in room H, next to the gated room G, with the
given inventory; the roaming enemy is in room D and the next random value
sends it east. -/
def gateWorld (items : List Item) : World :=
  { game := { Game.fresh with
      player := { health := 100, stamina := 2, currentRoom := 7, itemInventory := items } },
    running := true,
    cout := [],
    rand := [1] }

/-- The number of runs of `DefeatListener::run` so far: each run writes the
literal "Defeat!" once and no other statement of the program writes it. -/
def World.defeats (w : World) : Nat := w.cout.count (Tok.lit "Defeat!")

/-- Running a sequence of commands, each a handler with its word sequence. -/
def runCommands (trigger : Trigger) : List (Listener × List String) → World → Option World
  | [], w => some w
  | (l, args) :: rest, w =>
    (Listener.run trigger l (Payload.words args) w).bind (runCommands trigger rest)

/-- A fresh program and the worlds along take-the-key-and-enter-G: east to
room C, take key, west to A, south to H, west to G. -/
def pathWorld0 : World := (Game.new (bus 0) [3, 1, 1, 3, 1]).getD overWorld

/-- After `go east`: in room C. -/
def pathWorld1 : World :=
  (Listener.run (bus 3) Listener.go (Payload.words ["go", "east"]) pathWorld0).getD overWorld

/-- After `take key`. -/
def pathWorld2 : World :=
  (Listener.run (bus 3) Listener.take (Payload.words ["take", "key"]) pathWorld1).getD overWorld

/-- After `go west`: in room A. -/
def pathWorld3 : World :=
  (Listener.run (bus 3) Listener.go (Payload.words ["go", "west"]) pathWorld2).getD overWorld

/-- After `go south`: in room H. -/
def pathWorld4 : World :=
  (Listener.run (bus 3) Listener.go (Payload.words ["go", "south"]) pathWorld3).getD overWorld

/-- After `go west`: in room G. -/
def pathWorld5 : World :=
  (Listener.run (bus 3) Listener.go (Payload.words ["go", "west"]) pathWorld4).getD overWorld

/-- A fresh program and the worlds along a lost fight: east to room C, then
five times `attack stationary-man` with the low random value 0. -/
def fightStart : World := (Game.new (bus 0) [3, 1, 0, 0, 0, 0, 0]).getD overWorld

/-- After `go east`: in room C, where stationary-man is. -/
def fightWorld0 : World :=
  (Listener.run (bus 3) Listener.go (Payload.words ["go", "east"]) fightStart).getD overWorld

/-- After the first attack. -/
def fightWorld1 : World :=
  (Listener.run (bus 3) Listener.attack (Payload.words ["attack", "stationary-man"])
    fightWorld0).getD overWorld

/-- After the second attack. -/
def fightWorld2 : World :=
  (Listener.run (bus 3) Listener.attack (Payload.words ["attack", "stationary-man"])
    fightWorld1).getD overWorld

/-- After the third attack. -/
def fightWorld3 : World :=
  (Listener.run (bus 3) Listener.attack (Payload.words ["attack", "stationary-man"])
    fightWorld2).getD overWorld

/-- After the fourth attack. -/
def fightWorld4 : World :=
  (Listener.run (bus 3) Listener.attack (Payload.words ["attack", "stationary-man"])
    fightWorld3).getD overWorld

/-- After the fifth attack. -/
def fightWorld5 : World :=
  (Listener.run (bus 3) Listener.attack (Payload.words ["attack", "stationary-man"])
    fightWorld4).getD overWorld

/-- The event names of the registry of the running program, in lower case. -/
def registeredNames : List String :=
  ["go", "map", "info", "restart", "teleport", "exit", "take", "use", "inventory", "attack",
    "characterdeath", "enterroom", "victory", "defeat", "curse", "input"]

/-- The ten command names of the command table. -/
def commandNames : List String :=
  ["go", "take", "use", "attack", "teleport", "inventory", "map", "info", "restart", "exit"]

/-- The registry after the given `listen` calls, made in this order on an
empty registry. -/
def EventManager.listenAll (calls : List (String × Listener)) : Registry :=
  calls.foldl (fun reg c => EventManager.listen reg c.1 c.2) []

/-- The items `Game::reset` puts into room `i`. -/
def Game.home (i : RoomId) : List Item := (Game.fresh.rooms i).itemsInRoom

/-- The four items of the world: key, cursed_item, potion, sword. -/
def Game.items : List Item :=
  [{ addr := 1, description := "key", weightGrams := centi 27 0, multiplier := 0,
     isWeapon := false },
   { addr := 2, description := "cursed_item", weightGrams := centi 15 56, multiplier := 0,
     isWeapon := false },
   { addr := 3, description := "potion", weightGrams := centi 10 25, multiplier := 0,
     isWeapon := false },
   { addr := 4, description := "sword", weightGrams := centi 150 0, multiplier := 5,
     isWeapon := true }]

/-- Where the items are: the inventory holds no item twice and only items of
the initial placement, and every room holds the items `Game::reset` put there
that are not in the inventory. -/
def Game.Placed (g : Game) : Prop :=
  g.player.itemInventory.Nodup ∧
  (∀ x ∈ g.player.itemInventory, ∃ i, x ∈ Game.home i) ∧
  ∀ i, (g.rooms i).itemsInRoom =
    (Game.home i).filter fun x => decide (x ∉ g.player.itemInventory)

/-- Two games hold the same items in the same containers. -/
def Game.SameItems (g g1 : Game) : Prop :=
  g1.player.itemInventory = g.player.itemInventory ∧
  ∀ i, (g1.rooms i).itemsInRoom = (g.rooms i).itemsInRoom

/-- After one lost attack in room C and `use potion`: the health went from
100 to 80 and back to 100. -/
def healWorld : World :=
  (Listener.run (bus 3) Listener.use (Payload.words ["use", "potion"]) fightWorld1).getD
    overWorld

/-- The health of the player is at most 100. -/
def Game.HealthCapped (g : Game) : Prop := g.player.health ≤ 100

/-- The roll `winner` of `Game::attack` for the value `random` of `rand()`. -/
def Game.winner (g : Game) (random : Nat) : Int :=
  if g.player.hasItem "sword" = true then ((random % 20 : Nat) : Int) + g.sword.multiplier
  else ((random % 20 : Nat) : Int)

/-- The four directions, each with the opposite one. -/
def directionPairs : List (String × String) :=
  [("north", "south"), ("east", "west"), ("south", "north"), ("west", "east")]

/-- An event raised `n` times in a row with the same argument. -/
def triggerTimes (trigger : Trigger) (event_name : String) (args : Payload) :
    Nat → World → Option World
  | 0, w => some w
  | n + 1, w => (trigger event_name args w).bind (triggerTimes trigger event_name args n)

/-- A fresh game, then `go west`: the player is in room B. -/
def westWorld : World :=
  (Listener.run (bus 3) Listener.go (Payload.words ["go", "west"]) pathWorld0).getD overWorld

/-- A fresh game, then `take key` in room A, which holds no item. -/
def emptyHandWorld : World :=
  (Listener.run (bus 3) Listener.take (Payload.words ["take", "key"]) pathWorld0).getD overWorld

/-- A fresh game, then `go south`: the player is in room H, east of the gated
room G, with nothing in hand. -/
def southWorld : World :=
  (Listener.run (bus 3) Listener.go (Payload.words ["go", "south"]) pathWorld0).getD overWorld

/-- After `go west` in room H with nothing in hand. -/
def refusedWorld : World :=
  (Listener.run (bus 3) Listener.go (Payload.words ["go", "west"]) southWorld).getD overWorld

/-- A fresh game whose coming random values select the gated room G twice
(6 and 16), then room C (2), then a step east for the roaming enemy. -/
def teleportWorld : World := { pathWorld0 with rand := [6, 16, 2, 1] }

/-- The enemies of a room after a hit on `name`, in the words of the
specification: every enemy of that name loses 20 health, not below 0, and is
removed when it is at 0 then; the others stay as they are. -/
def hitAll (name : String) (enemies : List Enemy) : List Enemy :=
  (enemies.map fun e =>
    if e.name = name then { e with health := max 0 (e.health - 20) } else e).filter
    fun e => decide (¬ (e.name = name ∧ e.health ≤ 0))

/-- World `w1` differs from `w` at most in the enemies of the room of the
player and in the output. -/
def World.HitFrame (w w1 : World) : Prop :=
  w1.game.player = w.game.player ∧ w1.game.mojo = w.game.mojo ∧
  w1.game.gameOver = w.game.gameOver ∧ w1.rand = w.rand ∧ w1.running = w.running ∧
  (∀ i, i ≠ w.game.player.currentRoom → w1.game.rooms i = w.game.rooms i) ∧
  w1.here.itemsInRoom = w.here.itemsInRoom

/-- In room C with stationary-man, the next random value being 15. -/
def hitWorld : World := { fightWorld0 with rand := [15] }

/-- How often "Victory!" has been written. -/
def World.victories (w : World) : Nat := w.cout.count (Tok.lit "Victory!")

/-- A fresh program and the worlds along four teleports, to the rooms A, A, A
and J, the roaming enemy stepping east, east, west and east. -/
def teleStart : World := (Game.new (bus 0) [0, 1, 0, 1, 0, 3, 9, 1]).getD overWorld

/-- After the first teleport: in room A with 70 stamina. -/
def teleWorld1 : World :=
  (Listener.run (bus 3) Listener.teleport (Payload.words ["teleport"]) teleStart).getD overWorld

/-- After the second teleport: in room A with 40 stamina. -/
def teleWorld2 : World :=
  (Listener.run (bus 3) Listener.teleport (Payload.words ["teleport"]) teleWorld1).getD overWorld

/-- After the third teleport: in room A with 10 stamina. -/
def teleWorld3 : World :=
  (Listener.run (bus 3) Listener.teleport (Payload.words ["teleport"]) teleWorld2).getD overWorld

/-- After the fourth teleport: in room J with no stamina left. -/
def teleWorld4 : World :=
  (Listener.run (bus 3) Listener.teleport (Payload.words ["teleport"]) teleWorld3).getD overWorld

/-- The enemies of every room are different objects. -/
def Game.DistinctEnemies (g : Game) : Prop :=
  ∀ i, (g.rooms i).enemiesInRoom.Pairwise (fun a b => a.addr ≠ b.addr)

/-- What a command may do to the roaming enemy: leave its stamina and room, or
(when it is fit) move it to another room for 4 stamina. -/
def Game.MojoStep (g g1 : Game) : Prop :=
  (g1.mojo.stamina = g.mojo.stamina ∧ g1.mojo.currentRoom = g.mojo.currentRoom) ∨
  (g.enemyCheck = true ∧ g1.mojo.stamina = Enemy.clamp (g.mojo.stamina - 4) ∧
    g1.mojo.currentRoom ≠ g.mojo.currentRoom)

/-- The relocations of the roaming enemy between two states one command
apart: 1 when it is in another room, 0 when it is not. -/
def relocations (w w1 : World) : Nat :=
  if w1.game.mojo.currentRoom = w.game.mojo.currentRoom then 0 else 1

/-- The states the program reaches, with the number of relocations of the
roaming enemy since the last `Game::reset` (the fresh game or the last
restart). -/
inductive Relocated : Nat → World → Prop where
  | fresh (depth : Nat) (tape : List Nat) (w : World) :
      Game.new (bus depth) tape = some w → Relocated 0 w
  | restart (depth : Nat) (args : List String) (n : Nat) (w w1 : World) :
      Relocated n w →
      Listener.run (bus depth) Listener.restart (Payload.words args) w = some w1 →
      Relocated 0 w1
  | step (depth : Nat) (l : Listener) (args : List String) (n : Nat) (w w1 : World) :
      Relocated n w →
      l ∈ [Listener.go, Listener.take, Listener.use, Listener.attack, Listener.teleport] →
      Listener.run (bus depth) l (Payload.words args) w = some w1 →
      Relocated (n + relocations w w1) w1

/-- A fresh program whose random values move the roaming enemy at every step:
from room D east to E and to F, then west and east between F and E. -/
def roamStart : World :=
  (Game.new (bus 0) [1, 1, 3, 1, 3, 1, 3, 1, 3, 1, 3, 1, 3, 1, 3, 1, 3, 1, 3, 1, 3, 1, 3, 1, 3]).getD overWorld

/-- After command 1 of the walk between the rooms A and C: `go east`. -/
def roamWorld1 : World :=
  (Listener.run (bus 3) Listener.go (Payload.words ["go", "east"]) roamStart).getD overWorld

/-- After command 2 of the walk between the rooms A and C: `go west`. -/
def roamWorld2 : World :=
  (Listener.run (bus 3) Listener.go (Payload.words ["go", "west"]) roamWorld1).getD overWorld

/-- After command 3 of the walk between the rooms A and C: `go east`. -/
def roamWorld3 : World :=
  (Listener.run (bus 3) Listener.go (Payload.words ["go", "east"]) roamWorld2).getD overWorld

/-- After command 4 of the walk between the rooms A and C: `go west`. -/
def roamWorld4 : World :=
  (Listener.run (bus 3) Listener.go (Payload.words ["go", "west"]) roamWorld3).getD overWorld

/-- After command 5 of the walk between the rooms A and C: `go east`. -/
def roamWorld5 : World :=
  (Listener.run (bus 3) Listener.go (Payload.words ["go", "east"]) roamWorld4).getD overWorld

/-- After command 6 of the walk between the rooms A and C: `go west`. -/
def roamWorld6 : World :=
  (Listener.run (bus 3) Listener.go (Payload.words ["go", "west"]) roamWorld5).getD overWorld

/-- After command 7 of the walk between the rooms A and C: `go east`. -/
def roamWorld7 : World :=
  (Listener.run (bus 3) Listener.go (Payload.words ["go", "east"]) roamWorld6).getD overWorld

/-- After command 8 of the walk between the rooms A and C: `go west`. -/
def roamWorld8 : World :=
  (Listener.run (bus 3) Listener.go (Payload.words ["go", "west"]) roamWorld7).getD overWorld

/-- After command 9 of the walk between the rooms A and C: `go east`. -/
def roamWorld9 : World :=
  (Listener.run (bus 3) Listener.go (Payload.words ["go", "east"]) roamWorld8).getD overWorld

/-- After command 10 of the walk between the rooms A and C: `go west`. -/
def roamWorld10 : World :=
  (Listener.run (bus 3) Listener.go (Payload.words ["go", "west"]) roamWorld9).getD overWorld

/-- After command 11 of the walk between the rooms A and C: `go east`. -/
def roamWorld11 : World :=
  (Listener.run (bus 3) Listener.go (Payload.words ["go", "east"]) roamWorld10).getD overWorld

/-- After command 12 of the walk between the rooms A and C: `go west`. -/
def roamWorld12 : World :=
  (Listener.run (bus 3) Listener.go (Payload.words ["go", "west"]) roamWorld11).getD overWorld

/-- After command 13 of the walk between the rooms A and C: `go east`. -/
def roamWorld13 : World :=
  (Listener.run (bus 3) Listener.go (Payload.words ["go", "east"]) roamWorld12).getD overWorld

/-- After command 14 of the walk between the rooms A and C: `go west`. -/
def roamWorld14 : World :=
  (Listener.run (bus 3) Listener.go (Payload.words ["go", "west"]) roamWorld13).getD overWorld

/-- After command 15 of the walk between the rooms A and C: `go east`. -/
def roamWorld15 : World :=
  (Listener.run (bus 3) Listener.go (Payload.words ["go", "east"]) roamWorld14).getD overWorld

/-- After command 16 of the walk between the rooms A and C: `go west`. -/
def roamWorld16 : World :=
  (Listener.run (bus 3) Listener.go (Payload.words ["go", "west"]) roamWorld15).getD overWorld

/-- After command 17 of the walk between the rooms A and C: `go east`. -/
def roamWorld17 : World :=
  (Listener.run (bus 3) Listener.go (Payload.words ["go", "east"]) roamWorld16).getD overWorld

/-- After command 18 of the walk between the rooms A and C: `go west`. -/
def roamWorld18 : World :=
  (Listener.run (bus 3) Listener.go (Payload.words ["go", "west"]) roamWorld17).getD overWorld

/-- After command 19 of the walk between the rooms A and C: `go east`. -/
def roamWorld19 : World :=
  (Listener.run (bus 3) Listener.go (Payload.words ["go", "east"]) roamWorld18).getD overWorld

/-- After command 20 of the walk between the rooms A and C: `go west`. -/
def roamWorld20 : World :=
  (Listener.run (bus 3) Listener.go (Payload.words ["go", "west"]) roamWorld19).getD overWorld

/-- After command 21 of the walk between the rooms A and C: `go east`. -/
def roamWorld21 : World :=
  (Listener.run (bus 3) Listener.go (Payload.words ["go", "east"]) roamWorld20).getD overWorld

/-- After command 22 of the walk between the rooms A and C: `go west`. -/
def roamWorld22 : World :=
  (Listener.run (bus 3) Listener.go (Payload.words ["go", "west"]) roamWorld21).getD overWorld

/-- After command 23 of the walk between the rooms A and C: `go east`. -/
def roamWorld23 : World :=
  (Listener.run (bus 3) Listener.go (Payload.words ["go", "east"]) roamWorld22).getD overWorld

/-- After command 24 of the walk between the rooms A and C: `go west`. -/
def roamWorld24 : World :=
  (Listener.run (bus 3) Listener.go (Payload.words ["go", "west"]) roamWorld23).getD overWorld

/-- After command 25 of the walk between the rooms A and C: `go east`. -/
def roamWorld25 : World :=
  (Listener.run (bus 3) Listener.go (Payload.words ["go", "east"]) roamWorld24).getD overWorld

/-- After command 26 of the walk between the rooms A and C: `go west`. -/
def roamWorld26 : World :=
  (Listener.run (bus 3) Listener.go (Payload.words ["go", "west"]) roamWorld25).getD overWorld

/-! ## Proofs -/

/-- C1. Once the game is over the go, take, use, attack and teleport
handlers return the world they were given, whatever the argument and the bus:
no field of the game changes, the running flag and the random values are
untouched and nothing is written. -/
theorem C1_game_over_commands_are_noops (trigger : Trigger) (l : Listener) (args : Payload)
    (w : World)
    (hl : l ∈ [Listener.go, Listener.take, Listener.use, Listener.attack, Listener.teleport])
    (hover : w.game.gameOver = true) :
    Listener.run trigger l args w = some w := by
  simp only [List.mem_cons, List.mem_singleton, List.not_mem_nil, or_false] at hl
  rcases hl with h | h | h | h | h <;> subst h <;>
    simp [Listener.run, GoListener.run, TakeListener.run, UseListener.run, AttackListener.run,
      TeleportListener.run, Game.is_over, hover]

/-- C1, at the attack handler in a game that is over. -/
theorem C1_game_over_commands_are_noops_witness :
    overWorld.game.gameOver = true ∧
      Listener.run (bus 4) Listener.attack (Payload.words ["attack", "mojo"]) overWorld =
        some overWorld :=
  ⟨rfl, C1_game_over_commands_are_noops (bus 4) Listener.attack
    (Payload.words ["attack", "mojo"]) overWorld (by decide) rfl⟩

/-- C2 fails as stated: in a game that is over the inventory handler still
writes the inventory text, the map handler its ten lines and the info handler
the help text. -/
theorem C2_inventory_map_info_print_when_over :
    overWorld.game.gameOver = true ∧ overWorld.cout = [] ∧
      (Listener.run (bus 4) Listener.inventory (Payload.words ["inventory"]) overWorld).map
        (fun w => w.cout) = some [Tok.inventory [], endl] ∧
      (Listener.run (bus 4) Listener.map (Payload.words ["map"]) overWorld).map
        (fun w => w.cout.length) = some 32 ∧
      (Listener.run (bus 4) Listener.info (Payload.words ["info"]) overWorld).map
        (fun w => w.cout.length) = some 23 ∧
      Listener.run (bus 4) Listener.inventory (Payload.words ["inventory"]) overWorld ≠
        some overWorld := by
  refine ⟨rfl, rfl, by decide, by decide, by decide, ?_⟩
  intro h
  have h2 := congrArg (fun o => o.map fun w => w.cout.length) h
  revert h2
  decide

/-- C2 as amended. In a game that is over, go, take, use, attack and teleport
return the world unchanged and write nothing; inventory, map and info leave
the game, the running flag and the random values unchanged and append a
non-empty text to the output. -/
theorem C2_game_over_guards (trigger : Trigger) (args : Payload) (w : World)
    (hover : w.game.gameOver = true) :
    (∀ l ∈ [Listener.go, Listener.take, Listener.use, Listener.attack, Listener.teleport],
      Listener.run trigger l args w = some w) ∧
    (∀ l ∈ [Listener.inventory, Listener.map, Listener.info],
      ∃ out, out ≠ [] ∧ Listener.run trigger l args w = some (w.print out)) := by
  constructor
  · intro l hl
    simp only [List.mem_cons, List.mem_singleton, List.not_mem_nil, or_false] at hl
    rcases hl with h | h | h | h | h <;> subst h <;>
      simp [Listener.run, GoListener.run, TakeListener.run, UseListener.run,
        AttackListener.run, TeleportListener.run, Game.is_over, hover]
  · intro l hl
    simp only [List.mem_cons, List.mem_singleton, List.not_mem_nil, or_false] at hl
    rcases hl with h | h | h <;> subst h
    · exact ⟨_, by simp, rfl⟩
    · exact ⟨_, by simp, rfl⟩
    · exact ⟨_, by simp, rfl⟩

/-- C2 as amended, at the game-over world. -/
theorem C2_game_over_guards_witness :
    overWorld.game.gameOver = true ∧
      (∀ l ∈ [Listener.go, Listener.take, Listener.use, Listener.attack, Listener.teleport],
        Listener.run (bus 4) l (Payload.words ["map"]) overWorld = some overWorld) ∧
      (∀ l ∈ [Listener.inventory, Listener.map, Listener.info],
        ∃ out, out ≠ [] ∧
          Listener.run (bus 4) l (Payload.words ["map"]) overWorld =
            some (overWorld.print out)) :=
  ⟨rfl, C2_game_over_guards (bus 4) (Payload.words ["map"]) overWorld rfl⟩

/-- `Game::reset` returns, and leaves the initial placement whatever the world
it starts from; it touches neither the running flag nor the random values. -/
theorem reset_game (trigger : Trigger) (show_update : Bool) (w : World) :
    ∃ w1, Game.reset trigger show_update w = some w1 ∧ w1.game = Game.fresh ∧
      w1.running = w.running ∧ w1.rand = w.rand := by
  cases show_update <;>
    simp [Game.reset, Player.setHealth, Player.setStamina, Item.new, Weapon.new,
      Item.setWeight, centi, Enemy.new, World.print, World.setRoom, World.setPlayerRoom,
      World.setPlayerHealth, World.setPlayerStamina, Player.emptyInventory,
      Character.setHealth, Character.setStamina, Enemy.clamp, Room.addItem, Room.addEnemy,
      Game.update_screen]
  all_goals
    simp only [Game.fresh, Game.mk.injEq, centi]
    refine ⟨trivial, ?_, by decide, by decide⟩
    funext i
    fin_cases i <;> rfl

/-- C3. From every world, restart (`Game::reset`) returns and leaves the game
of a fresh program: not over, the player in room A (index 0) with health 100,
stamina 100 and nothing in hand, mojo in room D (index 3) with health 100 and
stamina 100, the key of weight 27 and the enemy stationary-man with health 100
in room C, cursed_item in G, the potion in D, the sword with multiplier 5 in
F, every other room empty. A second restart leaves the same game. -/
theorem C3_restart_gives_fresh_game (trigger trigger0 : Trigger) (show_update : Bool)
    (tape : List Nat) (w : World) :
    ∃ w1 w0, Game.reset trigger show_update w = some w1 ∧
      Game.new trigger0 tape = some w0 ∧ w1.game = w0.game ∧
      w1.game.gameOver = false ∧
      w1.game.player = { health := 100, stamina := 100, currentRoom := 0, itemInventory := [] } ∧
      w1.game.mojo = { health := 100, stamina := 100, currentRoom := 3 } ∧
      (w1.game.rooms 2).itemsInRoom.map (fun it => (it.description, it.weightGrams)) =
        [("key", centi 27 0)] ∧
      (w1.game.rooms 2).enemiesInRoom.map (fun e => (e.name, e.health)) =
        [("stationary-man", 100)] ∧
      (w1.game.rooms 6).itemsInRoom.map (fun it => it.description) = ["cursed_item"] ∧
      (w1.game.rooms 3).itemsInRoom.map (fun it => it.description) = ["potion"] ∧
      (w1.game.rooms 5).itemsInRoom.map (fun it => (it.description, it.multiplier)) =
        [("sword", 5)] ∧
      (∀ i : RoomId, i ≠ 2 → (w1.game.rooms i).enemiesInRoom = []) ∧
      (∀ i : RoomId, i ≠ 2 → i ≠ 3 → i ≠ 5 → i ≠ 6 → (w1.game.rooms i).itemsInRoom = []) ∧
      ∃ w2, Game.reset trigger show_update w1 = some w2 ∧ w2.game = w1.game := by
  obtain ⟨w1, h1, hg1, -, -⟩ := reset_game trigger show_update w
  obtain ⟨w0, h0, hg0, -, -⟩ := reset_game trigger0 true
    { game :=
        { player := { health := 100, stamina := 100, currentRoom := 0, itemInventory := [] },
          rooms := fun _ => { itemsInRoom := [], enemiesInRoom := [] },
          gameOver := false,
          mojo := { health := 100, stamina := 100, currentRoom := 0 },
          key := { addr := 0, description := "", weightGrams := 0, multiplier := 0,
                   isWeapon := false },
          sword := { addr := 0, description := "", weightGrams := 0, multiplier := 0,
                     isWeapon := false } },
      running := true,
      cout := [Tok.lit "Character created (base class)", endl,
        Tok.lit "Player created (child class)", endl,
        Tok.lit "Character created (base class)", endl,
        Tok.lit "Enemy created (child class)", endl],
      rand := tape }
  obtain ⟨w2, h2, hg2, -, -⟩ := reset_game trigger show_update w1
  refine ⟨w1, w0, h1, h0, by rw [hg1, hg0], ?_, ?_, ?_, ?_, ?_, ?_, ?_, ?_, ?_, ?_,
    w2, h2, by rw [hg2, hg1]⟩
  all_goals rw [hg1]
  all_goals try rfl
  all_goals decide


/-! ### The configured bus -/

theorem at_characterDeath : registry.at (tolower "characterDeath") = [Listener.characterDeath] := by
  decide

theorem at_enterRoom : registry.at (tolower "enterRoom") = [Listener.enterRoom] := by decide

theorem at_defeat : registry.at (tolower "defeat") = [Listener.defeat] := by decide

theorem at_victory : registry.at (tolower "victory") = [Listener.victory] := by decide

theorem at_curse : registry.at (tolower "curse") = [Listener.curse] := by decide

theorem bus_succ (depth : Nat) (event_name : String) (args : Payload) (w : World) :
    bus (depth + 1) event_name args w =
      EventManager.runAll (Listener.run (bus depth)) args (registry.at (tolower event_name)) w :=
  rfl

theorem bus_zero (event_name : String) (args : Payload) (w : World) :
    bus 0 event_name args w = none := rfl

theorem bus_defeat (depth : Nat) (args : Payload) (w : World) :
    bus (depth + 1) "defeat" args w =
      some ((w.print [endl, Tok.lit "Defeat!", endl]).setOver true) := by
  simp [bus_succ, at_defeat, EventManager.runAll, Listener.run, DefeatListener.run]

theorem bus_victory (depth : Nat) (args : Payload) (w : World) :
    bus (depth + 1) "victory" args w =
      some ((w.print [endl, Tok.lit "Victory!", endl]).setOver true) := by
  simp [bus_succ, at_victory, EventManager.runAll, Listener.run, VictoryListener.run]

theorem bus_death (depth : Nat) (w : World) :
    bus (depth + 2) "characterDeath" Payload.player w = some w.death := by
  simp [bus_succ (depth + 1), at_characterDeath, EventManager.runAll, Listener.run,
    CharacterDeathListener.run, bus_defeat, World.death, Game.is_over]
  split_ifs <;> simp_all

theorem bus_death_sound (depth : Nat) (w w1 : World)
    (h : bus depth "characterDeath" Payload.player w = some w1) : w1 = w.death := by
  match depth with
  | 0 => simp [bus_zero] at h
  | 1 =>
    simp [bus_succ 0, at_characterDeath, EventManager.runAll, Listener.run,
      CharacterDeathListener.run, bus_zero, World.death, Game.is_over] at h
    obtain ⟨h1, rfl⟩ := h
    simp [World.death, h1]
  | d + 2 => rw [bus_death] at h; exact (Option.some.inj h).symm

theorem bus_enter (depth : Nat) (r : RoomId) (w : World) :
    bus (depth + 2) "enterRoom" (Payload.room r) w = some (w.enter r) := by
  simp [bus_succ (depth + 1), at_enterRoom, EventManager.runAll, Listener.run,
    EnterRoomListener.run, bus_victory, World.enter, Game.is_over]
  split_ifs <;> simp_all


theorem bus_enter_sound (depth : Nat) (r : RoomId) (w w1 : World)
    (h : bus depth "enterRoom" (Payload.room r) w = some w1) : w1 = w.enter r := by
  match depth with
  | 0 => simp [bus_zero] at h
  | 1 =>
    simp only [bus_succ 0, at_enterRoom, EventManager.runAll, Listener.run,
      EnterRoomListener.run, bus_zero, Game.is_over] at h
    unfold World.enter
    split_ifs at h ⊢ <;> simp_all
  | d + 2 => rw [bus_enter] at h; exact (Option.some.inj h).symm

theorem setHealth_live (trigger : Trigger) (hl : Live trigger) (health : Int) (w : World) :
    Player.setHealth trigger health w = some (w.setHealthD health) := by
  unfold Player.setHealth World.setHealthD
  split_ifs <;> simp [hl.death]

theorem setStamina_live (trigger : Trigger) (hl : Live trigger) (stamina : Int) (w : World) :
    Player.setStamina trigger stamina w = some (w.setStaminaD stamina) := by
  unfold Player.setStamina World.setStaminaD
  split_ifs <;> simp [hl.death]

theorem setHealth_sound (trigger : Trigger) (hs : Sound trigger) (health : Int) (w w1 : World)
    (h : Player.setHealth trigger health w = some w1) : w1 = w.setHealthD health := by
  unfold Player.setHealth at h
  unfold World.setHealthD
  split_ifs at h ⊢
  · obtain ⟨w2, h2, h3⟩ := Option.bind_eq_some.mp h
    rw [← hs.death w w2 h2]; exact (Option.some.inj h3).symm
  · exact (Option.some.inj h).symm

theorem setStamina_sound (trigger : Trigger) (hs : Sound trigger) (stamina : Int) (w w1 : World)
    (h : Player.setStamina trigger stamina w = some w1) : w1 = w.setStaminaD stamina := by
  unfold Player.setStamina at h
  unfold World.setStaminaD
  split_ifs at h ⊢
  · obtain ⟨w2, h2, h3⟩ := Option.bind_eq_some.mp h
    rw [← hs.death w w2 h2]; exact (Option.some.inj h3).symm
  · exact (Option.some.inj h).symm

theorem bus_curse (depth : Nat) (w : World) :
    bus (depth + 3) "curse" Payload.player w = some w.curse := by
  have hd : ∀ w, bus (depth + 2) "characterDeath" Payload.player w = some w.death :=
    bus_death depth
  simp [bus_succ (depth + 2), at_curse, EventManager.runAll, Listener.run, CurseListener.run,
    World.curse, Player.setHealth, World.setHealthD, hd]
  split_ifs <;> simp

theorem bus_live (depth : Nat) : Live (bus (depth + 3)) :=
  ⟨bus_death (depth + 1), bus_enter (depth + 1), bus_curse depth⟩

theorem bus_curse_sound (depth : Nat) (w w1 : World)
    (h : bus depth "curse" Payload.player w = some w1) : w1 = w.curse := by
  match depth with
  | 0 => simp [bus_zero] at h
  | d + 1 =>
    simp only [bus_succ d, at_curse, EventManager.runAll, Listener.run, CurseListener.run] at h
    obtain ⟨w2, h2, h3⟩ := Option.bind_eq_some.mp h
    obtain ⟨w3, h4, h5⟩ := Option.bind_eq_some.mp h2
    have h6 : w3 = w.setHealthD (w.game.player.health - 20) := by
      unfold Player.setHealth at h4
      unfold World.setHealthD
      split_ifs at h4 ⊢
      · obtain ⟨w4, h7, h8⟩ := Option.bind_eq_some.mp h4
        rw [← bus_death_sound d w w4 h7]; exact (Option.some.inj h8).symm
      · exact (Option.some.inj h4).symm
    subst h6
    simp at h5 h3
    subst h5; subst h3; rfl

theorem bus_sound (depth : Nat) : Sound (bus depth) :=
  ⟨bus_death_sound depth, bus_enter_sound depth, bus_curse_sound depth⟩

theorem Live.sound {trigger : Trigger} (hl : Live trigger) : Sound trigger :=
  ⟨fun w w1 h => by rw [hl.death] at h; exact (Option.some.inj h).symm,
   fun r w w1 h => by rw [hl.enter] at h; exact (Option.some.inj h).symm,
   fun w w1 h => by rw [hl.curse] at h; exact (Option.some.inj h).symm⟩


theorem setHealth_mono {t t1 : Trigger} (hs : Sound t) (hl : Live t1) {health : Int}
    {w w1 : World} (h : Player.setHealth t health w = some w1) :
    Player.setHealth t1 health w = some w1 := by
  rw [setHealth_live t1 hl, setHealth_sound t hs _ _ _ h]

theorem setStamina_mono {t t1 : Trigger} (hs : Sound t) (hl : Live t1) {stamina : Int}
    {w w1 : World} (h : Player.setStamina t stamina w = some w1) :
    Player.setStamina t1 stamina w = some w1 := by
  rw [setStamina_live t1 hl, setStamina_sound t hs _ _ _ h]

theorem go_mono {t t1 : Trigger} (hs : Sound t) (hl : Live t1) {direction : String}
    {w w1 : World} (h : Game.go t direction w = some w1) :
    Game.go t1 direction w = some w1 := by
  unfold Game.go at h ⊢
  simp only at h ⊢
  split_ifs at h ⊢ with hk
  · exact h
  · cases hn : Room.getExit w.game.player.currentRoom direction with
    | none => simpa [hn] using h
    | some n =>
      simp only [hn] at h ⊢
      obtain ⟨w2, h2, h3⟩ := Option.bind_eq_some.mp h
      obtain ⟨w3, h4, h5⟩ := Option.bind_eq_some.mp h3
      rw [h2]
      simp only [Option.some_bind]
      have h6 : w3 = (w2.setPlayerRoom n).setStaminaD
          ((w2.setPlayerRoom n).game.player.stamina -
            Game.goCost (w2.setPlayerRoom n).game.player.itemInventory) := by
        unfold Game.goCost
        split_ifs at h4 ⊢ <;> exact setStamina_sound t hs _ _ _ h4
      have h7 := hs.enter _ _ _ h5
      subst h6; subst h7
      simp only [setStamina_live t1 hl, hl.enter, Game.goCost]
      split_ifs <;> rfl


theorem teleport_mono {t t1 : Trigger} (hs : Sound t) (hl : Live t1)
    {w w1 : World} (h : Game.teleport t w = some w1) :
    Game.teleport t1 w = some w1 := by
  unfold Game.teleport at h ⊢
  cases hr : w.nextRand with
  | none => simp [hr] at h
  | some p =>
    obtain ⟨random, w0⟩ := p
    simp only [hr] at h ⊢
    cases hloop : Game.teleportLoop (w0.game.player.hasItem "key") (roomAt random) w0.rand with
    | none => simp [hloop] at h
    | some q =>
      obtain ⟨selected, rest⟩ := q
      simp only [hloop] at h ⊢
      obtain ⟨w2, h2, h3⟩ := Option.bind_eq_some.mp h
      obtain ⟨w3, h4, h5⟩ := Option.bind_eq_some.mp h3
      rw [setStamina_mono hs hl h2]
      simp only [Option.some_bind]
      rw [hl.enter, ← hs.enter _ _ _ h4]
      exact h5

theorem takeLoop_mono {t t1 : Trigger} (hs : Sound t) (hl : Live t1) (itemName : String)
    (items : List Item) :
    ∀ {w w1 : World}, Game.takeLoop t itemName items w = some w1 →
      Game.takeLoop t1 itemName items w = some w1 := by
  induction items with
  | nil => intro w w1 h; simpa [Game.takeLoop] using h
  | cons newItem rest ih =>
    intro w w1 h
    unfold Game.takeLoop at h ⊢
    dsimp only at h ⊢
    split_ifs at h ⊢ with hname hc hp
    all_goals first
      | exact ih h
      | (obtain ⟨w3, h3, h4⟩ := Option.bind_eq_some.mp h
         rw [hl.curse, ← hs.curse _ _ h3]; exact ih h4)

theorem take_mono {t t1 : Trigger} (hs : Sound t) (hl : Live t1) {itemName : String}
    {w w1 : World} (h : Game.take t itemName w = some w1) :
    Game.take t1 itemName w = some w1 := by
  unfold Game.take at h ⊢
  split_ifs at h ⊢
  · exact h
  · obtain ⟨w2, h2, h3⟩ := Option.bind_eq_some.mp h
    rw [takeLoop_mono hs hl _ _ h2]; exact h3

theorem attack_mono {t t1 : Trigger} (hs : Sound t) (hl : Live t1) {name : String}
    {w w1 : World} (h : Game.attack t name w = some w1) :
    Game.attack t1 name w = some w1 := by
  unfold Game.attack at h ⊢
  simp only at h ⊢
  split_ifs at h ⊢
  · cases hr : w.nextRand with
    | none => simp [hr] at h
    | some p =>
      obtain ⟨random, w0⟩ := p
      simp only [hr] at h ⊢
      split_ifs at h ⊢
      all_goals first
        | exact h
        | (obtain ⟨w2, h2, h3⟩ := Option.bind_eq_some.mp h
           rw [setHealth_mono hs hl h2]; exact h3)
  · exact h

theorem reset_mono (t t1 : Trigger) (show_update : Bool) (w : World) :
    Game.reset t show_update w = Game.reset t1 show_update w := by
  simp [Game.reset, Player.setHealth, Player.setStamina]

/-- A command of a bus that may run out of nested dispatches gives, when it
returns, what the same command gives on a bus that does not. -/
theorem run_mono {t t1 : Trigger} (hs : Sound t) (hl : Live t1) {l : Listener}
    (hc : l ∈ commands) {args : List String} {w w1 : World}
    (h : Listener.run t l (Payload.words args) w = some w1) :
    Listener.run t1 l (Payload.words args) w = some w1 := by
  simp only [commands, List.mem_cons, List.mem_singleton, List.not_mem_nil, or_false] at hc
  rcases hc with rfl | rfl | rfl | rfl | rfl | rfl
  · simp only [Listener.run, GoListener.run] at h ⊢
    split_ifs at h ⊢
    · exact h
    · exact go_mono hs hl h
    · exact h
  · simp only [Listener.run, TakeListener.run] at h ⊢
    split_ifs at h ⊢
    · exact h
    · exact take_mono hs hl h
    · exact h
  · exact h
  · simp only [Listener.run, AttackListener.run] at h ⊢
    split_ifs at h ⊢
    · exact h
    · exact attack_mono hs hl h
    · exact h
  · simp only [Listener.run, TeleportListener.run] at h ⊢
    split_ifs at h ⊢
    · exact h
    · exact teleport_mono hs hl h
  · simp only [Listener.run, RestartListener.run] at h ⊢
    rw [reset_mono t1 t]; exact h


/-- The handlers that start with the `is_over` guard. -/
theorem run_over (trigger : Trigger) (l : Listener) (args : Payload) (w : World)
    (hl : l ∈ [Listener.go, Listener.take, Listener.use, Listener.attack, Listener.teleport])
    (hover : w.game.gameOver = true) :
    Listener.run trigger l args w = some w := by
  simp only [List.mem_cons, List.mem_singleton, List.not_mem_nil, or_false] at hl
  rcases hl with h | h | h | h | h <;> subst h <;>
    simp [Listener.run, GoListener.run, TakeListener.run, UseListener.run, AttackListener.run,
      TeleportListener.run, Game.is_over, hover]

/-- Induction over the reachable states: a property of the game that holds
for the initial placement and is kept by every guarded command run, while the
game is not over, on a bus that handles the three events, holds in every
reachable state. -/
theorem reachable_invariant (P : Game → Prop) (h0 : P Game.fresh)
    (hstep : ∀ (t : Trigger), Live t →
      ∀ l ∈ [Listener.go, Listener.take, Listener.use, Listener.attack, Listener.teleport],
      ∀ (args : List String) (w w1 : World), w.game.gameOver = false → P w.game →
        Listener.run t l (Payload.words args) w = some w1 → P w1.game) :
    ∀ w, Reachable w → P w.game := by
  intro w hw
  induction hw with
  | fresh depth tape w h =>
    obtain ⟨w1, h1, hg, -, -⟩ := reset_game (bus depth) true _
    unfold Game.new at h
    rw [h1] at h
    cases h
    rw [hg]; exact h0
  | step depth l args w w1 _ hc hrun ih =>
    have hrun3 := run_mono (bus_sound depth) (bus_live 0) hc hrun
    simp only [commands, List.mem_cons, List.mem_singleton, List.not_mem_nil, or_false] at hc
    by_cases hr : l = Listener.restart
    · subst hr
      obtain ⟨w2, h2, hg, -, -⟩ := reset_game (bus 3) false w
      simp only [Listener.run, RestartListener.run] at hrun3
      rw [h2] at hrun3
      cases hrun3
      rw [hg]; exact h0
    · have hl : l ∈ [Listener.go, Listener.take, Listener.use, Listener.attack,
          Listener.teleport] := by
        simp only [List.mem_cons, List.mem_singleton, List.not_mem_nil, or_false]
        tauto
      cases hover : w.game.gameOver with
      | true =>
        rw [run_over _ l _ w hl hover] at hrun3
        cases hrun3
        exact ih
      | false => exact hstep _ (bus_live 0) l hl args w w1 hover ih hrun3


/-! ### What the commands do on a bus that handles the three events -/

theorem enemyMoveLoop_exit (room : RoomId) (tape : List Nat) :
    ∀ (start : Option RoomId) (next : RoomId) (rest : List Nat),
      Game.enemyMoveLoop room start tape = some (next, rest) →
      start = some next ∨ ∃ random ∈ tape,
        Room.getExit room (directions (random % 4)) = some next := by
  induction tape with
  | nil =>
    intro start next rest h
    cases start with
    | none => simp [Game.enemyMoveLoop] at h
    | some s => simp [Game.enemyMoveLoop] at h; exact Or.inl (by rw [h.1])
  | cons r tape ih =>
    intro start next rest h
    cases start with
    | none =>
      simp only [Game.enemyMoveLoop] at h
      rcases ih _ _ _ h with h1 | ⟨x, hx, h1⟩
      · exact Or.inr ⟨r, List.mem_cons_self _ _, h1⟩
      · exact Or.inr ⟨x, List.mem_cons_of_mem _ hx, h1⟩
    | some s => simp [Game.enemyMoveLoop] at h; exact Or.inl (by rw [h.1])

/-- `Game::enemyMove` changes nothing but `mojo`, the random values to come
and the output; the health of `mojo` stays, and either `mojo` stays as a whole
or it was fit, moved through an exit of its room and paid 4 stamina. -/
theorem enemyMove_effect {w w1 : World} (h : Game.enemyMove w = some w1) :
    ∃ m rest out,
      w1 = { w with game := { w.game with mojo := m }, rand := rest, cout := w.cout ++ out } ∧
      m.health = w.game.mojo.health ∧
      ((m = w.game.mojo ∧ w.game.enemyCheck = false) ∨
        (w.game.enemyCheck = true ∧ m.stamina = Enemy.clamp (w.game.mojo.stamina - 4) ∧
          ∃ random ∈ w.rand,
            Room.getExit w.game.mojo.currentRoom (directions (random % 4)) =
              some m.currentRoom)) := by
  unfold Game.enemyMove at h
  split_ifs at h with hc
  · cases hloop : Game.enemyMoveLoop w.game.mojo.currentRoom
        (Room.getExit w.game.mojo.currentRoom "") w.rand with
    | none => simp [hloop] at h
    | some p =>
      obtain ⟨next, rest⟩ := p
      simp only [hloop] at h
      have hnone : Room.getExit w.game.mojo.currentRoom "" = none := by
        simp [Room.getExit]
      have hex := (enemyMoveLoop_exit _ _ _ _ _ hloop).resolve_left (by rw [hnone]; simp)
      split_ifs at h
      · refine ⟨Character.setStamina { w.game.mojo with currentRoom := next }
          (w.game.mojo.stamina - 4), rest, [], ?_, ?_, Or.inr ⟨hc, ?_, hex⟩⟩
        · cases h; simp
        · simp [Character.setStamina]
        · simp [Character.setStamina]
      · refine ⟨Character.setStamina { w.game.mojo with currentRoom := next }
          (w.game.mojo.stamina - 4), rest,
          [Tok.lit "An enemy died due to a lack of stamina!"], ?_, ?_, Or.inr ⟨hc, ?_, hex⟩⟩
        · cases h; simp [World.print]
        · simp [Character.setStamina]
        · simp [Character.setStamina]
  · refine ⟨w.game.mojo, w.rand, [], ?_, rfl, Or.inl ⟨rfl, by simpa using hc⟩⟩
    cases h; simp

/-- `Game::go` either only writes a message (no exit, or the key is missing)
or moves: the roaming enemy steps, the player changes room, pays the stamina
and the room is entered. -/
theorem go_effect {t : Trigger} (hl : Live t) {direction : String} {w w1 : World}
    (h : Game.go t direction w = some w1) :
    (∃ out, w1 = w.print out) ∨
    ∃ n w2, Room.getExit w.game.player.currentRoom direction = some n ∧
      (n = 6 → w.game.player.hasItem "key" = true) ∧ Game.enemyMove w = some w2 ∧
      w1 = ((w2.setPlayerRoom n).setStaminaD
        (w2.game.player.stamina - Game.goCost w2.game.player.itemInventory)).enter n := by
  unfold Game.go at h
  simp only at h
  split_ifs at h with hk
  · exact Or.inl ⟨_, (Option.some.inj h).symm⟩
  · cases hn : Room.getExit w.game.player.currentRoom direction with
    | none => simp only [hn] at h; exact Or.inl ⟨_, (Option.some.inj h).symm⟩
    | some n =>
      simp only [hn] at h
      obtain ⟨w2, h2, h3⟩ := Option.bind_eq_some.mp h
      refine Or.inr ⟨n, w2, rfl, ?_, h2, ?_⟩
      · intro h6; subst h6
        by_contra hne
        exact hk ⟨hn, hne⟩
      · simp only [setStamina_live t hl, hl.enter] at h3
        unfold Game.goCost
        simp only [World.setPlayerRoom] at h3 ⊢
        split_ifs at h3 ⊢ <;> exact (Option.some.inj h3).symm

theorem teleportLoop_gate (hasKey : Bool) (tape : List Nat) :
    ∀ (selected s : RoomId) (rest : List Nat),
      Game.teleportLoop hasKey selected tape = some (s, rest) → s = 6 → hasKey = true := by
  induction tape with
  | nil =>
    intro selected s rest h hs
    simp only [Game.teleportLoop] at h
    split_ifs at h with hc
    simp only [Option.some.injEq, Prod.mk.injEq] at h
    by_contra hk
    exact hc ⟨by rw [h.1, hs], hk⟩
  | cons r tape ih =>
    intro selected s rest h hs
    simp only [Game.teleportLoop] at h
    split_ifs at h with hc
    · exact ih _ _ _ h hs
    · simp only [Option.some.injEq, Prod.mk.injEq] at h
      by_contra hk
      exact hc ⟨by rw [h.1, hs], hk⟩

/-- `Game::teleport` moves the player to the selected room, which is G only
with the key in hand, takes 30 stamina, enters the room and then lets the
roaming enemy step. -/
theorem teleport_effect {t : Trigger} (hl : Live t) {w w1 : World}
    (h : Game.teleport t w = some w1) :
    ∃ selected rest w3, (selected = 6 → w.game.player.hasItem "key" = true) ∧
      w3 = ((World.setPlayerRoom { w with rand := rest } selected).setStaminaD
        (w.game.player.stamina - 30)).enter selected ∧
      Game.enemyMove w3 = some w1 := by
  unfold Game.teleport at h
  cases hr : w.nextRand with
  | none => simp [hr] at h
  | some p =>
    obtain ⟨random, w0⟩ := p
    simp only [hr] at h
    have hw0 : w0 = { w with rand := w0.rand } := by
      unfold World.nextRand at hr
      split at hr
      · cases hr
      · cases hr; rfl
    cases hloop : Game.teleportLoop (w0.game.player.hasItem "key") (roomAt random) w0.rand with
    | none => simp [hloop] at h
    | some q =>
      obtain ⟨selected, rest⟩ := q
      simp only [hloop, setStamina_live t hl, hl.enter, Option.some_bind] at h
      have hg := teleportLoop_gate _ _ _ _ _ hloop
      refine ⟨selected, rest, _, ?_, rfl, ?_⟩
      · intro hs; rw [hw0] at hg; exact hg hs
      · rw [hw0] at h; exact h


theorem takeAll_cons (itemName : String) (it : Item) (rest : List Item) (w : World) :
    Game.takeAll itemName (it :: rest) w =
      Game.takeAll itemName rest (if it.description = itemName then Game.takeStep it w else w) :=
  rfl

theorem takeLoop_live {t : Trigger} (hl : Live t) (itemName : String) (items : List Item) :
    ∀ w : World, Game.takeLoop t itemName items w = some (Game.takeAll itemName items w) := by
  induction items with
  | nil => intro w; rfl
  | cons newItem rest ih =>
    intro w
    unfold Game.takeLoop
    rw [takeAll_cons]
    by_cases hname : newItem.description = itemName
    · rw [if_pos hname, if_pos hname]
      simp only [ih]
      unfold Game.takeStep
      split_ifs <;> simp only [hl.curse, Option.some_bind]
    · rw [if_neg hname, if_neg hname]
      exact ih w

theorem take_live {t : Trigger} (hl : Live t) (itemName : String) (w : World) :
    Game.take t itemName w =
      some ((if w.here.itemsInRoom.length = 0 then w.print [Tok.lit "No items in room."]
        else Game.takeAll itemName w.here.itemsInRoom w).print
          [(if w.here.itemsInRoom.length = 0 then w.print [Tok.lit "No items in room."]
            else Game.takeAll itemName w.here.itemsInRoom w).game.player.getItems, endl]) := by
  unfold Game.take
  split_ifs
  · rfl
  · simp only [takeLoop_live hl, Option.some_bind]

/-- A property of worlds kept by every round of the loop of `Game::take` is
kept by the loop. -/
theorem takeAll_keeps (Q : World → Prop) (itemName : String)
    (hstep : ∀ it w, it.description = itemName → Q w → Q (Game.takeStep it w))
    (items : List Item) : ∀ w, Q w → Q (Game.takeAll itemName items w) := by
  induction items with
  | nil => intro w h; exact h
  | cons it rest ih =>
    intro w h
    simp only [takeAll_cons]
    split_ifs with hn
    · exact ih _ (hstep it w hn h)
    · exact ih _ h

/-! ### C5: alive unless over -/

theorem alive_setStaminaD (w : World) (v : Int) (h : w.game.AliveUnlessOver) :
    (w.setStaminaD v).game.AliveUnlessOver := by
  unfold World.setStaminaD World.death Game.AliveUnlessOver at *
  split_ifs with h1 h2 <;>
    simp_all [World.setPlayerStamina, World.setOver, World.print]

theorem alive_setHealthD (w : World) (v : Int) (h : w.game.AliveUnlessOver) :
    (w.setHealthD v).game.AliveUnlessOver := by
  unfold World.setHealthD World.death Game.AliveUnlessOver at *
  split_ifs with h1 h2 <;>
    simp_all [World.setPlayerHealth, World.setOver, World.print]

theorem alive_enter (w : World) (r : RoomId) (h : w.game.AliveUnlessOver) :
    (w.enter r).game.AliveUnlessOver := by
  unfold World.enter Game.AliveUnlessOver at *
  split_ifs <;> simp_all [World.setOver, World.print]

theorem alive_of_player_eq {g g1 : Game} (hp : g1.player.health = g.player.health)
    (hs : g1.player.stamina = g.player.stamina) (ho : g1.gameOver = g.gameOver)
    (h : g.AliveUnlessOver) : g1.AliveUnlessOver := by
  unfold Game.AliveUnlessOver at *
  rw [hp, hs, ho]; exact h

theorem alive_enemyMove {w w1 : World} (hm : Game.enemyMove w = some w1)
    (h : w.game.AliveUnlessOver) : w1.game.AliveUnlessOver := by
  obtain ⟨m, rest, out, rfl, -, -⟩ := enemyMove_effect hm
  exact h

theorem alive_use (itemName : String) (w : World) (h : w.game.AliveUnlessOver) :
    (Game.use itemName w).game.AliveUnlessOver := by
  unfold Game.use
  split_ifs with hc
  · intro ho
    have h1 := h ho
    exact ⟨by show 0 < w.game.player.health + 20; omega, h1.2⟩
  · exact h

theorem alive_curse (w : World) (h : w.game.AliveUnlessOver) : w.curse.game.AliveUnlessOver :=
  alive_setHealthD _ _ h

theorem alive_takeStep (it : Item) (w : World) (h : w.game.AliveUnlessOver) :
    (Game.takeStep it w).game.AliveUnlessOver := by
  have h2 : (World.setRoom (Player.addItem it w) (Player.addItem it w).game.player.currentRoom
      ((Player.addItem it w).here.removeItem it)).game.AliveUnlessOver := by
    refine alive_of_player_eq ?_ ?_ ?_ h <;>
      (unfold Player.addItem World.setRoom; split_ifs <;> rfl)
  unfold Game.takeStep
  simp only
  split_ifs
  all_goals first
    | exact h2
    | exact alive_use _ _ h2
    | exact alive_curse _ h2
    | exact alive_use _ _ (alive_curse _ h2)

theorem attackLoop_cons (name : String) (e : Enemy) (rest : List Enemy) (w : World) :
    Game.attackLoop name (e :: rest) w =
      Game.attackLoop name rest (if e.name = name then Game.attackStep e w else w) := by
  unfold Game.attackStep
  rw [Game.attackLoop]
  dsimp only
  split_ifs <;> rfl

/-- A property of worlds kept by every round of the hit loop of
`Game::attack` is kept by the loop. -/
theorem attackLoop_keeps (Q : World → Prop) (name : String)
    (hstep : ∀ e w, e.name = name → Q w → Q (Game.attackStep e w))
    (enemies : List Enemy) : ∀ w, Q w → Q (Game.attackLoop name enemies w) := by
  induction enemies with
  | nil => intro w h; exact h
  | cons e rest ih =>
    intro w h
    rw [attackLoop_cons]
    split_ifs with hn
    · exact ih _ (hstep e w hn h)
    · exact ih _ h

/-- `Game::attack` writes that there is nobody to attack, or draws a random
value and then back-fires on the player, hits `mojo`, or goes through the
enemies of the room. -/
theorem attack_effect {t : Trigger} (hl : Live t) {name : String} {w w1 : World}
    (h : Game.attack t name w = some w1) :
    (∃ out, Tok.lit "Defeat!" ∉ out ∧ w1 = w.print out) ∨
    ∃ random rest, w.rand = random :: rest ∧
      ((∃ out, Tok.lit "Defeat!" ∉ out ∧
          w1 = (World.backfire { w with rand := rest }).print out) ∨
       (∃ out, Tok.lit "Defeat!" ∉ out ∧ name = "mojo" ∧
          w.game.mojo.currentRoom = w.game.player.currentRoom ∧
          w.game.enemyCheck = true ∧
          w1 = World.print
            { w with
              rand := rest,
              game := { w.game with
                mojo := w.game.mojo.setHealth (w.game.mojo.health - 15) } } out) ∨
       w1 = Game.attackLoop name w.here.enemiesInRoom { w with rand := rest }) := by
  unfold Game.attack at h
  simp only at h
  split_ifs at h
  · unfold World.nextRand at h
    cases hr : w.rand with
    | nil => simp [hr] at h
    | cons random rest =>
      simp only [hr] at h
      refine Or.inr ⟨random, rest, rfl, ?_⟩
      split_ifs at h
      all_goals first
        | (right; right; exact (Option.some.inj h).symm)
        | (right; left
           exact ⟨_, by decide, ‹_ ∧ _ ∧ _›.1, ‹_ ∧ _ ∧ _›.2.1, ‹_ ∧ _ ∧ _›.2.2,
             (Option.some.inj h).symm⟩)
        | (left
           simp only [setHealth_live t hl, Option.some_bind] at h
           refine ⟨[Tok.lit "\nYou were injured by the enemy!\n"], by decide, ?_⟩
           rw [← Option.some.inj h]; unfold World.backfire
           split_ifs <;> first | rfl | contradiction)
  · exact Or.inl ⟨_, by decide, (Option.some.inj h).symm⟩

theorem alive_backfire (w : World) (h : w.game.AliveUnlessOver) :
    w.backfire.game.AliveUnlessOver := by
  unfold World.backfire
  split_ifs with h1
  · unfold World.setHealthD World.death Game.AliveUnlessOver at *
    split_ifs <;> simp_all [World.setPlayerHealth, World.setOver, World.print]
  · intro ho
    have h2 := h ho
    exact ⟨by simpa [World.setPlayerHealth] using h1, h2.2⟩

theorem alive_attackStep (e : Enemy) (w : World) (h : w.game.AliveUnlessOver) :
    (Game.attackStep e w).game.AliveUnlessOver := by
  refine alive_of_player_eq ?_ ?_ ?_ h <;>
    (unfold Game.attackStep; dsimp only; split_ifs <;> rfl)

theorem alive_attack {t : Trigger} (hl : Live t) {name : String} {w w1 : World}
    (hrun : Game.attack t name w = some w1) (h : w.game.AliveUnlessOver) :
    w1.game.AliveUnlessOver := by
  rcases attack_effect hl hrun with ⟨out, -, rfl⟩ | ⟨random, rest, -, hcase⟩
  · exact h
  · rcases hcase with ⟨out, -, rfl⟩ | ⟨out, -, -, -, -, rfl⟩ | rfl
    · exact alive_backfire { w with rand := rest } h
    · exact h
    · exact attackLoop_keeps (fun w => w.game.AliveUnlessOver) name
        (fun e w _ hw => alive_attackStep e w hw) _ _ h

theorem alive_go {t : Trigger} (hl : Live t) {direction : String} {w w1 : World}
    (hrun : Game.go t direction w = some w1) (h : w.game.AliveUnlessOver) :
    w1.game.AliveUnlessOver := by
  rcases go_effect hl hrun with ⟨out, rfl⟩ | ⟨n, w2, -, -, hm, rfl⟩
  · exact h
  · exact alive_enter _ _ (alive_setStaminaD _ _
      (@alive_of_player_eq w2.game (w2.setPlayerRoom n).game rfl rfl rfl
        (alive_enemyMove hm h)))

theorem alive_teleport {t : Trigger} (hl : Live t) {w w1 : World}
    (hrun : Game.teleport t w = some w1) (h : w.game.AliveUnlessOver) :
    w1.game.AliveUnlessOver := by
  obtain ⟨selected, rest, w3, -, rfl, hm⟩ := teleport_effect hl hrun
  exact alive_enemyMove hm (alive_enter _ _ (alive_setStaminaD _ _
    (@alive_of_player_eq w.game
      (World.setPlayerRoom { w with rand := rest } selected).game rfl rfl rfl h)))

theorem alive_take {t : Trigger} (hl : Live t) {itemName : String} {w w1 : World}
    (hrun : Game.take t itemName w = some w1) (h : w.game.AliveUnlessOver) :
    w1.game.AliveUnlessOver := by
  rw [take_live hl] at hrun
  cases hrun
  split_ifs
  · exact h
  · exact takeAll_keeps (fun w => w.game.AliveUnlessOver) _
      (fun it w _ h => alive_takeStep it w h) _ _ h

/-- The guarded handlers, on a bus that handles the three events, keep the
player alive unless the game is over. -/
theorem alive_step (t : Trigger) (hl : Live t) (l : Listener)
    (hc : l ∈ [Listener.go, Listener.take, Listener.use, Listener.attack, Listener.teleport])
    (args : List String) (w w1 : World) (_hover : w.game.gameOver = false)
    (h : w.game.AliveUnlessOver) (hrun : Listener.run t l (Payload.words args) w = some w1) :
    w1.game.AliveUnlessOver := by
  simp only [List.mem_cons, List.mem_singleton, List.not_mem_nil, or_false] at hc
  rcases hc with rfl | rfl | rfl | rfl | rfl
  · simp only [Listener.run, GoListener.run] at hrun
    split_ifs at hrun
    · cases hrun; exact h
    · exact alive_go hl hrun h
    · cases hrun; exact h
  · simp only [Listener.run, TakeListener.run] at hrun
    split_ifs at hrun
    · cases hrun; exact h
    · exact alive_take hl hrun h
    · cases hrun; exact h
  · simp only [Listener.run, UseListener.run] at hrun
    split_ifs at hrun
    · cases hrun; exact h
    · cases hrun; exact alive_use _ _ h
    · cases hrun; exact h
  · simp only [Listener.run, AttackListener.run] at hrun
    split_ifs at hrun
    · cases hrun; exact h
    · exact alive_attack hl hrun h
    · cases hrun; exact h
  · simp only [Listener.run, TeleportListener.run] at hrun
    split_ifs at hrun
    · cases hrun; exact h
    · exact alive_teleport hl hrun h


/-- C5. In every reachable state the player is alive unless the game is
over: with gameOver false, health and stamina are positive; so a health or
stamina of 0 (or less) comes with gameOver true. -/
theorem C5_alive_unless_game_over (w : World) (hr : Reachable w) :
    (w.game.gameOver = false → 0 < w.game.player.health ∧ 0 < w.game.player.stamina) ∧
    (w.game.player.health ≤ 0 ∨ w.game.player.stamina ≤ 0 → w.game.gameOver = true) := by
  have h : w.game.AliveUnlessOver :=
    reachable_invariant Game.AliveUnlessOver (by intro _; decide) alive_step w hr
  refine ⟨h, ?_⟩
  intro hz
  cases ho : w.game.gameOver with
  | true => rfl
  | false =>
    have h1 := h ho
    omega

/-! ### Frame facts -/

@[simp] theorem print_game (w : World) (ts : List Tok) : (w.print ts).game = w.game := rfl

@[simp] theorem death_player (w : World) : w.death.game.player = w.game.player := by
  unfold World.death; split_ifs <;> rfl

@[simp] theorem death_rooms (w : World) : w.death.game.rooms = w.game.rooms := by
  unfold World.death; split_ifs <;> rfl

@[simp] theorem death_mojo (w : World) : w.death.game.mojo = w.game.mojo := by
  unfold World.death; split_ifs <;> rfl

@[simp] theorem enter_player (w : World) (r : RoomId) : (w.enter r).game.player = w.game.player := by
  unfold World.enter; split_ifs <;> rfl

@[simp] theorem enter_rooms (w : World) (r : RoomId) : (w.enter r).game.rooms = w.game.rooms := by
  unfold World.enter; split_ifs <;> rfl

@[simp] theorem enter_mojo (w : World) (r : RoomId) : (w.enter r).game.mojo = w.game.mojo := by
  unfold World.enter; split_ifs <;> rfl

@[simp] theorem setStaminaD_player (w : World) (v : Int) :
    (w.setStaminaD v).game.player = { w.game.player with stamina := if v ≤ 0 then 0 else v } := by
  unfold World.setStaminaD
  split_ifs <;> simp [World.setPlayerStamina]

@[simp] theorem setStaminaD_rooms (w : World) (v : Int) :
    (w.setStaminaD v).game.rooms = w.game.rooms := by
  unfold World.setStaminaD
  split_ifs <;> simp [World.setPlayerStamina]

@[simp] theorem setStaminaD_mojo (w : World) (v : Int) :
    (w.setStaminaD v).game.mojo = w.game.mojo := by
  unfold World.setStaminaD
  split_ifs <;> simp [World.setPlayerStamina]

@[simp] theorem setHealthD_player (w : World) (v : Int) :
    (w.setHealthD v).game.player = { w.game.player with health := if v ≤ 0 then 0 else v } := by
  unfold World.setHealthD
  split_ifs <;> simp [World.setPlayerHealth]

@[simp] theorem setHealthD_rooms (w : World) (v : Int) :
    (w.setHealthD v).game.rooms = w.game.rooms := by
  unfold World.setHealthD
  split_ifs <;> simp [World.setPlayerHealth]

@[simp] theorem setHealthD_mojo (w : World) (v : Int) :
    (w.setHealthD v).game.mojo = w.game.mojo := by
  unfold World.setHealthD
  split_ifs <;> simp [World.setPlayerHealth]

@[simp] theorem curse_player (w : World) :
    w.curse.game.player =
      { w.game.player with
        health := if w.game.player.health - 20 ≤ 0 then 0 else w.game.player.health - 20 } := by
  simp [World.curse]

@[simp] theorem curse_rooms (w : World) : w.curse.game.rooms = w.game.rooms := by
  simp [World.curse]

@[simp] theorem curse_mojo (w : World) : w.curse.game.mojo = w.game.mojo := by
  simp [World.curse]

@[simp] theorem backfire_player (w : World) :
    w.backfire.game.player =
      { w.game.player with
        health := if w.game.player.health - 20 ≤ 0 then 0 else w.game.player.health - 20 } := by
  unfold World.backfire
  split_ifs with h1 h2 h2 <;> simp_all [World.setPlayerHealth]

@[simp] theorem backfire_rooms (w : World) : w.backfire.game.rooms = w.game.rooms := by
  unfold World.backfire
  split_ifs <;> simp [World.setPlayerHealth]

@[simp] theorem backfire_mojo (w : World) : w.backfire.game.mojo = w.game.mojo := by
  unfold World.backfire
  split_ifs <;> simp [World.setPlayerHealth]

@[simp] theorem use_player (itemName : String) (w : World) :
    (Game.use itemName w).game.player =
      { w.game.player with
        health := if itemName = "potion" ∧ w.game.player.health ≤ 80
          then w.game.player.health + 20 else w.game.player.health } := by
  unfold Game.use
  split_ifs <;> simp [World.setPlayerHealth]

@[simp] theorem use_rooms (itemName : String) (w : World) :
    (Game.use itemName w).game.rooms = w.game.rooms := by
  unfold Game.use
  split_ifs <;> simp [World.setPlayerHealth]

@[simp] theorem use_mojo (itemName : String) (w : World) :
    (Game.use itemName w).game.mojo = w.game.mojo := by
  unfold Game.use
  split_ifs <;> simp [World.setPlayerHealth]

theorem eraseLoop_subset {α : Type} (f : α → Nat) (p : Nat) :
    ∀ (l : List α) (x : α), x ∈ eraseLoop f p l → x ∈ l
  | [], x, h => by simp [eraseLoop] at h
  | [a], x, h => by
    unfold eraseLoop at h
    split_ifs at h <;> simp_all [eraseLoop]
  | a :: b :: rest, x, h => by
    unfold eraseLoop at h
    split_ifs at h
    · rcases List.mem_cons.mp h with rfl | h1
      · simp
      · have := eraseLoop_subset f p rest x h1
        simp [this]
    · rcases List.mem_cons.mp h with rfl | h1
      · simp
      · exact List.mem_cons_of_mem _ (eraseLoop_subset f p (b :: rest) x h1)

/-- The items step of the loop of `Game::take`: the room of the player, the
stamina and `mojo` stay, the enemies of every room stay, the inventory is the
old one or the old one with the item at its end. -/
theorem takeStep_frame (it : Item) (w : World) :
    (Game.takeStep it w).game.player.currentRoom = w.game.player.currentRoom ∧
    (Game.takeStep it w).game.player.stamina = w.game.player.stamina ∧
    (Game.takeStep it w).game.mojo = w.game.mojo ∧
    (∀ i, ((Game.takeStep it w).game.rooms i).enemiesInRoom = (w.game.rooms i).enemiesInRoom) ∧
    ((Game.takeStep it w).game.player.itemInventory = w.game.player.itemInventory ∨
      (Game.takeStep it w).game.player.itemInventory = w.game.player.itemInventory ++ [it]) := by
  unfold Game.takeStep
  dsimp only
  refine ⟨?_, ?_, ?_, ?_, ?_⟩
  · split_ifs <;> simp [World.setRoom, Player.addItem] <;> split_ifs <;> rfl
  · split_ifs <;> simp [World.setRoom, Player.addItem] <;> split_ifs <;> rfl
  · split_ifs <;> simp [World.setRoom, Player.addItem] <;> split_ifs <;> rfl
  · intro i
    split_ifs <;> simp [World.setRoom, Player.addItem, World.here, Room.removeItem,
      Function.update_apply] <;> split_ifs <;> simp_all
  · split_ifs <;> simp [World.setRoom, Player.addItem] <;> split_ifs <;> simp


/-! ### C4: nothing is negative -/

theorem clamp_nonneg (v : Int) : 0 ≤ Enemy.clamp v := by
  unfold Enemy.clamp; split_ifs <;> omega

theorem nonneg_enemyMove {w w1 : World} (hm : Game.enemyMove w = some w1)
    (h : w.game.NonNeg) : w1.game.NonNeg := by
  obtain ⟨m, rest, out, rfl, hh, hcase⟩ := enemyMove_effect hm
  obtain ⟨h1, h2, h3, h4, h5⟩ := h
  refine ⟨h1, h2, by rw [hh]; exact h3, ?_, h5⟩
  rcases hcase with ⟨rfl, -⟩ | ⟨-, hs, -⟩
  · exact h4
  · show 0 ≤ m.stamina
    rw [hs]; exact clamp_nonneg _

theorem nonneg_move (w : World) (n : RoomId) (v : Int) (h : w.game.NonNeg) :
    (((w.setPlayerRoom n).setStaminaD v).enter n).game.NonNeg := by
  obtain ⟨h1, h2, h3, h4, h5⟩ := h
  refine ⟨?_, ?_, ?_, ?_, ?_⟩
  · simpa [World.setPlayerRoom] using h1
  · show 0 ≤ (((w.setPlayerRoom n).setStaminaD v).enter n).game.player.stamina
    rw [enter_player, setStaminaD_player]
    dsimp only
    split_ifs <;> omega
  · simpa [World.setPlayerRoom] using h3
  · simpa [World.setPlayerRoom] using h4
  · simpa [World.setPlayerRoom] using h5

theorem nonneg_use (itemName : String) (w : World) (h : w.game.NonNeg) :
    (Game.use itemName w).game.NonNeg := by
  obtain ⟨h1, h2, h3, h4, h5⟩ := h
  refine ⟨?_, ?_, ?_, ?_, ?_⟩
  · show 0 ≤ (Game.use itemName w).game.player.health
    rw [use_player]
    dsimp only
    split_ifs <;> omega
  · simpa using h2
  · simpa using h3
  · simpa using h4
  · simpa using h5

theorem takeStep_health (it : Item) (w : World) (h : 0 ≤ w.game.player.health) :
    0 ≤ (Game.takeStep it w).game.player.health := by
  have h2 : (World.setRoom (Player.addItem it w) (Player.addItem it w).game.player.currentRoom
      ((Player.addItem it w).here.removeItem it)).game.player.health =
      w.game.player.health := by
    unfold Player.addItem World.setRoom; split_ifs <;> rfl
  unfold Game.takeStep
  dsimp only
  split_ifs
  all_goals simp only [use_player, curse_player, print_game, h2]
  all_goals try split_ifs
  all_goals omega

theorem nonneg_takeStep (it : Item) (w : World) (h : w.game.NonNeg) :
    (Game.takeStep it w).game.NonNeg := by
  obtain ⟨h1, h2, h3, h4, h5⟩ := h
  obtain ⟨-, f2, f3, f4, -⟩ := takeStep_frame it w
  refine ⟨takeStep_health it w h1, by rw [f2]; exact h2, by rw [f3]; exact h3,
    by rw [f3]; exact h4, ?_⟩
  intro i e he
  rw [f4] at he
  exact h5 i e he

theorem nonneg_backfire (w : World) (h : w.game.NonNeg) : w.backfire.game.NonNeg := by
  obtain ⟨h1, h2, h3, h4, h5⟩ := h
  refine ⟨?_, ?_, ?_, ?_, ?_⟩
  · show 0 ≤ w.backfire.game.player.health
    rw [backfire_player]
    dsimp only
    split_ifs <;> omega
  · simpa using h2
  · simpa using h3
  · simpa using h4
  · simpa using h5

theorem nonneg_attackStep (e : Enemy) (w : World) (he : 0 ≤ e.stamina) (h : w.game.NonNeg) :
    (Game.attackStep e w).game.NonNeg := by
  obtain ⟨h1, h2, h3, h4, h5⟩ := h
  have key : ∀ x ∈ (w.here.enemiesInRoom.map fun x =>
      if x.addr = e.addr then e.setHealth (e.health - 20) else x),
      0 ≤ x.health ∧ 0 ≤ x.stamina := by
    intro x hx
    obtain ⟨y, hy, rfl⟩ := List.mem_map.mp hx
    split_ifs
    · exact ⟨clamp_nonneg _, he⟩
    · exact h5 _ y hy
  unfold Game.attackStep
  dsimp only
  split_ifs
  · refine ⟨h1, h2, h3, h4, ?_⟩
    intro i x hx
    simp only [print_game, World.setRoom, Function.update_apply, World.here,
      Room.removeEnemy] at hx
    split_ifs at hx with hi
    · simp only [Function.update_same] at hx
      exact key x (eraseLoop_subset _ _ _ _ hx)
    · exact h5 i x hx
  · refine ⟨h1, h2, h3, h4, ?_⟩
    intro i x hx
    simp only [print_game, World.setRoom, Function.update_apply] at hx
    split_ifs at hx with hi
    · exact key x hx
    · exact h5 i x hx


/-- A property of worlds kept by every round of the hit loop of `Game::attack`
for the enemies of the copy is kept by the loop. -/
theorem attackLoop_keeps_of (Q : World → Prop) (R : Enemy → Prop) (name : String)
    (hstep : ∀ e w, R e → Q w → Q (Game.attackStep e w))
    (enemies : List Enemy) (hR : ∀ e ∈ enemies, R e) :
    ∀ w, Q w → Q (Game.attackLoop name enemies w) := by
  induction enemies with
  | nil => intro w h; exact h
  | cons e rest ih =>
    intro w h
    rw [attackLoop_cons]
    have hrest : ∀ x ∈ rest, R x := fun x hx => hR x (List.mem_cons_of_mem _ hx)
    split_ifs with hn
    · exact ih hrest _ (hstep e w (hR e (List.mem_cons_self _ _)) h)
    · exact ih hrest _ h

theorem nonneg_attack {t : Trigger} (hl : Live t) {name : String} {w w1 : World}
    (hrun : Game.attack t name w = some w1) (h : w.game.NonNeg) : w1.game.NonNeg := by
  rcases attack_effect hl hrun with ⟨out, -, rfl⟩ | ⟨random, rest, -, hcase⟩
  · exact h
  · rcases hcase with ⟨out, -, rfl⟩ | ⟨out, -, -, -, -, rfl⟩ | rfl
    · exact nonneg_backfire { w with rand := rest } h
    · obtain ⟨h1, h2, h3, h4, h5⟩ := h
      exact ⟨h1, h2, clamp_nonneg _, h4, h5⟩
    · exact attackLoop_keeps_of (fun w => w.game.NonNeg) (fun e => 0 ≤ e.stamina) name
        (fun e w he hw => nonneg_attackStep e w he hw) _
        (fun e he => (h.2.2.2.2 _ e he).2) _ h

theorem nonneg_go {t : Trigger} (hl : Live t) {direction : String} {w w1 : World}
    (hrun : Game.go t direction w = some w1) (h : w.game.NonNeg) : w1.game.NonNeg := by
  rcases go_effect hl hrun with ⟨out, rfl⟩ | ⟨n, w2, -, -, hm, rfl⟩
  · exact h
  · exact nonneg_move _ _ _ (nonneg_enemyMove hm h)

theorem nonneg_teleport {t : Trigger} (hl : Live t) {w w1 : World}
    (hrun : Game.teleport t w = some w1) (h : w.game.NonNeg) : w1.game.NonNeg := by
  obtain ⟨selected, rest, w3, -, rfl, hm⟩ := teleport_effect hl hrun
  exact nonneg_enemyMove hm (nonneg_move { w with rand := rest } _ _ h)

theorem nonneg_take {t : Trigger} (hl : Live t) {itemName : String} {w w1 : World}
    (hrun : Game.take t itemName w = some w1) (h : w.game.NonNeg) : w1.game.NonNeg := by
  rw [take_live hl] at hrun
  cases hrun
  split_ifs
  · exact h
  · exact takeAll_keeps (fun w => w.game.NonNeg) _
      (fun it w _ h => nonneg_takeStep it w h) _ _ h

/-- Reading off the command behind a guarded handler that ran while the game
was not over: a property of the game kept by the five game operations is kept
by the handlers. -/
theorem step_cases (P : Game → Prop) (t : Trigger)
    (hgo : ∀ direction w w1, Game.go t direction w = some w1 → P w.game → P w1.game)
    (htake : ∀ itemName w w1, Game.take t itemName w = some w1 → P w.game → P w1.game)
    (huse : ∀ itemName w, P w.game → P (Game.use itemName w).game)
    (hattack : ∀ name w w1, Game.attack t name w = some w1 → P w.game → P w1.game)
    (hteleport : ∀ w w1, Game.teleport t w = some w1 → P w.game → P w1.game)
    (l : Listener)
    (hc : l ∈ [Listener.go, Listener.take, Listener.use, Listener.attack, Listener.teleport])
    (args : List String) (w w1 : World) (h : P w.game)
    (hrun : Listener.run t l (Payload.words args) w = some w1) : P w1.game := by
  simp only [List.mem_cons, List.mem_singleton, List.not_mem_nil, or_false] at hc
  rcases hc with rfl | rfl | rfl | rfl | rfl
  · simp only [Listener.run, GoListener.run] at hrun
    split_ifs at hrun
    · cases hrun; exact h
    · exact hgo _ _ _ hrun h
    · cases hrun; exact h
  · simp only [Listener.run, TakeListener.run] at hrun
    split_ifs at hrun
    · cases hrun; exact h
    · exact htake _ _ _ hrun h
    · cases hrun; exact h
  · simp only [Listener.run, UseListener.run] at hrun
    split_ifs at hrun
    · cases hrun; exact h
    · cases hrun; exact huse _ _ h
    · cases hrun; exact h
  · simp only [Listener.run, AttackListener.run] at hrun
    split_ifs at hrun
    · cases hrun; exact h
    · exact hattack _ _ _ hrun h
    · cases hrun; exact h
  · simp only [Listener.run, TeleportListener.run] at hrun
    split_ifs at hrun
    · cases hrun; exact h
    · exact hteleport _ _ hrun h

/-- C4. In every reachable state the health and the stamina of the player,
of the roaming enemy and of every enemy held by a room are at least 0; the
back-fire of attack, which subtracts 20 from the health before it clamps, is
among the steps. -/
theorem C4_health_and_stamina_never_negative (w : World) (hr : Reachable w) :
    0 ≤ w.game.player.health ∧ 0 ≤ w.game.player.stamina ∧
    0 ≤ w.game.mojo.health ∧ 0 ≤ w.game.mojo.stamina ∧
    ∀ i, ∀ e ∈ (w.game.rooms i).enemiesInRoom, 0 ≤ e.health ∧ 0 ≤ e.stamina := by
  refine reachable_invariant Game.NonNeg ?_ ?_ w hr
  · refine ⟨by decide, by decide, by decide, by decide, ?_⟩
    intro i
    fin_cases i <;> decide
  · intro t hl l hc args w w1 _ h hrun
    exact step_cases Game.NonNeg t (fun _ _ _ => nonneg_go hl) (fun _ _ _ => nonneg_take hl)
      nonneg_use (fun _ _ _ => nonneg_attack hl) (fun _ _ => nonneg_teleport hl)
      l hc args w w1 h hrun

/-! ### C8: in room G only with the key -/

theorem keyInG_of_eq {g g1 : Game} (hroom : g1.player.currentRoom = g.player.currentRoom)
    (hinv : g1.player.itemInventory = g.player.itemInventory) (h : g.KeyInG) : g1.KeyInG := by
  unfold Game.KeyInG Player.hasItem at *
  rw [hroom, hinv]; exact h

theorem attackStep_player (e : Enemy) (w : World) :
    (Game.attackStep e w).game.player = w.game.player := by
  unfold Game.attackStep
  dsimp only
  split_ifs <;> rfl

theorem attackLoop_player (name : String) (enemies : List Enemy) (w : World) :
    (Game.attackLoop name enemies w).game.player = w.game.player :=
  attackLoop_keeps (fun w1 => w1.game.player = w.game.player) name
    (fun e w1 _ h => (attackStep_player e w1).trans h) enemies w rfl

/-- `Game::attack` leaves the room and the inventory of the player. -/
theorem attack_player {t : Trigger} (hl : Live t) {name : String} {w w1 : World}
    (hrun : Game.attack t name w = some w1) :
    w1.game.player.currentRoom = w.game.player.currentRoom ∧
      w1.game.player.itemInventory = w.game.player.itemInventory := by
  rcases attack_effect hl hrun with ⟨out, -, rfl⟩ | ⟨random, rest, -, hcase⟩
  · exact ⟨rfl, rfl⟩
  · rcases hcase with ⟨out, -, rfl⟩ | ⟨out, -, -, -, -, rfl⟩ | rfl
    · simp
    · exact ⟨rfl, rfl⟩
    · rw [attackLoop_player]; exact ⟨rfl, rfl⟩

theorem keyInG_takeStep (it : Item) (w : World) (h : w.game.KeyInG) :
    (Game.takeStep it w).game.KeyInG := by
  obtain ⟨f1, -, -, -, f5⟩ := takeStep_frame it w
  unfold Game.KeyInG Player.hasItem at *
  rw [f1]
  intro hroom
  rcases f5 with f5 | f5 <;> rw [f5]
  · exact h hroom
  · rw [List.any_append, h hroom]; rfl

theorem keyInG_go {t : Trigger} (hl : Live t) {direction : String} {w w1 : World}
    (hrun : Game.go t direction w = some w1) (h : w.game.KeyInG) : w1.game.KeyInG := by
  rcases go_effect hl hrun with ⟨out, rfl⟩ | ⟨n, w2, -, hgate, hm, rfl⟩
  · exact h
  · obtain ⟨m, rest, out, rfl, -, -⟩ := enemyMove_effect hm
    intro hroom
    simp only [enter_player, setStaminaD_player, World.setPlayerRoom] at hroom ⊢
    exact hgate hroom

theorem keyInG_teleport {t : Trigger} (hl : Live t) {w w1 : World}
    (hrun : Game.teleport t w = some w1) (_h : w.game.KeyInG) : w1.game.KeyInG := by
  obtain ⟨selected, rest, w3, hgate, rfl, hm⟩ := teleport_effect hl hrun
  obtain ⟨m, rest1, out, rfl, -, -⟩ := enemyMove_effect hm
  intro hroom
  simp only [enter_player, setStaminaD_player, World.setPlayerRoom] at hroom ⊢
  exact hgate hroom

theorem keyInG_take {t : Trigger} (hl : Live t) {itemName : String} {w w1 : World}
    (hrun : Game.take t itemName w = some w1) (h : w.game.KeyInG) : w1.game.KeyInG := by
  rw [take_live hl] at hrun
  cases hrun
  split_ifs
  · exact h
  · exact takeAll_keeps (fun w => w.game.KeyInG) _
      (fun it w _ h => keyInG_takeStep it w h) _ _ h

/-- C8. In every reachable state, a player who stands in the key-gated room G
(index 6) has an item with short description "key" in the inventory. -/
theorem C8_in_gated_room_only_with_key (w : World) (hr : Reachable w)
    (hroom : w.game.player.currentRoom = 6) : w.game.player.hasItem "key" = true := by
  refine reachable_invariant Game.KeyInG ?_ ?_ w hr hroom
  · intro h; exact absurd h (by decide)
  · intro t hl l hc args w w1 _ h hrun
    exact step_cases Game.KeyInG t (fun _ _ _ => keyInG_go hl) (fun _ _ _ => keyInG_take hl)
      (fun itemName w h => keyInG_of_eq (by simp) (by simp) h)
      (fun _ _ _ hrun h => keyInG_of_eq (attack_player hl hrun).1 (attack_player hl hrun).2 h)
      (fun _ _ => keyInG_teleport hl) l hc args w w1 h hrun


/-! ### Movement: C7, C9, C10 -/

theorem enemyMoveLoop_some (room : RoomId) (tape : List Nat)
    (h : ∃ random ∈ tape, (Room.getExit room (directions (random % 4))).isSome) :
    ∀ start, ∃ r, Game.enemyMoveLoop room start tape = some r := by
  induction tape with
  | nil => obtain ⟨x, hx, -⟩ := h; cases hx
  | cons a tape ih =>
    intro start
    cases start with
    | some s => exact ⟨_, rfl⟩
    | none =>
      simp only [Game.enemyMoveLoop]
      cases hx : Room.getExit room (directions (a % 4)) with
      | some n => exact ⟨(n, tape), by cases tape <;> rfl⟩
      | none =>
        apply ih
        obtain ⟨x, hmem, hsome⟩ := h
        rcases List.mem_cons.mp hmem with rfl | hmem
        · rw [hx] at hsome; cases hsome
        · exact ⟨x, hmem, hsome⟩

/-- `Game::enemyMove` returns when the roaming enemy is defeated or one of the
coming random values selects a direction with an exit. -/
theorem enemyMove_some (w : World) (h : Game.canMove w) : ∃ w1, Game.enemyMove w = some w1 := by
  unfold Game.enemyMove
  split_ifs with hc
  · rcases h with h | h
    · rw [h] at hc; cases hc
    · obtain ⟨r, hr⟩ := enemyMoveLoop_some w.game.mojo.currentRoom w.rand h
        (Room.getExit w.game.mojo.currentRoom "")
      rw [hr]
      obtain ⟨n, rest⟩ := r
      dsimp only
      split_ifs <;> exact ⟨_, rfl⟩
  · exact ⟨_, rfl⟩

/-- `Game::go` through an exit that the key gate does not refuse, on a bus
that handles the events: it returns exactly when the roaming enemy can take
its step, and then the player is in the target room with the stamina of the
move taken off. -/
theorem go_moves {t : Trigger} (hl : Live t) {direction : String} {w : World} {n : RoomId}
    (hexit : Room.getExit w.game.player.currentRoom direction = some n)
    (hgate : n = 6 → w.game.player.hasItem "key" = true) :
    Game.go t direction w =
      (Game.enemyMove w).bind fun w2 =>
        some (((w2.setPlayerRoom n).setStaminaD
          (w2.game.player.stamina - Game.goCost w2.game.player.itemInventory)).enter n) := by
  unfold Game.go
  simp only [hexit]
  rw [if_neg]
  · congr 1
    funext w2
    simp only [setStamina_live t hl, hl.enter, Option.some_bind, Game.goCost,
      World.setPlayerRoom]
    split_ifs <;> rfl
  · rintro ⟨h6, hk⟩
    exact hk (hgate (Option.some.inj h6))


/-- C7. When the exit taken leads to the key-gated room G (index 6): without
an item named "key" in the inventory `Game::go` only writes its message, so the
game (player, rooms, roaming enemy, gameOver), the running flag and the random
values stay; with such an item the player is in room G whenever `go` returns,
and it returns as soon as the roaming enemy can take its step. -/
theorem C7_key_gate (depth : Nat) (w : World) (direction : String)
    (hexit : Room.getExit w.game.player.currentRoom direction = some 6) :
    (w.game.player.hasItem "key" = false →
      ∃ out, Game.go (bus depth) direction w = some (w.print out)) ∧
    (w.game.player.hasItem "key" = true →
      (∀ w1, Game.go (bus depth) direction w = some w1 → w1.game.player.currentRoom = 6) ∧
      (Game.canMove w →
        ∃ w1, Game.go (bus (depth + 3)) direction w = some w1 ∧
          w1.game.player.currentRoom = 6)) := by
  constructor
  · intro hk
    refine ⟨[Tok.lit "You need a key to enter this room.", endl,
      Tok.lit "Search for it in another room and then you can enter this one.", endl], ?_⟩
    unfold Game.go
    simp only [hexit]
    rw [if_pos ⟨trivial, by rw [hk]; simp⟩]
  · intro hk
    have hroom : ∀ (t : Trigger), Live t → ∀ w1, Game.go t direction w = some w1 →
        w1.game.player.currentRoom = 6 := by
      intro t hl w1 hrun
      rw [go_moves hl hexit (fun _ => hk)] at hrun
      obtain ⟨w2, -, h2⟩ := Option.bind_eq_some.mp hrun
      cases h2
      simp [World.setPlayerRoom]
    refine ⟨fun w1 hrun => hroom _ (bus_live 0) w1 (go_mono (bus_sound depth) (bus_live 0) hrun),
      ?_⟩
    intro hcan
    obtain ⟨w2, h2⟩ := enemyMove_some w hcan
    have hgo := go_moves (bus_live depth) hexit (fun _ => hk)
    rw [h2] at hgo
    exact ⟨_, hgo, hroom _ (bus_live depth) _ hgo⟩

/-- C7, in room H going west: refused without the key, and with the key in
hand the player arrives in room G. -/
theorem C7_key_gate_witness :
    Room.getExit (gateWorld []).game.player.currentRoom "west" = some 6 ∧
    (∃ out, Game.go (bus 3) "west" (gateWorld []) = some ((gateWorld []).print out)) ∧
    (∃ w1, Game.go (bus 3) "west" (gateWorld [Game.fresh.key]) = some w1 ∧
      w1.game.player.currentRoom = 6) :=
  ⟨rfl, (C7_key_gate 3 (gateWorld []) "west" rfl).1 rfl,
    ((C7_key_gate 0 (gateWorld [Game.fresh.key]) "west" rfl).2 rfl).2
      (Or.inr ⟨1, by decide, rfl⟩)⟩

/-- C10. Input errors change no state. (a) The go, take, use and attack
handlers given a word sequence of length 1 return the world with at most a
message added to the output. (b) `Game::go` in a direction for which the room
of the player has no exit writes "You hit a wall" and changes nothing else;
every string other than north, east, south and west is such a direction. -/
theorem C10_input_errors_change_nothing (t : Trigger) (w : World) :
    (∀ l ∈ [Listener.go, Listener.take, Listener.use, Listener.attack], ∀ word : String,
      ∃ out, Listener.run t l (Payload.words [word]) w = some (w.print out)) ∧
    (∀ direction, Room.getExit w.game.player.currentRoom direction = none →
      Game.go t direction w = some (w.print [Tok.lit "You hit a wall", endl])) ∧
    (∀ (direction : String) (r : RoomId),
      direction ∉ ["north", "east", "south", "west"] → Room.getExit r direction = none) := by
  refine ⟨?_, ?_, ?_⟩
  · intro l hl word
    have hnil : w = w.print [] := by simp [World.print]
    simp only [List.mem_cons, List.mem_singleton, List.not_mem_nil, or_false] at hl
    rcases hl with rfl | rfl | rfl | rfl <;>
      simp only [Listener.run, GoListener.run, TakeListener.run, UseListener.run,
        AttackListener.run, List.length_singleton, gt_iff_lt, lt_self_iff_false, dite_false]
    all_goals split_ifs
    all_goals first
      | exact ⟨[], congrArg some hnil⟩
      | exact ⟨_, rfl⟩
  · intro direction hexit
    unfold Game.go
    simp [hexit]
  · intro direction r hd
    simp only [List.mem_cons, List.mem_singleton, List.not_mem_nil, or_false, not_or] at hd
    unfold Room.getExit
    rw [if_neg hd.1, if_neg hd.2.1, if_neg hd.2.2.1, if_neg hd.2.2.2]


/-! ### C6: one defeat -/

/-- A sequence of guarded commands leaves a world whose game is over as it
is. -/
theorem runCommands_over (t : Trigger) (w : World) (hover : w.game.gameOver = true) :
    ∀ cs : List (Listener × List String),
      (∀ c ∈ cs, c.1 ∈ [Listener.go, Listener.take, Listener.use, Listener.attack,
        Listener.teleport]) →
      runCommands t cs w = some w := by
  intro cs
  induction cs with
  | nil => intro _; rfl
  | cons c rest ih =>
    intro hcs
    obtain ⟨l, args⟩ := c
    unfold runCommands
    rw [run_over t l _ w (hcs (l, args) (List.mem_cons_self _ _)) hover]
    exact ih (fun c hc => hcs c (List.mem_cons_of_mem _ hc))

theorem pathWorld5_reachable : Reachable pathWorld5 :=
  Reachable.step 3 Listener.go ["go", "west"] pathWorld4 pathWorld5
    (Reachable.step 3 Listener.go ["go", "south"] pathWorld3 pathWorld4
      (Reachable.step 3 Listener.go ["go", "west"] pathWorld2 pathWorld3
        (Reachable.step 3 Listener.take ["take", "key"] pathWorld1 pathWorld2
          (Reachable.step 3 Listener.go ["go", "east"] pathWorld0 pathWorld1
            (Reachable.fresh 0 [3, 1, 1, 3, 1] pathWorld0 rfl) (by decide) rfl)
          (by decide) rfl)
        (by decide) rfl)
      (by decide) rfl)
    (by decide) rfl

theorem fightWorld4_reachable : Reachable fightWorld4 :=
  Reachable.step 3 Listener.attack ["attack", "stationary-man"] fightWorld3 fightWorld4
    (Reachable.step 3 Listener.attack ["attack", "stationary-man"] fightWorld2 fightWorld3
      (Reachable.step 3 Listener.attack ["attack", "stationary-man"] fightWorld1 fightWorld2
        (Reachable.step 3 Listener.attack ["attack", "stationary-man"] fightWorld0 fightWorld1
          (Reachable.step 3 Listener.go ["go", "east"] fightStart fightWorld0
            (Reachable.fresh 0 [3, 1, 0, 0, 0, 0, 0] fightStart rfl) (by decide) rfl)
          (by decide) rfl)
        (by decide) rfl)
      (by decide) rfl)
    (by decide) rfl

theorem fightWorld5_reachable : Reachable fightWorld5 :=
  Reachable.step 3 Listener.attack ["attack", "stationary-man"] fightWorld4 fightWorld5
    fightWorld4_reachable (by decide) rfl

theorem fightWorld_lost :
    fightWorld4.game.player.health = 20 ∧ fightWorld4.game.gameOver = false ∧
    fightWorld5.game.player.health = 0 ∧ fightWorld5.game.gameOver = true := by
  decide


/-- C4, after a fight lost in room C: five back-fires have taken the health of
the player from 100 to 0. -/
theorem C4_health_and_stamina_never_negative_witness :
    Reachable fightWorld5 ∧ fightWorld5.game.player.health = 0 ∧
      (0 ≤ fightWorld5.game.player.health ∧ 0 ≤ fightWorld5.game.player.stamina ∧
      0 ≤ fightWorld5.game.mojo.health ∧ 0 ≤ fightWorld5.game.mojo.stamina ∧
      ∀ i, ∀ e ∈ (fightWorld5.game.rooms i).enemiesInRoom, 0 ≤ e.health ∧ 0 ≤ e.stamina) :=
  ⟨fightWorld5_reachable, fightWorld_lost.2.2.1,
    C4_health_and_stamina_never_negative fightWorld5 fightWorld5_reachable⟩

/-- C5, during and after a fight lost in room C: with health 20 the game is
not over, with health 0 it is. -/
theorem C5_alive_unless_game_over_witness :
    Reachable fightWorld4 ∧ fightWorld4.game.gameOver = false ∧
    (0 < fightWorld4.game.player.health ∧ 0 < fightWorld4.game.player.stamina) ∧
    Reachable fightWorld5 ∧ fightWorld5.game.player.health ≤ 0 ∧
    fightWorld5.game.gameOver = true :=
  ⟨fightWorld4_reachable, fightWorld_lost.2.1,
    (C5_alive_unless_game_over fightWorld4 fightWorld4_reachable).1 fightWorld_lost.2.1,
    fightWorld5_reachable, le_of_eq fightWorld_lost.2.2.1,
    (C5_alive_unless_game_over fightWorld5 fightWorld5_reachable).2
      (Or.inl (le_of_eq fightWorld_lost.2.2.1))⟩

/-- C8, after east, take key, west, south, west from a fresh game: the player
stands in room G and holds the key. -/
theorem C8_in_gated_room_only_with_key_witness :
    Reachable pathWorld5 ∧ pathWorld5.game.player.currentRoom = 6 ∧
      pathWorld5.game.player.hasItem "key" = true :=
  ⟨pathWorld5_reachable, rfl,
    C8_in_gated_room_only_with_key pathWorld5 pathWorld5_reachable rfl⟩

/-! ### The event bus and the input handler: C11, C12, C13 -/

theorem registry_names : registry.map Prod.fst = registeredNames := by decide

theorem at_of_not_mem (reg : Registry) (key : String) (h : key ∉ reg.map Prod.fst) :
    reg.at key = [] := by
  induction reg with
  | nil => rfl
  | cons p rest ih =>
    obtain ⟨k, ls⟩ := p
    simp only [List.map_cons, List.mem_cons, not_or] at h
    simp only [Registry.at]
    rw [if_neg (fun hk => h.1 hk.symm)]
    exact ih h.2

theorem at_exit : registry.at (tolower "exit") = [Listener.exit] := by decide

/-- C11, as stated, fails: "victory" is none of the ten command names, yet
typed as the first word of an input in a game that is not over it runs the
victory handler, which writes "Victory!" and sets gameOver. -/
theorem C11_victory_typed_as_command :
    "victory" ∉ commandNames ∧ (gateWorld []).game.gameOver = false ∧
    (InputListener.run (bus 3) (Payload.words ["victory"]) (gateWorld [])).map
      (fun w => (w.game.gameOver, w.cout.take 3)) =
        some (true, [endl, Tok.lit "Victory!", endl]) := by
  decide

/-- `Game::update_screen` only writes. -/
theorem update_screen_prints (w : World) : ∃ out, Game.update_screen w = w.print out := by
  unfold Game.update_screen
  dsimp only
  by_cases hg : ¬ (w.game.gameOver = true)
  · rw [if_pos hg]; exact ⟨_, rfl⟩
  · rw [if_neg hg]; exact ⟨_, rfl⟩

/-- C11, amended. For every state and every input whose first word, in lower
case, is none of the sixteen registered event names (the ten commands and
characterdeath, enterroom, victory, defeat, curse, input), no handler is
registered under it, the input handler returns, having at most rendered the
screen, and the game (gameOver included), the running flag and the random
values are unchanged. -/
theorem C11_unregistered_token_runs_no_handler (depth : Nat) (w : World) (token : String) (rest : List String)
    (h : tolower token ∉ registeredNames) :
    registry.at (tolower token) = [] ∧
    InputListener.run (bus (depth + 1)) (Payload.words (token :: rest)) w =
      some (if w.running = true then Game.update_screen w else w) ∧
    (∀ w1, InputListener.run (bus (depth + 1)) (Payload.words (token :: rest)) w = some w1 →
      w1.game = w.game ∧ w1.running = w.running ∧ w1.rand = w.rand) := by
  have hat : registry.at (tolower token) = [] :=
    at_of_not_mem registry _ (by rw [registry_names]; exact h)
  have hne : token ≠ "input" := by
    rintro rfl
    exact h (by decide)
  have hrun : InputListener.run (bus (depth + 1)) (Payload.words (token :: rest)) w =
      some (if w.running = true then Game.update_screen w else w) := by
    simp only [InputListener.run, List.length_cons, gt_iff_lt, Nat.zero_lt_succ, dite_true,
      List.getElem_cons_zero, if_neg hne, bus_succ, hat, EventManager.runAll,
      Option.some_bind]
    split_ifs <;> rfl
  refine ⟨hat, hrun, ?_⟩
  intro w1 h1
  rw [hrun] at h1
  cases h1
  split_ifs
  · obtain ⟨out, hout⟩ := update_screen_prints w
    rw [hout]
    exact ⟨rfl, rfl, rfl⟩
  · exact ⟨rfl, rfl, rfl⟩

/-- C11, amended, on the word "dance" in a running game. -/
theorem C11_unregistered_token_runs_no_handler_witness :
    tolower "dance" ∉ registeredNames ∧
    InputListener.run (bus (0 + 1)) (Payload.words ("dance" :: [])) (gateWorld []) =
      some (if (gateWorld []).running = true then Game.update_screen (gateWorld [])
        else gateWorld []) :=
  ⟨by decide, (C11_unregistered_token_runs_no_handler 0 (gateWorld []) "dance" [] (by decide)).2.1⟩

/-- The handlers under a name after one more `push`. -/
theorem push_at (reg : Registry) (k key : String) (l : Listener) :
    (reg.push k l).at key = if k = key then reg.at key ++ [l] else reg.at key := by
  induction reg with
  | nil =>
    simp only [Registry.push, Registry.at]
    split_ifs <;> simp
  | cons p rest ih =>
    obtain ⟨k1, ls⟩ := p
    simp only [Registry.push]
    by_cases h1 : k1 = k
    · subst h1
      simp only [if_true, Registry.at]
      split_ifs <;> rfl
    · simp only [if_neg h1, Registry.at, ih]
      split_ifs with h2 h3 <;> first | rfl | (subst h2; exact absurd h3.symm h1)

theorem listenAll_at_aux (calls : List (String × Listener)) (key : String) :
    ∀ reg : Registry,
      Registry.at (calls.foldl (fun reg c => EventManager.listen reg c.1 c.2) reg) key =
        reg.at key ++ (calls.filter fun c => tolower c.1 = key).map Prod.snd := by
  induction calls with
  | nil => intro reg; simp
  | cons c rest ih =>
    intro reg
    rw [List.foldl_cons, ih]
    simp only [EventManager.listen, push_at, List.filter_cons]
    by_cases h : tolower c.1 = key
    · simp [h]
    · simp [h]

theorem listenAll_at (calls : List (String × Listener)) (key : String) :
    (EventManager.listenAll calls).at key =
      (calls.filter fun c => tolower c.1 = key).map Prod.snd := by
  unfold EventManager.listenAll
  rw [listenAll_at_aux]
  rfl

/-- The loop of `EventManager::trigger` runs the handlers one after another,
first to last, each on the same argument and on the state the one before it
left, and stops where one does not return. -/
theorem runAll_eq_foldlM (run : Listener → Payload → World → Option World) (args : Payload) :
    ∀ (handlers : List Listener) (w : World),
      EventManager.runAll run args handlers w =
        handlers.foldlM (fun v l => run l args v) w := by
  intro handlers
  induction handlers with
  | nil => intro w; rfl
  | cons l rest ih =>
    intro w
    simp only [EventManager.runAll, List.foldlM_cons, ih]
    rfl

/-- C12. For every registry built by a sequence of `listen` calls and every
event name `e`: the handlers under `e` are those of the calls whose name equals
`e` up to letter case, once per call and in the order of the calls; `trigger`
runs exactly these, one after another in this order, each on the same payload
and on the state the one before it left. With one such call the result is the
run of its handler, with two the second handler runs on the result of the
first. A handler registered twice runs twice: Defeat, Victory and Defeat,
registered under three spellings of one name, write their lines in this order.
The payload reaches the handler: `use` adds health for the words "use potion"
and not for "use key". When no call had that name, `trigger` returns the state
as it was. -/
theorem C12_trigger_runs_registered_handlers_in_order (calls : List (String × Listener)) (event_name : String) (args : Payload)
    (depth : Nat) (w : World) :
    (EventManager.listenAll calls).at (tolower event_name) =
      (calls.filter fun c => tolower c.1 = tolower event_name).map Prod.snd ∧
    EventManager.trigger (EventManager.listenAll calls) (depth + 1) event_name args w =
      ((calls.filter fun c => tolower c.1 = tolower event_name).map Prod.snd).foldlM
        (fun v l => Listener.run (EventManager.trigger (EventManager.listenAll calls) depth)
          l args v) w ∧
    (∀ l, (calls.filter fun c => tolower c.1 = tolower event_name).map Prod.snd = [l] →
      EventManager.trigger (EventManager.listenAll calls) (depth + 1) event_name args w =
        Listener.run (EventManager.trigger (EventManager.listenAll calls) depth) l args w) ∧
    (∀ l1 l2, (calls.filter fun c => tolower c.1 = tolower event_name).map Prod.snd = [l1, l2] →
      EventManager.trigger (EventManager.listenAll calls) (depth + 1) event_name args w =
        (Listener.run (EventManager.trigger (EventManager.listenAll calls) depth) l1 args w).bind
          (Listener.run (EventManager.trigger (EventManager.listenAll calls) depth) l2 args)) ∧
    (EventManager.listenAll [("Exit", Listener.exit), ("go", Listener.go),
        ("exit", Listener.exit)]).at (tolower "EXIT") = [Listener.exit, Listener.exit] ∧
    (EventManager.trigger
        (EventManager.listenAll [("Over", Listener.defeat), ("go", Listener.go),
          ("OVER", Listener.victory), ("over", Listener.defeat)]) 1 "oVer" Payload.null
        (gateWorld [])).map (fun v => (v.cout, v.game.gameOver)) =
      some ([endl, Tok.lit "Defeat!", endl, endl, Tok.lit "Victory!", endl,
        endl, Tok.lit "Defeat!", endl], true) ∧
    (EventManager.trigger (EventManager.listenAll [("use", Listener.use)]) 1 "Use"
        (Payload.words ["use", "potion"]) fightWorld1).map (fun v => v.game.player.health) =
      some (fightWorld1.game.player.health + 20) ∧
    (EventManager.trigger (EventManager.listenAll [("use", Listener.use)]) 1 "Use"
        (Payload.words ["use", "key"]) fightWorld1).map (fun v => v.game.player.health) =
      some fightWorld1.game.player.health ∧
    ((∀ c ∈ calls, tolower c.1 ≠ tolower event_name) →
      EventManager.trigger (EventManager.listenAll calls) (depth + 1) event_name args w =
        some w) := by
  have hat := listenAll_at calls (tolower event_name)
  have hrun : EventManager.trigger (EventManager.listenAll calls) (depth + 1) event_name args w =
      ((calls.filter fun c => tolower c.1 = tolower event_name).map Prod.snd).foldlM
        (fun v l => Listener.run (EventManager.trigger (EventManager.listenAll calls) depth)
          l args v) w := by
    simp only [EventManager.trigger, hat, runAll_eq_foldlM]
  refine ⟨hat, hrun, ?_, ?_, by decide, by decide, by decide, by decide, ?_⟩
  · intro l hl
    rw [hrun, hl]
    simp
  · intro l1 l2 hl
    rw [hrun, hl]
    simp only [List.foldlM_cons, List.foldlM_nil]
    simp
  · intro hno
    have hnil : (calls.filter fun c => tolower c.1 = tolower event_name) = [] := by
      rw [List.filter_eq_nil_iff]
      intro c hc
      simpa using hno c hc
    rw [hrun, hnil]
    rfl

/-- The registry of the game is the result of the sixteen `listen` calls of
the constructor of `Game`. -/
theorem registry_listenAll :
    registry = EventManager.listenAll
      [("go", Listener.go), ("map", Listener.map), ("info", Listener.info),
        ("restart", Listener.restart), ("teleport", Listener.teleport),
        ("exit", Listener.exit), ("take", Listener.take), ("use", Listener.use),
        ("inventory", Listener.inventory), ("attack", Listener.attack),
        ("characterDeath", Listener.characterDeath), ("enterRoom", Listener.enterRoom),
        ("victory", Listener.victory), ("defeat", Listener.defeat),
        ("curse", Listener.curse), ("input", Listener.input)] := by decide

/-- C13. For every state, over or not, the exit handler returns the state
with `running` false and everything else as it was; and the input handler on
an input that starts with "exit" returns that same state, so it writes nothing
after the exit (no render). -/
theorem C13_exit_stops_and_skips_render (trigger : Trigger) (args : Payload) (depth : Nat) (rest : List String)
    (w : World) :
    Listener.run trigger Listener.exit args w = some { w with running := false } ∧
    InputListener.run (bus (depth + 1)) (Payload.words ("exit" :: rest)) w =
      some { w with running := false } := by
  refine ⟨rfl, ?_⟩
  simp [InputListener.run, bus_succ, at_exit, EventManager.runAll, Listener.run,
    ExitListener.run]

/-! ### Weights and `use`: C14, C15, C19 -/

/-- C14. For every item and every new weight below 0 or above 9999,
`Item::setWeight` returns the item as it was (the stored weight included) and
only writes the warning. -/
theorem C14_invalid_weight_keeps_previous (it : Item) (v : Int) (w : World) (h : v < 0 ∨ v > centi 9999 0) :
    (Item.setWeight it v w).1 = it ∧
    (Item.setWeight it v w).1.weightGrams = it.weightGrams ∧
    (Item.setWeight it v w).2 = w.print [Tok.lit "weight invalid, must be 0<weight<9999"] := by
  unfold Item.setWeight
  rw [if_pos (by tauto)]
  exact ⟨rfl, rfl, rfl⟩

/-- C14 at 10000 and at -1 on the key of a fresh game, of weight 27. -/
theorem C14_invalid_weight_keeps_previous_witness :
    ((centi 10000 0 < 0 ∨ centi 10000 0 > centi 9999 0) ∧
      (Item.setWeight Game.fresh.key (centi 10000 0) overWorld).1.weightGrams = centi 27 0) ∧
    ((centi (-1) 0 < 0 ∨ centi (-1) 0 > centi 9999 0) ∧
      (Item.setWeight Game.fresh.key (centi (-1) 0) overWorld).1.weightGrams = centi 27 0) :=
  ⟨⟨by decide, (C14_invalid_weight_keeps_previous Game.fresh.key (centi 10000 0) overWorld (by decide)).2.1⟩,
    ⟨by decide, (C14_invalid_weight_keeps_previous Game.fresh.key (centi (-1) 0) overWorld (by decide)).2.1⟩⟩

/-- C15. What the code does at 9999: `Item::setWeight` stores it, for every
item and without a warning; on the key of a fresh game, of weight 27, the
weight becomes 9999. A weight is stored exactly when it is from 0 to 9999,
both ends included, while the warning of the code reads "0<weight<9999". -/
theorem C15_setWeight_9999_is_stored (it : Item) (w : World) :
    (Item.setWeight it (centi 9999 0) w) = ({ it with weightGrams := centi 9999 0 }, w) ∧
    (Item.setWeight Game.fresh.key (centi 9999 0) overWorld).1.weightGrams = centi 9999 0 ∧
    Game.fresh.key.weightGrams = centi 27 0 ∧
    (∀ v : Int, (Item.setWeight it v w).1.weightGrams =
      if 0 ≤ v ∧ v ≤ centi 9999 0 then v else it.weightGrams) := by
  refine ⟨?_, by decide, by decide, ?_⟩
  · unfold Item.setWeight
    rw [if_neg (by decide)]
  · intro v
    unfold Item.setWeight
    split_ifs <;> first | rfl | omega

/-- C19. For every state and item name, `Game::use` adds exactly 20 to the
health of the player when the name is "potion" and the health is at most 80,
and leaves the health otherwise; the stamina, room and inventory of the
player, gameOver, the roaming enemy, the rooms with their enemies, the running
flag and the random values are unchanged. -/
theorem C19_use_effect (itemName : String) (w : World) :
    (Game.use itemName w).game.player.health =
      (if itemName = "potion" ∧ w.game.player.health ≤ 80 then w.game.player.health + 20
        else w.game.player.health) ∧
    (Game.use itemName w).game.player.stamina = w.game.player.stamina ∧
    (Game.use itemName w).game.player.currentRoom = w.game.player.currentRoom ∧
    (Game.use itemName w).game.player.itemInventory = w.game.player.itemInventory ∧
    (Game.use itemName w).game.gameOver = w.game.gameOver ∧
    (Game.use itemName w).game.mojo = w.game.mojo ∧
    (Game.use itemName w).game.rooms = w.game.rooms ∧
    (Game.use itemName w).running = w.running ∧
    (Game.use itemName w).rand = w.rand := by
  unfold Game.use
  split_ifs with h
  · exact ⟨rfl, rfl, rfl, rfl, rfl, rfl, rfl, rfl, rfl⟩
  · exact ⟨rfl, rfl, rfl, rfl, rfl, rfl, rfl, rfl, rfl⟩

/-! ### Where the items are: C16, C17, C18 -/

theorem home_facts :
    (∀ i : RoomId, (Game.home i).length ≤ 1) ∧
    (∀ i j : RoomId, ∀ x ∈ Game.home i, ∀ y ∈ Game.home j, x.addr = y.addr → x = y ∧ i = j) ∧
    (∀ x ∈ Game.items, ∃ i : RoomId, Game.home i = [x]) ∧
    (∀ i : RoomId, ∀ x ∈ Game.home i, x ∈ Game.items) := by
  decide

theorem placed_of_same {g g1 : Game} (hs : g.SameItems g1) (h : g.Placed) : g1.Placed := by
  obtain ⟨h1, h2, h3⟩ := h
  obtain ⟨s1, s2⟩ := hs
  unfold Game.Placed
  rw [s1]
  exact ⟨h1, h2, fun i => by rw [s2, h3]⟩

theorem same_refl (g : Game) : g.SameItems g := ⟨rfl, fun _ => rfl⟩

theorem same_trans {g g1 g2 : Game} (h1 : g.SameItems g1) (h2 : g1.SameItems g2) :
    g.SameItems g2 :=
  ⟨h2.1.trans h1.1, fun i => (h2.2 i).trans (h1.2 i)⟩

theorem same_enemyMove {w w1 : World} (hm : Game.enemyMove w = some w1) :
    w.game.SameItems w1.game := by
  obtain ⟨m, rest, out, rfl, -, -⟩ := enemyMove_effect hm
  exact ⟨rfl, fun _ => rfl⟩

theorem same_move (w : World) (n : RoomId) (v : Int) :
    w.game.SameItems (((w.setPlayerRoom n).setStaminaD v).enter n).game := by
  constructor
  · simp [World.setPlayerRoom]
  · intro i
    simp [World.setPlayerRoom]

theorem same_go {t : Trigger} (hl : Live t) {direction : String} {w w1 : World}
    (hrun : Game.go t direction w = some w1) : w.game.SameItems w1.game := by
  rcases go_effect hl hrun with ⟨out, rfl⟩ | ⟨n, w2, -, -, hm, rfl⟩
  · exact same_refl _
  · exact same_trans (same_enemyMove hm) (same_move _ _ _)

theorem same_teleport {t : Trigger} (hl : Live t) {w w1 : World}
    (hrun : Game.teleport t w = some w1) : w.game.SameItems w1.game := by
  obtain ⟨selected, rest, w3, -, rfl, hm⟩ := teleport_effect hl hrun
  exact same_trans (same_move { w with rand := rest } _ _) (same_enemyMove hm)

theorem same_use (itemName : String) (w : World) :
    w.game.SameItems (Game.use itemName w).game := by
  constructor
  · simp
  · intro i; simp

theorem same_attackStep (e : Enemy) (w : World) :
    w.game.SameItems (Game.attackStep e w).game := by
  unfold Game.attackStep
  dsimp only
  split_ifs
  all_goals
    refine ⟨rfl, fun i => ?_⟩
    simp only [print_game, World.setRoom, World.here, Room.removeEnemy, Function.update_apply]
    split_ifs with hi <;> simp_all

theorem same_attack {t : Trigger} (hl : Live t) {name : String} {w w1 : World}
    (hrun : Game.attack t name w = some w1) : w.game.SameItems w1.game := by
  rcases attack_effect hl hrun with ⟨out, -, rfl⟩ | ⟨random, rest, -, hcase⟩
  · exact same_refl _
  · rcases hcase with ⟨out, -, rfl⟩ | ⟨out, -, -, -, -, rfl⟩ | rfl
    · constructor
      · simp
      · intro i; simp
    · exact ⟨rfl, fun _ => rfl⟩
    · exact attackLoop_keeps (fun w1 => w.game.SameItems w1.game) name
        (fun e w1 _ h => same_trans h (same_attackStep e w1)) _ _ (same_refl _)

theorem addItem_inventory (it : Item) (w : World) :
    (Player.addItem it w).game.player.itemInventory =
      if w.game.player.itemInventory.any (fun y => decide (y.addr = it.addr)) = true
      then w.game.player.itemInventory else w.game.player.itemInventory ++ [it] := by
  unfold Player.addItem
  split_ifs <;> rfl

theorem addItem_frame (it : Item) (w : World) :
    (Player.addItem it w).game.rooms = w.game.rooms ∧
    (Player.addItem it w).game.player.currentRoom = w.game.player.currentRoom ∧
    (Player.addItem it w).game.player.health = w.game.player.health ∧
    (Player.addItem it w).game.player.stamina = w.game.player.stamina ∧
    (Player.addItem it w).game.mojo = w.game.mojo ∧
    (Player.addItem it w).game.gameOver = w.game.gameOver ∧
    (Player.addItem it w).running = w.running ∧
    (Player.addItem it w).rand = w.rand := by
  unfold Player.addItem
  split_ifs <;> exact ⟨rfl, rfl, rfl, rfl, rfl, rfl, rfl, rfl⟩

/-- What one round of the loop of `Game::take` does to the inventory, to the
items of the rooms and to the health. -/
theorem takeStep_exact (it : Item) (w : World) :
    (Game.takeStep it w).game.player.itemInventory =
      (if w.game.player.itemInventory.any (fun y => decide (y.addr = it.addr)) = true
        then w.game.player.itemInventory else w.game.player.itemInventory ++ [it]) ∧
    (∀ i, ((Game.takeStep it w).game.rooms i).itemsInRoom =
      if i = w.game.player.currentRoom
      then eraseLoop Item.addr it.addr (w.game.rooms i).itemsInRoom
      else (w.game.rooms i).itemsInRoom) ∧
    (Game.takeStep it w).game.player.health =
      (if it.description = "potion" then
        (if w.game.player.health ≤ 80 then w.game.player.health + 20
          else w.game.player.health)
       else if it.description = "cursed_item" then
        (if w.game.player.health - 20 ≤ 0 then 0 else w.game.player.health - 20)
       else w.game.player.health) := by
  obtain ⟨a1, a2, a3, -, -, -, -, -⟩ := addItem_frame it w
  have hinv := addItem_inventory it w
  have hfinal : (Game.takeStep it w).game.rooms =
      (World.setRoom (Player.addItem it w) (Player.addItem it w).game.player.currentRoom
        ((Player.addItem it w).here.removeItem it)).game.rooms ∧
      (Game.takeStep it w).game.player.itemInventory =
        (Player.addItem it w).game.player.itemInventory ∧
      (Game.takeStep it w).game.player.health =
        (if it.description = "potion" then
          (if w.game.player.health ≤ 80 then w.game.player.health + 20
            else w.game.player.health)
         else if it.description = "cursed_item" then
          (if w.game.player.health - 20 ≤ 0 then 0 else w.game.player.health - 20)
         else w.game.player.health) := by
    unfold Game.takeStep
    dsimp only
    by_cases hp : it.description = "potion"
    · have hc : ¬ it.description = "cursed_item" := by rw [hp]; decide
      rw [if_pos hp, if_neg hc, if_pos hp]
      simp only [use_rooms, use_player, World.setRoom, a3, true_and]
    · rw [if_neg hp, if_neg hp]
      by_cases hc : it.description = "cursed_item"
      · rw [if_pos hc, if_pos hc]
        simp only [curse_rooms, curse_player, print_game, World.setRoom, a3]
        exact ⟨trivial, trivial, trivial⟩
      · rw [if_neg hc, if_neg hc]
        exact ⟨rfl, rfl, a3⟩
  refine ⟨hfinal.2.1.trans hinv, ?_, hfinal.2.2⟩
  intro i
  rw [hfinal.1]
  simp only [World.setRoom, World.here, Room.removeItem, Function.update_apply, a1, a2]
  split_ifs with hi
  · rw [hi]
  · rfl

/-- With the items placed, the room of the player holds nothing or exactly
one item, which is the one `Game::reset` put there and is not in the
inventory, nor is any item of the same address. -/
theorem here_cases {w : World} (hp : w.game.Placed) :
    w.here.itemsInRoom = [] ∨
    ∃ x, w.here.itemsInRoom = [x] ∧ Game.home w.game.player.currentRoom = [x] ∧
      x ∉ w.game.player.itemInventory ∧
      w.game.player.itemInventory.any (fun y => decide (y.addr = x.addr)) = false := by
  obtain ⟨h1, h2, h3⟩ := hp
  have hlen := home_facts.1 w.game.player.currentRoom
  have hhere : w.here.itemsInRoom = (Game.home w.game.player.currentRoom).filter
      fun x => decide (x ∉ w.game.player.itemInventory) := h3 _
  cases hhome : Game.home w.game.player.currentRoom with
  | nil => left; rw [hhere, hhome]; rfl
  | cons x rest =>
    have hrest : rest = [] := by
      rw [hhome] at hlen
      simp only [List.length_cons] at hlen
      exact List.length_eq_zero.mp (by omega)
    subst hrest
    rw [hhome] at hhere
    by_cases hx : x ∈ w.game.player.itemInventory
    · left
      rw [hhere]
      simp [hx]
    · right
      refine ⟨x, ?_, rfl, hx, ?_⟩
      · rw [hhere]; simp [hx]
      · rw [Bool.eq_false_iff]
        intro hany
        obtain ⟨y, hy, hya⟩ := List.any_eq_true.mp hany
        obtain ⟨j, hj⟩ := h2 y hy
        have hxy := home_facts.2.1 j w.game.player.currentRoom y hj x (by rw [hhome]; simp)
          (by simpa using hya)
        exact hx (hxy.1 ▸ hy)

/-- Taking the item of the room keeps the items placed. -/
theorem placed_takeStep {w : World} {x : Item} (hp : w.game.Placed)
    (hhere : w.here.itemsInRoom = [x]) (hhome : Game.home w.game.player.currentRoom = [x])
    (hx : x ∉ w.game.player.itemInventory)
    (hany : w.game.player.itemInventory.any (fun y => decide (y.addr = x.addr)) = false) :
    (Game.takeStep x w).game.player.itemInventory = w.game.player.itemInventory ++ [x] ∧
    (∀ i, ((Game.takeStep x w).game.rooms i).itemsInRoom =
      if i = w.game.player.currentRoom then [] else (w.game.rooms i).itemsInRoom) ∧
    (Game.takeStep x w).game.Placed := by
  obtain ⟨e1, e2, -⟩ := takeStep_exact x w
  obtain ⟨h1, h2, h3⟩ := hp
  have hinv : (Game.takeStep x w).game.player.itemInventory =
      w.game.player.itemInventory ++ [x] := by
    rw [e1, hany]; rfl
  have hrooms : ∀ i, ((Game.takeStep x w).game.rooms i).itemsInRoom =
      if i = w.game.player.currentRoom then [] else (w.game.rooms i).itemsInRoom := by
    intro i
    rw [e2]
    split_ifs with hi
    · subst hi
      have : (w.game.rooms w.game.player.currentRoom).itemsInRoom = [x] := hhere
      rw [this]
      simp [eraseLoop]
    · rfl
  refine ⟨hinv, hrooms, ?_, ?_, ?_⟩
  · rw [hinv]
    refine List.Nodup.append h1 (List.nodup_singleton x) ?_
    intro a ha hax
    rw [List.mem_singleton] at hax
    exact hx (hax ▸ ha)
  · intro y hy
    rw [hinv] at hy
    rcases List.mem_append.mp hy with hy | hy
    · exact h2 y hy
    · exact ⟨w.game.player.currentRoom, by rw [hhome]; exact hy⟩
  · intro i
    rw [hrooms, hinv]
    split_ifs with hi
    · subst hi
      rw [hhome]
      simp
    · rw [h3 i]
      apply List.filter_congr
      intro y hy
      have hne : y ≠ x := by
        rintro rfl
        exact hi (home_facts.2.1 i w.game.player.currentRoom y hy y
          (by rw [hhome]; simp) rfl).2
      simp [hne]

theorem takeAll_nil (itemName : String) (w : World) : Game.takeAll itemName [] w = w := rfl

theorem takeAll_single (itemName : String) (x : Item) (w : World) :
    Game.takeAll itemName [x] w =
      if x.description = itemName then Game.takeStep x w else w := rfl

/-- `Game::take` with the items placed: it returns; either no item of the
room has the name and only text is written, or the one item of the room has
the name and the round of the loop for it runs, followed by text. -/
theorem take_cases {t : Trigger} (hl : Live t) (itemName : String) {w : World}
    (hp : w.game.Placed) :
    ∃ w1, Game.take t itemName w = some w1 ∧
      (((∀ y ∈ w.here.itemsInRoom, y.description ≠ itemName) ∧ ∃ out, w1 = w.print out) ∨
       ∃ x, w.here.itemsInRoom = [x] ∧ Game.home w.game.player.currentRoom = [x] ∧
        x.description = itemName ∧ x ∉ w.game.player.itemInventory ∧
        w.game.player.itemInventory.any (fun y => decide (y.addr = x.addr)) = false ∧
        ∃ out, w1 = (Game.takeStep x w).print out) := by
  rw [take_live hl]
  refine ⟨_, rfl, ?_⟩
  rcases here_cases hp with h0 | ⟨x, hx, hhome, hxin, hany⟩
  · left
    rw [h0]
    refine ⟨by simp, [Tok.lit "No items in room.", Tok.inventory w.game.player.itemInventory,
      endl], ?_⟩
    simp [World.print, Player.getItems]
  · rw [hx]
    simp only [List.length_singleton, one_ne_zero, if_false, takeAll_single]
    by_cases hname : x.description = itemName
    · right
      rw [if_pos hname]
      exact ⟨x, rfl, hhome, hname, hxin, hany, _, rfl⟩
    · left
      rw [if_neg hname]
      exact ⟨by simpa using hname, _, rfl⟩

theorem placed_take {t : Trigger} (hl : Live t) {itemName : String} {w w1 : World}
    (hrun : Game.take t itemName w = some w1) (hp : w.game.Placed) : w1.game.Placed := by
  obtain ⟨w2, h2, hcase⟩ := take_cases hl itemName hp
  rw [hrun] at h2
  cases h2
  rcases hcase with ⟨-, out, rfl⟩ | ⟨x, hx, hhome, -, hxin, hany, out, rfl⟩
  · exact hp
  · exact (placed_takeStep hp hx hhome hxin hany).2.2

/-- In every reachable state the items are placed. -/
theorem reachable_placed (w : World) (hr : Reachable w) : w.game.Placed := by
  refine reachable_invariant Game.Placed ?_ ?_ w hr
  · refine ⟨List.nodup_nil, fun x hx => absurd hx (List.not_mem_nil x), fun i => ?_⟩
    show Game.home i = (Game.home i).filter fun x => decide (x ∉ ([] : List Item))
    simp
  · intro t hl l hc args w w1 _ h hrun
    exact step_cases Game.Placed t
      (fun _ _ _ hrun h => placed_of_same (same_go hl hrun) h)
      (fun _ _ _ hrun h => placed_take hl hrun h)
      (fun itemName w h => placed_of_same (same_use itemName w) h)
      (fun _ _ _ hrun h => placed_of_same (same_attack hl hrun) h)
      (fun _ _ hrun h => placed_of_same (same_teleport hl hrun) h)
      l hc args w w1 h hrun

theorem pathWorld1_reachable : Reachable pathWorld1 :=
  Reachable.step 3 Listener.go ["go", "east"] pathWorld0 pathWorld1
    (Reachable.fresh 0 [3, 1, 1, 3, 1] pathWorld0 rfl) (by decide) rfl

theorem pathWorld2_reachable : Reachable pathWorld2 :=
  Reachable.step 3 Listener.take ["take", "key"] pathWorld1 pathWorld2
    pathWorld1_reachable (by decide) rfl

theorem healWorld_reachable : Reachable healWorld :=
  Reachable.step 3 Listener.use ["use", "potion"] fightWorld1 healWorld
    (Reachable.step 3 Listener.attack ["attack", "stationary-man"] fightWorld0 fightWorld1
      (Reachable.step 3 Listener.go ["go", "east"] fightStart fightWorld0
        (Reachable.fresh 0 [3, 1, 0, 0, 0, 0, 0] fightStart rfl) (by decide) rfl)
      (by decide) rfl)
    (by decide) rfl

/-- C16. In every reachable state each of the four items key, cursed_item,
potion and sword is held by exactly one container: either it is in the
inventory of the player, there exactly once and in no room, or it is not in
the inventory and there is one room that holds it exactly once while no other
room holds it; and no container holds anything but these four items. -/
theorem C16_each_item_in_exactly_one_container (w : World) (hr : Reachable w) :
    (∀ x ∈ Game.items,
      (x ∈ w.game.player.itemInventory ∧ w.game.player.itemInventory.count x = 1 ∧
        ∀ i, x ∉ (w.game.rooms i).itemsInRoom) ∨
      (x ∉ w.game.player.itemInventory ∧
        ∃ i, (w.game.rooms i).itemsInRoom.count x = 1 ∧
          ∀ j, j ≠ i → x ∉ (w.game.rooms j).itemsInRoom)) ∧
    (∀ y, y ∈ w.game.player.itemInventory → y ∈ Game.items) ∧
    (∀ i, ∀ y ∈ (w.game.rooms i).itemsInRoom, y ∈ Game.items) := by
  obtain ⟨h1, h2, h3⟩ := reachable_placed w hr
  refine ⟨?_, ?_, ?_⟩
  · intro x hx
    obtain ⟨i, hi⟩ := home_facts.2.2.1 x hx
    by_cases hin : x ∈ w.game.player.itemInventory
    · left
      refine ⟨hin, List.count_eq_one_of_mem h1 hin, ?_⟩
      intro j hj
      rw [h3 j] at hj
      simpa [hin] using (List.mem_filter.mp hj).2
    · right
      refine ⟨hin, i, ?_, ?_⟩
      · rw [h3 i, hi]
        simp [hin]
      · intro j hji hj
        rw [h3 j] at hj
        have hxj := (List.mem_filter.mp hj).1
        exact hji (home_facts.2.1 j i x hxj x (by rw [hi]; simp) rfl).2
  · intro y hy
    obtain ⟨i, hi⟩ := h2 y hy
    exact home_facts.2.2.2 i y hi
  · intro i y hy
    rw [h3 i] at hy
    exact home_facts.2.2.2 i y (List.mem_filter.mp hy).1

/-- C16, after `go east` and `take key`: the key is in the inventory and in no
room. -/
theorem C16_each_item_in_exactly_one_container_witness :
    Reachable pathWorld2 ∧ Game.fresh.key ∈ Game.items ∧
    Game.fresh.key ∈ pathWorld2.game.player.itemInventory ∧
    ((Game.fresh.key ∈ pathWorld2.game.player.itemInventory ∧
        pathWorld2.game.player.itemInventory.count Game.fresh.key = 1 ∧
        ∀ i, Game.fresh.key ∉ (pathWorld2.game.rooms i).itemsInRoom) ∨
      (Game.fresh.key ∉ pathWorld2.game.player.itemInventory ∧
        ∃ i, (pathWorld2.game.rooms i).itemsInRoom.count Game.fresh.key = 1 ∧
          ∀ j, j ≠ i → Game.fresh.key ∉ (pathWorld2.game.rooms j).itemsInRoom)) :=
  ⟨pathWorld2_reachable, by decide, by decide,
    (C16_each_item_in_exactly_one_container pathWorld2 pathWorld2_reachable).1
      Game.fresh.key (by decide)⟩

/-- After `Game::take` with the items placed, no item of the room of the
player has the name that was taken, and the items are still placed. -/
theorem take_leaves_none {t : Trigger} (hl : Live t) (itemName : String) {w w1 : World}
    (hp : w.game.Placed) (hrun : Game.take t itemName w = some w1) :
    w1.game.Placed ∧ ∀ y ∈ w1.here.itemsInRoom, y.description ≠ itemName := by
  refine ⟨placed_take hl hrun hp, ?_⟩
  obtain ⟨w2, h2, hcase⟩ := take_cases hl itemName hp
  rw [hrun] at h2
  cases h2
  rcases hcase with ⟨hno, out, rfl⟩ | ⟨x, hx, hhome, -, hxin, hany, out, rfl⟩
  · exact hno
  · intro y hy
    have hroom : ((Game.takeStep x w).print out).game.player.currentRoom =
        w.game.player.currentRoom := (takeStep_frame x w).1
    have hitems := (placed_takeStep hp hx hhome hxin hany).2.1 w.game.player.currentRoom
    rw [if_pos rfl] at hitems
    have : ((Game.takeStep x w).print out).here.itemsInRoom = [] := by
      unfold World.here
      rw [hroom]
      exact hitems
    rw [this] at hy
    cases hy

/-- `Game::take` for a name that no item of the room has only writes. -/
theorem take_none {t : Trigger} (hl : Live t) (itemName : String) {w : World}
    (hp : w.game.Placed) (hno : ∀ y ∈ w.here.itemsInRoom, y.description ≠ itemName) :
    ∃ out, Game.take t itemName w = some (w.print out) := by
  obtain ⟨w1, h1, hcase⟩ := take_cases hl itemName hp
  rcases hcase with ⟨-, out, rfl⟩ | ⟨x, hx, -, hname, -, -, -, -⟩
  · exact ⟨out, h1⟩
  · exact absurd hname (hno x (by rw [hx]; simp))

/-- C17. On reachable states take is idempotent: `Game::take` returns, a
second `Game::take` with the same name returns too and leaves the game, the
running flag and the random values of the first (it only writes text); the
same holds for two runs of the take handler. So the second take adds nothing
to the inventory, removes nothing from the room and changes no health. -/
theorem C17_take_is_idempotent (depth : Nat) (w : World) (hr : Reachable w)
    (itemName : String) :
    (∃ w1 w2, Game.take (bus (depth + 3)) itemName w = some w1 ∧
      Game.take (bus (depth + 3)) itemName w1 = some w2 ∧
      w2.game = w1.game ∧ w2.running = w1.running ∧ w2.rand = w1.rand) ∧
    (∃ w1 w2,
      Listener.run (bus (depth + 3)) Listener.take (Payload.words ["take", itemName]) w =
        some w1 ∧
      Listener.run (bus (depth + 3)) Listener.take (Payload.words ["take", itemName]) w1 =
        some w2 ∧
      w2.game = w1.game ∧ w2.running = w1.running ∧ w2.rand = w1.rand) := by
  have hl := bus_live depth
  have hp := reachable_placed w hr
  obtain ⟨w1, h1, -⟩ := take_cases hl itemName hp
  obtain ⟨hp1, hno⟩ := take_leaves_none hl itemName hp h1
  obtain ⟨out, h2⟩ := take_none hl itemName hp1 hno
  constructor
  · exact ⟨w1, _, h1, h2, rfl, rfl, rfl⟩
  · have hrun : ∀ v : World, Listener.run (bus (depth + 3)) Listener.take
        (Payload.words ["take", itemName]) v =
        if v.game.gameOver = true then some v else Game.take (bus (depth + 3)) itemName v := by
      intro v
      simp only [Listener.run, TakeListener.run, Game.is_over]
      split_ifs <;> first | rfl | simp at *
    cases hover : w.game.gameOver with
    | true =>
      refine ⟨w, w, ?_, ?_, rfl, rfl, rfl⟩ <;> rw [hrun, if_pos hover]
    | false =>
      refine ⟨w1, if w1.game.gameOver = true then w1 else w1.print out, ?_, ?_, ?_, ?_, ?_⟩
      · rw [hrun, if_neg (by simp [hover])]; exact h1
      · rw [hrun]; split_ifs <;> first | rfl | exact h2
      all_goals split_ifs <;> rfl

/-- C17, taking the key twice in room C of a fresh game. -/
theorem C17_take_is_idempotent_witness :
    Reachable pathWorld1 ∧
    Game.take (bus 3) "key" pathWorld1 = some pathWorld2 ∧
    ∃ w1 w2, Game.take (bus (0 + 3)) "key" pathWorld1 = some w1 ∧
      Game.take (bus (0 + 3)) "key" w1 = some w2 ∧
      w2.game = w1.game ∧ w2.running = w1.running ∧ w2.rand = w1.rand :=
  ⟨pathWorld1_reachable, rfl,
    (C17_take_is_idempotent 0 pathWorld1 pathWorld1_reachable "key").1⟩

/-- C18. In every reachable state: when the room of the player holds an item
`x` named `n`, `Game::take n` returns with the inventory extended by `x` at
its end, the room without `x`, the health at max(0, h - 20) for
"cursed_item", at h + 20 for "potion" with h <= 80 and at h otherwise, and the
stamina and the room of the player as before; when the room holds no item
named `n`, it only writes text. -/
theorem C18_take_effect (depth : Nat) (w : World) (hr : Reachable w) (n : String) :
    (∀ x ∈ w.here.itemsInRoom, x.description = n →
      ∃ w1, Game.take (bus (depth + 3)) n w = some w1 ∧
        w1.game.player.itemInventory = w.game.player.itemInventory ++ [x] ∧
        w1.here.itemsInRoom = w.here.itemsInRoom.erase x ∧
        x ∉ w1.here.itemsInRoom ∧
        w1.game.player.health =
          (if n = "cursed_item" then max 0 (w.game.player.health - 20)
           else if n = "potion" ∧ w.game.player.health ≤ 80 then w.game.player.health + 20
           else w.game.player.health) ∧
        w1.game.player.stamina = w.game.player.stamina ∧
        w1.game.player.currentRoom = w.game.player.currentRoom) ∧
    ((∀ y ∈ w.here.itemsInRoom, y.description ≠ n) →
      ∃ out, Game.take (bus (depth + 3)) n w = some (w.print out)) := by
  have hl := bus_live depth
  have hp := reachable_placed w hr
  refine ⟨?_, take_none hl n hp⟩
  intro x hx hn
  obtain ⟨w1, h1, hcase⟩ := take_cases hl n hp
  refine ⟨w1, h1, ?_⟩
  rcases hcase with ⟨hno, -, -⟩ | ⟨x1, hx1, hhome, hname, hxin, hany, out, rfl⟩
  · exact absurd hn (hno x hx)
  · have hxx : x = x1 := by rw [hx1] at hx; simpa using hx
    subst hxx
    obtain ⟨hinv, hrooms, -⟩ := placed_takeStep hp hx1 hhome hxin hany
    obtain ⟨f1, f2, -, -, -⟩ := takeStep_frame x w
    have hitems : ((Game.takeStep x w).print out).here.itemsInRoom = [] := by
      have := hrooms w.game.player.currentRoom
      rw [if_pos rfl] at this
      unfold World.here
      rw [show ((Game.takeStep x w).print out).game.player.currentRoom =
        w.game.player.currentRoom from f1]
      exact this
    refine ⟨hinv, ?_, ?_, ?_, f2, f1⟩
    · rw [hitems, hx1]; simp
    · rw [hitems]; simp
    · show (Game.takeStep x w).game.player.health = _
      rw [(takeStep_exact x w).2.2, hn]
      by_cases hc : n = "cursed_item"
      · subst hc
        rw [if_neg (by decide), if_pos rfl, if_pos rfl]
        split_ifs with h0
        · rw [max_eq_left h0]
        · rw [max_eq_right (by omega)]
      · rw [if_neg hc, if_neg hc]
        by_cases hpo : n = "potion"
        · subst hpo
          simp
        · rw [if_neg hpo, if_neg (fun h => hpo h.1)]

/-- C18, taking the key in room C of a fresh game. -/
theorem C18_take_effect_witness :
    Reachable pathWorld1 ∧ Game.fresh.key ∈ pathWorld1.here.itemsInRoom ∧
    Game.fresh.key.description = "key" ∧
    ∃ w1, Game.take (bus (0 + 3)) "key" pathWorld1 = some w1 ∧
      w1.game.player.itemInventory = pathWorld1.game.player.itemInventory ++ [Game.fresh.key] ∧
      w1.here.itemsInRoom = pathWorld1.here.itemsInRoom.erase Game.fresh.key ∧
      Game.fresh.key ∉ w1.here.itemsInRoom ∧
      w1.game.player.health =
        (if "key" = "cursed_item" then max 0 (pathWorld1.game.player.health - 20)
         else if "key" = "potion" ∧ pathWorld1.game.player.health ≤ 80
          then pathWorld1.game.player.health + 20
         else pathWorld1.game.player.health) ∧
      w1.game.player.stamina = pathWorld1.game.player.stamina ∧
      w1.game.player.currentRoom = pathWorld1.game.player.currentRoom :=
  ⟨pathWorld1_reachable, by decide, rfl,
    (C18_take_effect 0 pathWorld1 pathWorld1_reachable "key").1 Game.fresh.key (by decide) rfl⟩

/-! ### The health of the player stays at or below 100: C20 -/

theorem capped_enemyMove {w w1 : World} (hm : Game.enemyMove w = some w1)
    (h : w.game.HealthCapped) : w1.game.HealthCapped := by
  obtain ⟨m, rest, out, rfl, -, -⟩ := enemyMove_effect hm
  exact h

theorem capped_move (w : World) (n : RoomId) (v : Int) (h : w.game.HealthCapped) :
    (((w.setPlayerRoom n).setStaminaD v).enter n).game.HealthCapped := by
  show (((w.setPlayerRoom n).setStaminaD v).enter n).game.player.health ≤ 100
  rw [enter_player, setStaminaD_player]
  exact h

theorem capped_use (itemName : String) (w : World) (h : w.game.HealthCapped) :
    (Game.use itemName w).game.HealthCapped := by
  show (Game.use itemName w).game.player.health ≤ 100
  have h1 : w.game.player.health ≤ 100 := h
  rw [use_player]
  dsimp only
  split_ifs with hc
  · omega
  · exact h1

theorem capped_takeStep (it : Item) (w : World) (h : w.game.HealthCapped) :
    (Game.takeStep it w).game.HealthCapped := by
  show (Game.takeStep it w).game.player.health ≤ 100
  have h1 : w.game.player.health ≤ 100 := h
  rw [(takeStep_exact it w).2.2]
  split_ifs <;> omega

theorem capped_go {t : Trigger} (hl : Live t) {direction : String} {w w1 : World}
    (hrun : Game.go t direction w = some w1) (h : w.game.HealthCapped) :
    w1.game.HealthCapped := by
  rcases go_effect hl hrun with ⟨out, rfl⟩ | ⟨n, w2, -, -, hm, rfl⟩
  · exact h
  · exact capped_move _ _ _ (capped_enemyMove hm h)

theorem capped_teleport {t : Trigger} (hl : Live t) {w w1 : World}
    (hrun : Game.teleport t w = some w1) (h : w.game.HealthCapped) :
    w1.game.HealthCapped := by
  obtain ⟨selected, rest, w3, -, rfl, hm⟩ := teleport_effect hl hrun
  exact capped_enemyMove hm (capped_move { w with rand := rest } _ _ h)

theorem capped_take {t : Trigger} (hl : Live t) {itemName : String} {w w1 : World}
    (hrun : Game.take t itemName w = some w1) (h : w.game.HealthCapped) :
    w1.game.HealthCapped := by
  rw [take_live hl] at hrun
  cases hrun
  split_ifs
  · exact h
  · exact takeAll_keeps (fun w => w.game.HealthCapped) _
      (fun it w _ h => capped_takeStep it w h) _ _ h

theorem capped_attack {t : Trigger} (hl : Live t) {name : String} {w w1 : World}
    (hrun : Game.attack t name w = some w1) (h : w.game.HealthCapped) :
    w1.game.HealthCapped := by
  have h1 : w.game.player.health ≤ 100 := h
  rcases attack_effect hl hrun with ⟨out, -, rfl⟩ | ⟨random, rest, -, hcase⟩
  · exact h
  · rcases hcase with ⟨out, -, rfl⟩ | ⟨out, -, -, -, -, rfl⟩ | rfl
    · show ((World.backfire { w with rand := rest }).print out).game.player.health ≤ 100
      rw [print_game, backfire_player]
      dsimp only
      split_ifs <;> omega
    · exact h
    · show (Game.attackLoop name _ _).game.player.health ≤ 100
      rw [attackLoop_player]
      exact h1

/-- In every reachable state the health of the player is at most 100: it
starts at 100, the potion adds 20 only at 80 or less, and nothing else adds. -/
theorem reachable_capped (w : World) (hr : Reachable w) : w.game.HealthCapped := by
  refine reachable_invariant Game.HealthCapped (by unfold Game.HealthCapped; decide) ?_ w hr
  intro t hl l hc args w w1 _ h hrun
  exact step_cases Game.HealthCapped t (fun _ _ _ => capped_go hl) (fun _ _ _ => capped_take hl)
    capped_use (fun _ _ _ => capped_attack hl) (fun _ _ => capped_teleport hl)
    l hc args w w1 h hrun

/-- C20, as stated, fails: no state reachable from a fresh game by go, take,
use, attack, teleport and restart, whatever the random rolls, has the health
of the player above 100. -/
theorem C20_no_reachable_health_above_100 :
    ¬ ∃ w : World, Reachable w ∧ 100 < w.game.player.health := by
  rintro ⟨w, hr, h⟩
  have := reachable_capped w hr
  unfold Game.HealthCapped at this
  omega

/-- C20, amended. In every reachable state the health of the player is at
most 100, and `use` keeps it so: the potion is refused above 80, so the
health after `use` on a reachable state is at most 100 as well. -/
theorem C20_health_at_most_100 (w : World) (hr : Reachable w) (itemName : String) :
    w.game.player.health ≤ 100 ∧ (Game.use itemName w).game.player.health ≤ 100 ∧
    (80 < w.game.player.health →
      (Game.use itemName w).game.player.health = w.game.player.health) := by
  have h := reachable_capped w hr
  refine ⟨h, capped_use itemName w h, ?_⟩
  intro h80
  rw [use_player]
  dsimp only
  rw [if_neg (fun hc => by omega)]

/-- C20, amended, after a back-fire and a potion: the health is back at 100,
and a second potion is refused. -/
theorem C20_health_at_most_100_witness :
    Reachable healWorld ∧ healWorld.game.player.health = 100 ∧
    (healWorld.game.player.health ≤ 100 ∧
      (Game.use "potion" healWorld).game.player.health ≤ 100 ∧
      (80 < healWorld.game.player.health →
        (Game.use "potion" healWorld).game.player.health = healWorld.game.player.health)) :=
  ⟨healWorld_reachable, by decide, C20_health_at_most_100 healWorld healWorld_reachable "potion"⟩

/-! ### The world graph: C26, C27 -/

/-- C27, as stated, fails: no room has an exit that leads to a room whose
exit in the opposite direction does not lead back. -/
theorem C27_no_one_way_exit :
    ¬ ∃ r s : RoomId, ∃ p ∈ directionPairs,
      Room.getExit r p.1 = some s ∧ Room.getExit s p.2 ≠ some r := by
  decide

/-- C27, amended. The configured room graph has exactly 10 rooms, with ten
different names, and is symmetric: whenever the exit `d` of a room `r` leads to
a room `s`, the exit of `s` in the opposite direction leads back to `r`; there
are 18 exits, two for each of 9 connections. -/
theorem C27_room_graph_is_symmetric :
    Fintype.card RoomId = 10 ∧
    Function.Injective Room.getName ∧
    (∀ r s : RoomId, ∀ p ∈ directionPairs,
      Room.getExit r p.1 = some s → Room.getExit s p.2 = some r) ∧
    ((List.finRange 10).map fun r =>
      (directionPairs.filter fun p => (Room.getExit r p.1).isSome).length).sum = 18 := by
  refine ⟨by decide, ?_, by decide, by decide⟩
  intro a b
  revert a b
  decide

/-- C26. Every one of the 10 rooms has an exit in one of the four sampled
directions, every exit leads to one of the 10 rooms, the empty direction the
loop of `Game::enemyMove` starts from has no exit, and so for every state there
is a direction on which the sampling loop stops: whenever one of the coming
random values selects it, the loop and `Game::enemyMove` return. -/
theorem C26_enemy_move_loop_can_stop :
    (∀ r : RoomId, ∃ k, k < 4 ∧ (Room.getExit r (directions k)).isSome) ∧
    (∀ (r s : RoomId) (d : String), Room.getExit r d = some s → s.val < 10) ∧
    (∀ r : RoomId, Room.getExit r "" = none) ∧
    (∀ w : World, w.game.mojo.currentRoom.val < 10 ∧
      ∃ k, k < 4 ∧ ∀ tape : List Nat, (∃ random ∈ tape, random % 4 = k) →
        (∃ res, Game.enemyMoveLoop w.game.mojo.currentRoom
          (Room.getExit w.game.mojo.currentRoom "") tape = some res) ∧
        ∃ w1, Game.enemyMove { w with rand := tape } = some w1) := by
  have h1 : ∀ r : RoomId, ∃ k, k < 4 ∧ (Room.getExit r (directions k)).isSome := by decide
  refine ⟨h1, fun _ s _ _ => s.isLt, by decide, ?_⟩
  intro w
  refine ⟨w.game.mojo.currentRoom.isLt, ?_⟩
  obtain ⟨k, hk, hsome⟩ := h1 w.game.mojo.currentRoom
  refine ⟨k, hk, ?_⟩
  rintro tape ⟨random, hmem, rfl⟩
  have hex : ∃ x ∈ tape, (Room.getExit w.game.mojo.currentRoom (directions (x % 4))).isSome :=
    ⟨random, hmem, hsome⟩
  exact ⟨enemyMoveLoop_some _ tape hex _, enemyMove_some { w with rand := tape } (Or.inr hex)⟩

/-! ### One victory: C24 -/

/-- Raising `enterRoom` any number of times when the game is over changes
nothing. -/
theorem triggerTimes_over (depth : Nat) (r : RoomId) (w : World)
    (hover : w.game.gameOver = true) :
    ∀ n, triggerTimes (bus (depth + 1)) "enterRoom" (Payload.room r) n w = some w := by
  have h1 : bus (depth + 1) "enterRoom" (Payload.room r) w = some w := by
    simp [bus_succ, at_enterRoom, EventManager.runAll, Listener.run, EnterRoomListener.run,
      Game.is_over, hover]
  intro n
  induction n with
  | zero => rfl
  | succ n ih => simp only [triggerTimes, h1, Option.some_bind, ih]

/-- C24. From a state whose game is not over, the `enterRoom` event for room J
runs the Victory handler once: "Victory!" is written once and gameOver is set.
After that, and in every state with gameOver set, the handler of `enterRoom`
for room J returns at its guard: the event, raised any number of times, leaves
the state as it is, and so does every sequence of go, take, use, attack and
teleport commands; so "Victory!" is not written again before a restart. -/
theorem C24_victory_fires_once (depth : Nat) (w : World) (hplay : w.game.gameOver = false) :
    Room.getName 9 = "J" ∧
    ∃ w1, bus (depth + 2) "enterRoom" (Payload.room 9) w = some w1 ∧
      w1 = (w.print [endl, Tok.lit "Victory!", endl]).setOver true ∧
      w1.game.gameOver = true ∧
      w1.cout.count (Tok.lit "Victory!") = w.cout.count (Tok.lit "Victory!") + 1 ∧
      (∀ v : World, v.game.gameOver = true →
        EnterRoomListener.run (bus depth) (Payload.room 9) v = some v ∧
        bus (depth + 1) "enterRoom" (Payload.room 9) v = some v) ∧
      (∀ n, triggerTimes (bus (depth + 1)) "enterRoom" (Payload.room 9) n w1 = some w1) ∧
      ∀ cs : List (Listener × List String),
        (∀ c ∈ cs, c.1 ∈ [Listener.go, Listener.take, Listener.use, Listener.attack,
          Listener.teleport]) →
        runCommands (bus depth) cs w1 = some w1 := by
  refine ⟨by decide, _, bus_enter depth 9 w, ?_⟩
  have he : w.enter 9 = (w.print [endl, Tok.lit "Victory!", endl]).setOver true := by
    unfold World.enter
    rw [if_neg (by simp [hplay]), if_pos (by decide)]
  have hover : (w.enter 9).game.gameOver = true := by rw [he]; rfl
  refine ⟨he, hover, ?_, ?_, triggerTimes_over depth 9 _ hover,
    runCommands_over (bus depth) _ hover⟩
  · rw [he]
    simp [World.setOver, World.print, List.count_append]
    decide
  · intro v hv
    have h0 : EnterRoomListener.run (bus depth) (Payload.room 9) v = some v := by
      simp [EnterRoomListener.run, Game.is_over, hv]
    exact ⟨h0, triggerTimes_over depth 9 v hv 1 |> fun h => by
      simpa [triggerTimes] using h⟩

/-- C24 on a running game in room H: the event for room J, then three more. -/
theorem C24_victory_fires_once_witness :
    (gateWorld []).game.gameOver = false ∧
    ∃ w1, bus (0 + 2) "enterRoom" (Payload.room 9) (gateWorld []) = some w1 ∧
      w1.game.gameOver = true ∧
      w1.cout.count (Tok.lit "Victory!") = (gateWorld []).cout.count (Tok.lit "Victory!") + 1 ∧
      triggerTimes (bus (0 + 1)) "enterRoom" (Payload.room 9) 3 w1 = some w1 :=
  have h := C24_victory_fires_once 0 (gateWorld []) (by decide)
  ⟨by decide, h.2.choose, h.2.choose_spec.1, h.2.choose_spec.2.2.1, h.2.choose_spec.2.2.2.1,
    h.2.choose_spec.2.2.2.2.2.1 3⟩

/-! ### The way to the gated room: C28 -/

/-- C28, as stated, fails: in a fresh game the player is in room A, whose
west exit leads to room B and not to the gated room, so `go west` is not
refused (the player is in B afterwards); and room A holds no item, so
`take key` issued in the fresh game leaves the inventory empty. -/
theorem C28_fresh_go_west_is_not_refused :
    Game.new (bus 0) [3, 1, 1, 3, 1] = some pathWorld0 ∧
    pathWorld0.game.player.currentRoom = 0 ∧
    Room.getExit 0 "west" = some 1 ∧
    Listener.run (bus 3) Listener.go (Payload.words ["go", "west"]) pathWorld0 =
      some westWorld ∧
    westWorld.game.player.currentRoom = 1 ∧
    Listener.run (bus 3) Listener.take (Payload.words ["take", "key"]) pathWorld0 =
      some emptyHandWorld ∧
    emptyHandWorld.game.player.itemInventory = [] :=
  ⟨rfl, by decide, by decide, rfl, by decide, rfl, by decide⟩

/-- C28, amended. End-to-end from a fresh game: after `go south` the player
is in room H, whose west exit leads to the gated room G, and before any item is
taken `go west` is refused there (the player stays in H). After `go east` and
`take key` from the fresh game the inventory holds exactly one item, whose
short description is "key"; and after `go west` and `go south` the following
`go west` succeeds: the player is in room G. -/
theorem C28_key_opens_the_gated_room :
    Game.new (bus 0) [3, 1, 1, 3, 1] = some pathWorld0 ∧
    (Listener.run (bus 3) Listener.go (Payload.words ["go", "south"]) pathWorld0 =
        some southWorld ∧
      southWorld.game.player.currentRoom = 7 ∧ southWorld.game.player.itemInventory = [] ∧
      Room.getExit 7 "west" = some 6 ∧
      Listener.run (bus 3) Listener.go (Payload.words ["go", "west"]) southWorld =
        some refusedWorld ∧
      refusedWorld.game.player.currentRoom = 7 ∧
      refusedWorld.game.player.stamina = southWorld.game.player.stamina) ∧
    (Listener.run (bus 3) Listener.go (Payload.words ["go", "east"]) pathWorld0 =
        some pathWorld1 ∧
      Listener.run (bus 3) Listener.take (Payload.words ["take", "key"]) pathWorld1 =
        some pathWorld2 ∧
      pathWorld2.game.player.itemInventory.length = 1 ∧
      pathWorld2.game.player.itemInventory.map Item.description = ["key"]) ∧
    (Listener.run (bus 3) Listener.go (Payload.words ["go", "west"]) pathWorld2 =
        some pathWorld3 ∧
      Listener.run (bus 3) Listener.go (Payload.words ["go", "south"]) pathWorld3 =
        some pathWorld4 ∧
      pathWorld4.game.player.currentRoom = 7 ∧
      Listener.run (bus 3) Listener.go (Payload.words ["go", "west"]) pathWorld4 =
        some pathWorld5 ∧
      pathWorld5.game.player.currentRoom = 6 ∧ pathWorld5.game.gameOver = false) :=
  ⟨rfl, ⟨rfl, by decide, by decide, by decide, rfl, by decide, by decide⟩,
    ⟨rfl, rfl, by decide, by decide⟩, ⟨rfl, rfl, by decide, rfl, by decide, by decide⟩⟩

/-! ### The roaming enemy: C25 -/

/-- The sampling loop of `Game::enemyMove` stops at the first value that
selects a direction with an exit. -/
theorem enemyMoveLoop_first (room n : RoomId) (random : Nat) (rest : List Nat) :
    ∀ pre : List Nat,
      (∀ x ∈ pre, Room.getExit room (directions (x % 4)) = none) →
      Room.getExit room (directions (random % 4)) = some n →
      Game.enemyMoveLoop room none (pre ++ random :: rest) = some (n, rest) := by
  intro pre
  induction pre with
  | nil =>
    intro _ hn
    simp only [List.nil_append, Game.enemyMoveLoop, hn]
  | cons a pre ih =>
    intro hpre hn
    simp only [List.cons_append, Game.enemyMoveLoop, hpre a (List.mem_cons_self _ _)]
    exact ih (fun x hx => hpre x (List.mem_cons_of_mem _ hx)) hn

/-- C25. For every state: the roaming enemy counts as defeated exactly when
its health or its stamina is at most 0, and then `Game::enemyMove` returns the
state as it is. Otherwise, for every sequence of random values, it returns
with the enemy in the room behind the exit of its old room in the first
sampled direction that has an exit, the samples up to that one used up, the
stamina at max(0, s - 4) and the health as before; the player, the rooms,
gameOver and the running flag are unchanged, and the only thing written, when
the stamina reached 0, is a message. -/
theorem C25_enemyMove_effect (w : World) :
    (w.game.enemyCheck = false ↔ (w.game.mojo.health ≤ 0 ∨ w.game.mojo.stamina ≤ 0)) ∧
    (w.game.enemyCheck = false → Game.enemyMove w = some w) ∧
    (w.game.enemyCheck = true →
      ∀ (pre : List Nat) (random : Nat) (rest : List Nat) (n : RoomId),
        w.rand = pre ++ random :: rest →
        (∀ x ∈ pre, Room.getExit w.game.mojo.currentRoom (directions (x % 4)) = none) →
        Room.getExit w.game.mojo.currentRoom (directions (random % 4)) = some n →
        ∃ w1, Game.enemyMove w = some w1 ∧
          w1.game.mojo.currentRoom = n ∧
          w1.game.mojo.stamina = max 0 (w.game.mojo.stamina - 4) ∧
          w1.game.mojo.health = w.game.mojo.health ∧
          w1.rand = rest ∧
          w1.game.player = w.game.player ∧ w1.game.rooms = w.game.rooms ∧
          w1.game.gameOver = w.game.gameOver ∧ w1.running = w.running ∧
          w1.cout = w.cout ++
            (if 0 < w.game.mojo.stamina - 4 then []
              else [Tok.lit "An enemy died due to a lack of stamina!"])) := by
  refine ⟨?_, ?_, ?_⟩
  · unfold Game.enemyCheck
    split_ifs with h <;> simp [h]
  · intro hc
    unfold Game.enemyMove
    rw [if_neg (by simp [hc])]
  · intro hc pre random rest n hrand hpre hn
    have hnone : Room.getExit w.game.mojo.currentRoom "" = none := by simp [Room.getExit]
    have hloop := enemyMoveLoop_first w.game.mojo.currentRoom n random rest pre hpre hn
    have hpos : 0 < w.game.mojo.health ∧ 0 < w.game.mojo.stamina := by
      unfold Game.enemyCheck at hc
      split_ifs at hc with h
      push_neg at h
      exact h
    unfold Game.enemyMove
    rw [if_pos hc, hnone, hrand, hloop]
    dsimp only
    by_cases hs : 0 < w.game.mojo.stamina - 4
    · have hc1 : Game.enemyCheck
          { w.game with
            mojo := Character.setStamina { w.game.mojo with currentRoom := n }
              (w.game.mojo.stamina - 4) } = true := by
        simp only [Game.enemyCheck, Character.setStamina, Enemy.clamp]
        rw [if_neg (by omega)]
      rw [if_pos hc1, if_pos hs]
      refine ⟨_, rfl, rfl, ?_, rfl, rfl, rfl, rfl, rfl, rfl, by simp⟩
      simp only [Character.setStamina, Enemy.clamp]
      rw [if_neg (by omega), max_eq_right (by omega)]
    · have hc1 : ¬ (Game.enemyCheck
          { w.game with
            mojo := Character.setStamina { w.game.mojo with currentRoom := n }
              (w.game.mojo.stamina - 4) } = true) := by
        simp only [Game.enemyCheck, Character.setStamina, Enemy.clamp]
        rw [if_pos (by omega)]
        simp
      rw [if_neg hc1, if_neg hs]
      refine ⟨_, rfl, rfl, ?_, rfl, rfl, rfl, rfl, rfl, rfl, rfl⟩
      show (Character.setStamina _ _).stamina = _
      simp only [Character.setStamina, Enemy.clamp]
      rw [if_pos (by omega), max_eq_left (by omega)]

/-- C25 on a fresh game: the enemy is in room D, the first sample selects
west, where D has no exit, the second east, which leads to room E. -/
theorem C25_enemyMove_effect_witness :
    pathWorld0.game.enemyCheck = true ∧ pathWorld0.rand = [3] ++ 1 :: [1, 3, 1] ∧
    pathWorld0.game.mojo.currentRoom = 3 ∧
    ∃ w1, Game.enemyMove pathWorld0 = some w1 ∧
      w1.game.mojo.currentRoom = 4 ∧
      w1.game.mojo.stamina = max 0 (pathWorld0.game.mojo.stamina - 4) ∧
      w1.game.mojo.health = pathWorld0.game.mojo.health ∧
      w1.rand = [1, 3, 1] ∧
      w1.game.player = pathWorld0.game.player ∧ w1.game.rooms = pathWorld0.game.rooms ∧
      w1.game.gameOver = pathWorld0.game.gameOver ∧ w1.running = pathWorld0.running ∧
      w1.cout = pathWorld0.cout ++
        (if 0 < pathWorld0.game.mojo.stamina - 4 then []
          else [Tok.lit "An enemy died due to a lack of stamina!"]) :=
  ⟨by decide, by decide, by decide,
    (C25_enemyMove_effect pathWorld0).2.2 (by decide) [3] 1 [1, 3, 1] 4 (by decide) (by decide)
      (by decide)⟩

/-! ### Teleport: C29 -/

/-- The loop of `Game::teleport` stops at the first sampled room that is not
the gated room, or at the first sampled room when the key is in hand. -/
theorem teleportLoop_first (hasKey : Bool) (random : Nat) (rest : List Nat)
    (hsel : roomAt random ≠ 6 ∨ hasKey = true) :
    ∀ (pre : List Nat) (first : Nat) (tail : List Nat),
      pre ++ random :: rest = first :: tail →
      (∀ x ∈ pre, roomAt x = 6 ∧ hasKey = false) →
      Game.teleportLoop hasKey (roomAt first) tail = some (roomAt random, rest) := by
  have hstop : ¬ (roomAt random = 6 ∧ ¬ (hasKey = true)) := by
    rintro ⟨h6, hk⟩
    rcases hsel with h | h
    · exact h h6
    · exact hk h
  intro pre
  induction pre with
  | nil =>
    intro first tail heq _
    simp only [List.nil_append, List.cons.injEq] at heq
    obtain ⟨rfl, rfl⟩ := heq
    cases rest with
    | nil => simp only [Game.teleportLoop, if_neg hstop]
    | cons a rest => simp only [Game.teleportLoop, if_neg hstop]
  | cons a pre ih =>
    intro first tail heq hpre
    simp only [List.cons_append, List.cons.injEq] at heq
    obtain ⟨rfl, rfl⟩ := heq
    have ha := hpre a (List.mem_cons_self _ _)
    have hgo : a = a ∧ roomAt a = 6 ∧ ¬ (hasKey = true) := ⟨rfl, ha.1, by simp [ha.2]⟩
    cases htl : pre ++ random :: rest with
    | nil => simp at htl
    | cons b tl =>
      simp only [Game.teleportLoop, if_pos hgo.2]
      exact ih b tl htl (fun x hx => hpre x (List.mem_cons_of_mem _ hx))

theorem enter_rand (w : World) (r : RoomId) : (w.enter r).rand = w.rand := by
  unfold World.enter; split_ifs <;> rfl

theorem setStaminaD_rand (w : World) (v : Int) : (w.setStaminaD v).rand = w.rand := by
  unfold World.setStaminaD World.death; split_ifs <;> rfl

/-- `Game::teleport` on a bus that handles the events, when the loop stops at
the sample `random`: the player is moved, pays 30 stamina, the room is entered
and then the roaming enemy takes its step. -/
theorem teleport_first {t : Trigger} (hl : Live t) (w : World) (pre : List Nat) (random : Nat)
    (rest : List Nat) (hrand : w.rand = pre ++ random :: rest)
    (hpre : ∀ x ∈ pre, roomAt x = 6 ∧ w.game.player.hasItem "key" = false)
    (hsel : roomAt random ≠ 6 ∨ w.game.player.hasItem "key" = true) :
    Game.teleport t w =
      Game.enemyMove (((World.setPlayerRoom { w with rand := rest } (roomAt random)).setStaminaD
        (w.game.player.stamina - 30)).enter (roomAt random)) := by
  cases hft : pre ++ random :: rest with
  | nil => simp at hft
  | cons first tail =>
    have hloop := teleportLoop_first (w.game.player.hasItem "key") random rest hsel pre first
      tail hft hpre
    unfold Game.teleport World.nextRand
    rw [hrand, hft]
    simp only [hloop, setStamina_live _ hl, hl.enter, Option.some_bind]
    rfl

/-- C29. For every state and every sequence of random values whose first
values select the gated room G while the key is not in hand, and whose next
value selects another room, or any room when the key is in hand:
`Game::teleport` puts the player into the room with that index (the sampled
value mod 10), sets the stamina to max(0, s - 30), raises `enterRoom` for the
room and only then lets the roaming enemy take exactly one `enemyMove` step,
with the random values after the used ones; the health and the inventory of
the player are unchanged; and it returns whenever that step can be taken. -/
theorem C29_teleport_effect (depth : Nat) (w : World) (pre : List Nat) (random : Nat)
    (rest : List Nat) (hrand : w.rand = pre ++ random :: rest)
    (hpre : ∀ x ∈ pre, roomAt x = 6 ∧ w.game.player.hasItem "key" = false)
    (hsel : roomAt random ≠ 6 ∨ w.game.player.hasItem "key" = true) :
    (roomAt random).val = random % 10 ∧
    Game.teleport (bus (depth + 3)) w =
      Game.enemyMove (((World.setPlayerRoom { w with rand := rest } (roomAt random)).setStaminaD
        (w.game.player.stamina - 30)).enter (roomAt random)) ∧
    (∀ w1, Game.teleport (bus (depth + 3)) w = some w1 →
      w1.game.player.currentRoom = roomAt random ∧
      w1.game.player.stamina = max 0 (w.game.player.stamina - 30) ∧
      w1.game.player.health = w.game.player.health ∧
      w1.game.player.itemInventory = w.game.player.itemInventory ∧
      w1.game.rooms = w.game.rooms) ∧
    (Game.canMove { w with rand := rest } →
      ∃ w1, Game.teleport (bus (depth + 3)) w = some w1) := by
  have heq := teleport_first (bus_live depth) w pre random rest hrand hpre hsel
  refine ⟨rfl, heq, ?_, ?_⟩
  · intro w1 h1
    rw [heq] at h1
    obtain ⟨m, rest1, out, rfl, -, -⟩ := enemyMove_effect h1
    simp only [enter_player, enter_rooms, setStaminaD_player, setStaminaD_rooms,
      World.setPlayerRoom]
    refine ⟨trivial, ?_, trivial, trivial, trivial⟩
    split_ifs with hv
    · rw [max_eq_left hv]
    · rw [max_eq_right (by omega)]
  · intro hcan
    rw [heq]
    apply enemyMove_some
    unfold Game.canMove Game.enemyCheck at hcan ⊢
    simpa [World.setPlayerRoom, enter_rand, setStaminaD_rand] using hcan

/-- C29 on a fresh game, the key not in hand, with the samples 6, 16, 2: the
first two select the gated room, the third room C. -/
theorem C29_teleport_effect_witness :
    teleportWorld.rand = [6, 16] ++ 2 :: [1] ∧
    (∀ x ∈ [6, 16], roomAt x = 6 ∧ teleportWorld.game.player.hasItem "key" = false) ∧
    roomAt 2 = 2 ∧
    (∃ w1, Game.teleport (bus (0 + 3)) teleportWorld = some w1) ∧
    ∀ w1, Game.teleport (bus (0 + 3)) teleportWorld = some w1 →
      w1.game.player.currentRoom = roomAt 2 ∧
      w1.game.player.stamina = max 0 (teleportWorld.game.player.stamina - 30) ∧
      w1.game.player.health = teleportWorld.game.player.health ∧
      w1.game.player.itemInventory = teleportWorld.game.player.itemInventory ∧
      w1.game.rooms = teleportWorld.game.rooms :=
  have h := C29_teleport_effect 0 teleportWorld [6, 16] 2 [1] rfl (by decide)
    (Or.inl (by decide))
  ⟨rfl, by decide, by decide, h.2.2.2 (Or.inr ⟨1, by decide, by decide⟩), h.2.2.1⟩

/-! ### Attack: C21, C22 -/

/-- `Game::attack` when it is eligible, on a bus that handles the events, by
the roll: the back-fire, the hit on the roaming enemy, or the loop over the
enemies of the room. -/
theorem attack_cases {t : Trigger} (hl : Live t) (name : String) (w : World) (random : Nat)
    (rest : List Nat)
    (helig : w.here.enemiesInRoom.length > 0 ∨
      (w.game.mojo.currentRoom = w.game.player.currentRoom ∧ w.game.enemyCheck = true))
    (hrand : w.rand = random :: rest) :
    Game.attack t name w =
      some (if Game.winner w.game random < 10 then
          (World.backfire { w with rand := rest }).print
            [Tok.lit "\nYou were injured by the enemy!\n"]
        else if name = "mojo" ∧ w.game.mojo.currentRoom = w.game.player.currentRoom ∧
            w.game.enemyCheck = true then
          World.print
            { w with
              rand := rest,
              game := { w.game with
                mojo := w.game.mojo.setHealth (w.game.mojo.health - 15) } }
            [if Game.enemyCheck { w.game with
                mojo := w.game.mojo.setHealth (w.game.mojo.health - 15) } = true
              then Tok.lit "\nYou injured the enemy!\n" else Tok.lit "\nYou killed the enemy!\n"]
        else Game.attackLoop name w.here.enemiesInRoom { w with rand := rest }) := by
  unfold Game.attack World.nextRand Game.winner
  simp only [hrand]
  rw [if_pos helig]
  split_ifs <;> first
    | rfl
    | (simp only [setHealth_live t hl, Option.some_bind]
       unfold World.backfire
       split_ifs <;> first | rfl | contradiction)

theorem eraseLoop_cons {α : Type} (addrOf : α → Nat) (p : Nat) (x : α) (xs : List α) :
    eraseLoop addrOf p (x :: xs) =
      if addrOf x = p then
        match xs with
        | [] => []
        | y :: ys => y :: eraseLoop addrOf p ys
      else x :: eraseLoop addrOf p xs := by
  conv_lhs => unfold eraseLoop

theorem eraseLoop_none {α : Type} (addrOf : α → Nat) (p : Nat) :
    ∀ l : List α, (∀ x ∈ l, addrOf x ≠ p) → eraseLoop addrOf p l = l := by
  intro l
  induction l with
  | nil => intro _; unfold eraseLoop; rfl
  | cons x xs ih =>
    intro h
    rw [eraseLoop_cons, if_neg (h x (List.mem_cons_self _ _)),
      ih (fun y hy => h y (List.mem_cons_of_mem _ hy))]

/-- The erase loop of `Room::removeEnemy` takes out the one object with the
address, when no other element has it. -/
theorem eraseLoop_unique {α : Type} (addrOf : α → Nat) (e : α) (rest : List α)
    (hrest : ∀ x ∈ rest, addrOf x ≠ addrOf e) :
    ∀ done : List α, (∀ x ∈ done, addrOf x ≠ addrOf e) →
      eraseLoop addrOf (addrOf e) (done ++ e :: rest) = done ++ rest := by
  intro done
  induction done with
  | nil =>
    intro _
    rw [List.nil_append, eraseLoop_cons, if_pos rfl]
    cases rest with
    | nil => rfl
    | cons y ys =>
      simp only
      rw [eraseLoop_none addrOf _ ys (fun x hx => hrest x (List.mem_cons_of_mem _ hx))]
      rfl
  | cons x xs ih =>
    intro h
    rw [List.cons_append, eraseLoop_cons, if_neg (h x (List.mem_cons_self _ _)),
      ih (fun y hy => h y (List.mem_cons_of_mem _ hy))]
    rfl

theorem map_replace_unique (e e1 : Enemy) (done rest : List Enemy)
    (hdone : ∀ x ∈ done, x.addr ≠ e.addr) (hrest : ∀ x ∈ rest, x.addr ≠ e.addr) :
    (done ++ e :: rest).map (fun x => if x.addr = e.addr then e1 else x) =
      done ++ e1 :: rest := by
  have h1 : ∀ l : List Enemy, (∀ x ∈ l, x.addr ≠ e.addr) →
      l.map (fun x => if x.addr = e.addr then e1 else x) = l := by
    intro l hl
    induction l with
    | nil => rfl
    | cons x xs ih =>
      simp only [List.map_cons]
      rw [if_neg (hl x (List.mem_cons_self _ _)),
        ih (fun y hy => hl y (List.mem_cons_of_mem _ hy))]
  simp only [List.map_append, List.map_cons, if_true, h1 done hdone, h1 rest hrest]

theorem hitAll_cons (name : String) (e : Enemy) (rest : List Enemy) :
    hitAll name (e :: rest) =
      (if e.name = name then
        (if e.health - 20 ≤ 0 then [] else [{ e with health := e.health - 20 }])
       else [e]) ++ hitAll name rest := by
  unfold hitAll
  simp only [List.map_cons, List.filter_cons]
  by_cases hn : e.name = name
  · simp only [if_pos hn]
    by_cases hh : e.health - 20 ≤ 0
    · rw [max_eq_left hh]
      simp [hn, hh]
    · rw [max_eq_right (by omega)]
      simp [hn, hh]
  · simp [hn]

/-- One round of the hit loop on an enemy that is in the room once: it loses
20 health and leaves the room when it is at 0 then; nothing else changes. -/
theorem attackStep_room (e : Enemy) (w : World) (done rest : List Enemy)
    (hroom : w.here.enemiesInRoom = done ++ e :: rest)
    (hdone : ∀ x ∈ done, x.addr ≠ e.addr) (hrest : ∀ x ∈ rest, x.addr ≠ e.addr) :
    (Game.attackStep e w).here.enemiesInRoom =
      (done ++ if e.health - 20 ≤ 0 then [] else [{ e with health := e.health - 20 }]) ++ rest ∧
    w.HitFrame (Game.attackStep e w) := by
  have hmap := map_replace_unique e (e.setHealth (e.health - 20)) done rest hdone hrest
  have herase := eraseLoop_unique Enemy.addr (e.setHealth (e.health - 20)) rest hrest done hdone
  unfold Game.attackStep World.HitFrame
  dsimp only
  by_cases hh : e.health - 20 ≤ 0
  · have h1 : (e.setHealth (e.health - 20)).health ≤ 0 := by
      simp [Enemy.setHealth, Enemy.clamp, hh]
    rw [if_pos h1, if_pos hh]
    simp only [World.here, World.setRoom, World.print, Function.update_same,
      Function.update_idem, Room.removeEnemy] at hroom ⊢
    rw [hroom, hmap]
    refine ⟨?_, trivial, trivial, trivial, trivial, trivial, ?_, trivial⟩
    · rw [herase]; simp
    · intro i hi
      rw [Function.update_noteq hi]
  · have h1 : ¬ ((e.setHealth (e.health - 20)).health ≤ 0) := by
      simp only [Enemy.setHealth, Enemy.clamp]
      rw [if_neg hh]
      exact hh
    rw [if_neg h1, if_neg hh]
    simp only [World.here, World.setRoom, World.print, Function.update_same] at hroom ⊢
    rw [hroom, hmap]
    refine ⟨?_, trivial, trivial, trivial, trivial, trivial, ?_, trivial⟩
    · simp [Enemy.setHealth, Enemy.clamp, hh]
    · intro i hi
      rw [Function.update_noteq hi]

theorem hitFrame_refl (w : World) : w.HitFrame w :=
  ⟨rfl, rfl, rfl, rfl, rfl, fun _ _ => rfl, rfl⟩

theorem hitFrame_trans {w w1 w2 : World} (h1 : w.HitFrame w1) (h2 : w1.HitFrame w2) :
    w.HitFrame w2 := by
  obtain ⟨a1, a2, a3, a4, a5, a6, a7⟩ := h1
  obtain ⟨b1, b2, b3, b4, b5, b6, b7⟩ := h2
  refine ⟨b1.trans a1, b2.trans a2, b3.trans a3, b4.trans a4, b5.trans a5, ?_, b7.trans a7⟩
  intro i hi
  rw [b6 i (by rw [a1]; exact hi), a6 i hi]

/-- The hit loop of `Game::attack` over the enemies of the room, all different
objects: the enemies of the room become what the specification says, and
nothing else changes. -/
theorem attackLoop_room (name : String) :
    ∀ (l done : List Enemy) (w : World),
      w.here.enemiesInRoom = done ++ l →
      (done ++ l).Pairwise (fun a b => a.addr ≠ b.addr) →
      (Game.attackLoop name l w).here.enemiesInRoom = done ++ hitAll name l ∧
      w.HitFrame (Game.attackLoop name l w) := by
  intro l
  induction l with
  | nil =>
    intro done w hroom _
    refine ⟨?_, hitFrame_refl w⟩
    show w.here.enemiesInRoom = done ++ hitAll name []
    rw [hroom]
    rfl
  | cons e rest ih =>
    intro done w hroom hpair
    rw [attackLoop_cons, hitAll_cons]
    rw [List.pairwise_append] at hpair
    obtain ⟨hp1, hp2, hp3⟩ := hpair
    rw [List.pairwise_cons] at hp2
    obtain ⟨hp4, hp5⟩ := hp2
    have hdone : ∀ x ∈ done, x.addr ≠ e.addr := fun x hx => hp3 x hx e (List.mem_cons_self _ _)
    have hrest : ∀ x ∈ rest, x.addr ≠ e.addr := fun x hx => (hp4 x hx).symm
    by_cases hn : e.name = name
    · rw [if_pos hn, if_pos hn]
      obtain ⟨hstep, hframe⟩ := attackStep_room e w done rest hroom hdone hrest
      have hpair1 : ((done ++ if e.health - 20 ≤ 0 then []
          else [{ e with health := e.health - 20 }]) ++ rest).Pairwise
          (fun a b : Enemy => a.addr ≠ b.addr) := by
        rw [List.pairwise_append, List.pairwise_append]
        refine ⟨⟨hp1, ?_, ?_⟩, hp5, ?_⟩
        · split_ifs <;> simp
        · intro a ha b hb
          split_ifs at hb
          · cases hb
          · rw [List.mem_singleton] at hb
            rw [hb]
            exact hdone a ha
        · intro a ha b hb
          rcases List.mem_append.mp ha with ha | ha
          · exact hp3 a ha b (List.mem_cons_of_mem _ hb)
          · split_ifs at ha
            · cases ha
            · rw [List.mem_singleton] at ha
              rw [ha]
              exact hp4 b hb
      obtain ⟨h1, h2⟩ := ih _ _ hstep hpair1
      refine ⟨?_, hitFrame_trans hframe h2⟩
      rw [h1, List.append_assoc]
    · rw [if_neg hn, if_neg hn]
      have hroom1 : w.here.enemiesInRoom = (done ++ [e]) ++ rest := by
        rw [hroom]; simp
      have hpair1 : ((done ++ [e]) ++ rest).Pairwise
          (fun a b : Enemy => a.addr ≠ b.addr) := by
        rw [List.append_assoc, List.pairwise_append]
        exact ⟨hp1, List.pairwise_cons.mpr ⟨hp4, hp5⟩, hp3⟩
      obtain ⟨h1, h2⟩ := ih _ _ hroom1 hpair1
      refine ⟨?_, h2⟩
      rw [h1]; simp

theorem enter_sword (w : World) (r : RoomId) : (w.enter r).game.sword = w.game.sword := by
  unfold World.enter; split_ifs <;> rfl

theorem setStaminaD_sword (w : World) (v : Int) :
    (w.setStaminaD v).game.sword = w.game.sword := by
  unfold World.setStaminaD World.death; split_ifs <;> rfl

theorem setHealthD_sword (w : World) (v : Int) :
    (w.setHealthD v).game.sword = w.game.sword := by
  unfold World.setHealthD World.death; split_ifs <;> rfl

theorem use_sword (itemName : String) (w : World) :
    (Game.use itemName w).game.sword = w.game.sword := by
  unfold Game.use; split_ifs <;> rfl

theorem takeStep_sword (it : Item) (w : World) :
    (Game.takeStep it w).game.sword = w.game.sword := by
  have h1 : (Player.addItem it w).game.sword = w.game.sword := by
    unfold Player.addItem; split_ifs <;> rfl
  unfold Game.takeStep
  dsimp only
  split_ifs <;>
    simp only [use_sword, World.curse, setHealthD_sword, print_game, World.setRoom, h1]

theorem attackStep_sword (e : Enemy) (w : World) :
    (Game.attackStep e w).game.sword = w.game.sword := by
  unfold Game.attackStep; dsimp only; split_ifs <;> rfl

theorem backfire_sword (w : World) : w.backfire.game.sword = w.game.sword := by
  unfold World.backfire
  split_ifs
  · rw [setHealthD_sword]; rfl
  · rfl

/-- In every reachable state the sword of the game is the weapon `Game::reset`
makes, of multiplier 5. -/
theorem reachable_sword (w : World) (hr : Reachable w) : w.game.sword.multiplier = 5 := by
  refine reachable_invariant (fun g => g.sword.multiplier = 5) (by decide) ?_ w hr
  intro t hl l hc args w w1 _ h hrun
  refine step_cases (fun g => g.sword.multiplier = 5) t ?_ ?_ ?_ ?_ ?_ l hc args w w1 h hrun
  · intro direction w w1 hrun h
    rcases go_effect hl hrun with ⟨out, rfl⟩ | ⟨n, w2, -, -, hm, rfl⟩
    · exact h
    · obtain ⟨m, rest, out, rfl, -, -⟩ := enemyMove_effect hm
      show (World.enter _ n).game.sword.multiplier = 5
      rw [enter_sword, setStaminaD_sword]
      exact h
  · intro itemName w w1 hrun h
    rw [take_live hl] at hrun
    cases hrun
    split_ifs
    · exact h
    · exact takeAll_keeps (fun w => w.game.sword.multiplier = 5) _
        (fun it w _ h => by show (Game.takeStep it w).game.sword.multiplier = 5
                            rw [takeStep_sword]; exact h) _ _ h
  · intro itemName w h
    show (Game.use itemName w).game.sword.multiplier = 5
    rw [use_sword]; exact h
  · intro name w w1 hrun h
    rcases attack_effect hl hrun with ⟨out, -, rfl⟩ | ⟨random, rest, -, hcase⟩
    · exact h
    · rcases hcase with ⟨out, -, rfl⟩ | ⟨out, -, -, -, -, rfl⟩ | rfl
      · show (World.backfire _).game.sword.multiplier = 5
        rw [backfire_sword]; exact h
      · exact h
      · exact attackLoop_keeps (fun w => w.game.sword.multiplier = 5) name
          (fun e w _ h => by show (Game.attackStep e w).game.sword.multiplier = 5
                             rw [attackStep_sword]; exact h) _ _ h
  · intro w w1 hrun h
    obtain ⟨selected, rest, w3, -, rfl, hm⟩ := teleport_effect hl hrun
    obtain ⟨m, rest1, out, rfl, -, -⟩ := enemyMove_effect hm
    show (World.enter _ selected).game.sword.multiplier = 5
    rw [enter_sword, setStaminaD_sword]
    exact h

theorem fightWorld0_reachable : Reachable fightWorld0 :=
  Reachable.step 3 Listener.go ["go", "east"] fightStart fightWorld0
    (Reachable.fresh 0 [3, 1, 0, 0, 0, 0, 0] fightStart rfl) (by decide) rfl

/-- C21. For every state in which attack is eligible, whose sword is the
weapon of multiplier 5 that `Game::reset` makes (as in every reachable state),
every target name and every random value: the draw r is the value mod 20, in
[0, 19], the roll is r + 5 with an item named "sword" in the inventory and r
otherwise, and `Game::attack` returns. If the roll is below 10 the health of
the player is max(0, h - 20) and the rooms with their enemies and the roaming
enemy are unchanged, whatever the name; if the roll is 10 or more the player is
unchanged. -/
theorem C21_attack_roll (depth : Nat) (w : World) (name : String) (random : Nat)
    (rest : List Nat)
    (helig : w.here.enemiesInRoom.length > 0 ∨
      (w.game.mojo.currentRoom = w.game.player.currentRoom ∧ w.game.enemyCheck = true))
    (hrand : w.rand = random :: rest) (hsword : w.game.sword.multiplier = 5) :
    random % 20 < 20 ∧
    Game.winner w.game random =
      (if w.game.player.hasItem "sword" = true then ((random % 20 : Nat) : Int) + 5
        else ((random % 20 : Nat) : Int)) ∧
    ∃ w1, Game.attack (bus (depth + 3)) name w = some w1 ∧
      (Game.winner w.game random < 10 →
        w1.game.player.health = max 0 (w.game.player.health - 20) ∧
        w1.game.player.stamina = w.game.player.stamina ∧
        w1.game.player.currentRoom = w.game.player.currentRoom ∧
        w1.game.player.itemInventory = w.game.player.itemInventory ∧
        w1.game.rooms = w.game.rooms ∧ w1.game.mojo = w.game.mojo) ∧
      (10 ≤ Game.winner w.game random → w1.game.player = w.game.player) := by
  refine ⟨Nat.mod_lt _ (by decide), by unfold Game.winner; rw [hsword], _,
    attack_cases (bus_live depth) name w random rest helig hrand, ?_, ?_⟩
  · intro hlow
    rw [if_pos hlow]
    simp only [print_game, backfire_player, backfire_rooms, backfire_mojo]
    refine ⟨?_, trivial, trivial, trivial, trivial, trivial⟩
    split_ifs with h0
    · rw [max_eq_left h0]
    · rw [max_eq_right (by omega)]
  · intro hhigh
    rw [if_neg (by omega)]
    by_cases hm : name = "mojo" ∧ w.game.mojo.currentRoom = w.game.player.currentRoom ∧
        w.game.enemyCheck = true
    · rw [if_pos hm]
      rfl
    · rw [if_neg hm, attackLoop_player]

/-- C21 in room C with stationary-man, nothing in hand, the draw being 0. -/
theorem C21_attack_roll_witness :
    (fightWorld0.here.enemiesInRoom.length > 0 ∨
      (fightWorld0.game.mojo.currentRoom = fightWorld0.game.player.currentRoom ∧
        fightWorld0.game.enemyCheck = true)) ∧
    fightWorld0.rand = 0 :: [0, 0, 0, 0] ∧ Game.winner fightWorld0.game 0 = 0 ∧
    ∃ w1, Game.attack (bus (0 + 3)) "stationary-man" fightWorld0 = some w1 ∧
      (Game.winner fightWorld0.game 0 < 10 →
        w1.game.player.health = max 0 (fightWorld0.game.player.health - 20) ∧
        w1.game.player.stamina = fightWorld0.game.player.stamina ∧
        w1.game.player.currentRoom = fightWorld0.game.player.currentRoom ∧
        w1.game.player.itemInventory = fightWorld0.game.player.itemInventory ∧
        w1.game.rooms = fightWorld0.game.rooms ∧ w1.game.mojo = fightWorld0.game.mojo) ∧
      (10 ≤ Game.winner fightWorld0.game 0 → w1.game.player = fightWorld0.game.player) :=
  ⟨Or.inl (by decide), by decide, by decide,
    (C21_attack_roll 0 fightWorld0 "stationary-man" 0 [0, 0, 0, 0] (Or.inl (by decide))
      (by decide) (reachable_sword fightWorld0 fightWorld0_reachable)).2.2⟩

theorem pairwise_addr_inj :
    ∀ l : List Enemy, l.Pairwise (fun a b : Enemy => a.addr ≠ b.addr) →
      ∀ a ∈ l, ∀ b ∈ l, a.addr = b.addr → a = b := by
  intro l
  induction l with
  | nil => intro _ a ha; cases ha
  | cons x xs ih =>
    intro hp a ha b hb hab
    rw [List.pairwise_cons] at hp
    rcases List.mem_cons.mp ha with rfl | ha1
    · rcases List.mem_cons.mp hb with rfl | hb1
      · rfl
      · exact absurd hab (hp.1 b hb1)
    · rcases List.mem_cons.mp hb with rfl | hb1
      · exact absurd hab.symm (hp.1 a ha1)
      · exact ih hp.2 a ha1 b hb1 hab

/-- C22. For every eligible attack with a roll of 10 or more, in a room whose
enemies are different objects, `Game::attack` returns and the player is
unchanged. If the name is "mojo" and the living roaming enemy is in the room of
the player, the health of the roaming enemy becomes max(0, h - 15), the rest of
it stays and no room changes. Otherwise the roaming enemy and the other rooms
are unchanged and the enemies of the room are those the specification names:
each one of that name with its health at h - 20, once, and gone from the room
exactly when that is 0 or less; the others as they were, in their order. -/
theorem C22_attack_hit (depth : Nat) (w : World) (name : String) (random : Nat)
    (rest : List Nat)
    (helig : w.here.enemiesInRoom.length > 0 ∨
      (w.game.mojo.currentRoom = w.game.player.currentRoom ∧ w.game.enemyCheck = true))
    (hrand : w.rand = random :: rest) (hroll : 10 ≤ Game.winner w.game random)
    (hobjects : w.here.enemiesInRoom.Pairwise (fun a b => a.addr ≠ b.addr)) :
    ∃ w1, Game.attack (bus (depth + 3)) name w = some w1 ∧
      w1.game.player = w.game.player ∧ w1.game.gameOver = w.game.gameOver ∧
      ((name = "mojo" ∧ w.game.mojo.currentRoom = w.game.player.currentRoom ∧
          w.game.enemyCheck = true) →
        w1.game.mojo = { w.game.mojo with health := max 0 (w.game.mojo.health - 15) } ∧
        w1.game.rooms = w.game.rooms) ∧
      (¬ (name = "mojo" ∧ w.game.mojo.currentRoom = w.game.player.currentRoom ∧
          w.game.enemyCheck = true) →
        w1.game.mojo = w.game.mojo ∧
        (∀ i, i ≠ w.game.player.currentRoom → w1.game.rooms i = w.game.rooms i) ∧
        w1.here.itemsInRoom = w.here.itemsInRoom ∧
        w1.here.enemiesInRoom = hitAll name w.here.enemiesInRoom ∧
        (∀ e ∈ w.here.enemiesInRoom, e.name ≠ name → e ∈ w1.here.enemiesInRoom) ∧
        (∀ e ∈ w.here.enemiesInRoom, e.name = name →
          (e.health - 20 ≤ 0 → ∀ x ∈ w1.here.enemiesInRoom, x.addr ≠ e.addr) ∧
          (0 < e.health - 20 → { e with health := e.health - 20 } ∈ w1.here.enemiesInRoom))) := by
  refine ⟨_, attack_cases (bus_live depth) name w random rest helig hrand, ?_⟩
  rw [if_neg (by omega)]
  by_cases hm : name = "mojo" ∧ w.game.mojo.currentRoom = w.game.player.currentRoom ∧
      w.game.enemyCheck = true
  · rw [if_pos hm]
    refine ⟨rfl, rfl, ?_, fun hno => absurd hm hno⟩
    intro _
    refine ⟨?_, rfl⟩
    show Character.setHealth w.game.mojo (w.game.mojo.health - 15) = _
    unfold Character.setHealth Enemy.clamp
    split_ifs with h0
    · rw [max_eq_left h0]
    · rw [max_eq_right (by omega)]
  · rw [if_neg hm]
    obtain ⟨hroom, hp, hmojo, hover, -, -, hothers, hitems⟩ :=
      attackLoop_room name w.here.enemiesInRoom [] { w with rand := rest } rfl hobjects
    rw [List.nil_append] at hroom
    refine ⟨hp, hover, fun h => absurd h hm, ?_⟩
    intro _
    refine ⟨hmojo, hothers, hitems, hroom, ?_, ?_⟩
    · intro e he hne
      rw [hroom]
      unfold hitAll
      rw [List.mem_filter]
      refine ⟨List.mem_map.mpr ⟨e, he, by rw [if_neg hne]⟩, ?_⟩
      simp [hne]
    · intro e he hn
      constructor
      · intro hdead x hx
        rw [hroom] at hx
        unfold hitAll at hx
        rw [List.mem_filter] at hx
        obtain ⟨hx1, hx2⟩ := hx
        obtain ⟨y, hy, rfl⟩ := List.mem_map.mp hx1
        intro haddr
        have hya : y.addr = e.addr := by
          rw [← haddr]
          split_ifs <;> rfl
        have hye : y = e := pairwise_addr_inj _ hobjects y hy e he hya
        subst hye
        simp only [if_pos hn, decide_eq_true_eq, not_and, not_le] at hx2
        have := hx2 hn
        rw [max_eq_left hdead] at this
        exact absurd this (lt_irrefl 0)
      · intro halive
        rw [hroom]
        unfold hitAll
        rw [List.mem_filter]
        refine ⟨List.mem_map.mpr ⟨e, he, ?_⟩, ?_⟩
        · rw [if_pos hn, max_eq_right (by omega)]
        · simp only [decide_eq_true_eq, not_and, not_le]
          intro _
          exact halive

/-- C22 in room C with stationary-man of health 100, nothing in hand, the
draw being 15: the enemy is at 80 afterwards and still in the room. -/
theorem C22_attack_hit_witness :
    (hitWorld.here.enemiesInRoom.length > 0 ∨
      (hitWorld.game.mojo.currentRoom = hitWorld.game.player.currentRoom ∧
        hitWorld.game.enemyCheck = true)) ∧
    hitWorld.rand = 15 :: [] ∧ 10 ≤ Game.winner hitWorld.game 15 ∧
    hitWorld.here.enemiesInRoom.Pairwise (fun a b => a.addr ≠ b.addr) ∧
    (hitWorld.here.enemiesInRoom.map fun e => (e.name, e.health)) = [("stationary-man", 100)] ∧
    (hitAll "stationary-man" hitWorld.here.enemiesInRoom).map (fun e => (e.name, e.health)) =
      [("stationary-man", 80)] ∧
    ∃ w1, Game.attack (bus (0 + 3)) "stationary-man" hitWorld = some w1 ∧
      w1.game.player = hitWorld.game.player ∧ w1.game.gameOver = hitWorld.game.gameOver ∧
      w1.game.mojo = hitWorld.game.mojo ∧
      w1.here.enemiesInRoom = hitAll "stationary-man" hitWorld.here.enemiesInRoom :=
  have h := C22_attack_hit 0 hitWorld "stationary-man" 15 [] (Or.inl (by decide)) rfl
    (by decide) (by decide)
  ⟨Or.inl (by decide), rfl, by decide, by decide, by decide, by decide, h.choose,
    h.choose_spec.1, h.choose_spec.2.1, h.choose_spec.2.2.1,
    (h.choose_spec.2.2.2.2 (by decide)).1, (h.choose_spec.2.2.2.2 (by decide)).2.2.2.1⟩

/-! ### Entering room J: C23 -/

/-- C23, as stated, fails: from a fresh game, three teleports to room A leave
the player with 10 stamina in a game that is not over; the fourth teleport
puts the player into room J, the stamina falls to 0, the Defeat handler runs,
and the handler of `enterRoom` returns at its guard: "Defeat!" is written and
"Victory!" is not. -/
theorem C23_defeat_on_entering_J :
    Game.new (bus 0) [0, 1, 0, 1, 0, 3, 9, 1] = some teleStart ∧
    Listener.run (bus 3) Listener.teleport (Payload.words ["teleport"]) teleStart =
      some teleWorld1 ∧
    Listener.run (bus 3) Listener.teleport (Payload.words ["teleport"]) teleWorld1 =
      some teleWorld2 ∧
    Listener.run (bus 3) Listener.teleport (Payload.words ["teleport"]) teleWorld2 =
      some teleWorld3 ∧
    teleWorld3.game.gameOver = false ∧ teleWorld3.game.player.stamina = 10 ∧
    teleWorld3.game.player.currentRoom = 0 ∧
    Listener.run (bus 3) Listener.teleport (Payload.words ["teleport"]) teleWorld3 =
      some teleWorld4 ∧
    teleWorld4.game.player.currentRoom = 9 ∧ Room.getName 9 = "J" ∧
    teleWorld4.game.gameOver = true ∧
    teleWorld4.victories = 0 ∧ teleWorld4.defeats = 1 :=
  ⟨rfl, rfl, rfl, rfl, by decide, by decide, by decide, rfl, by decide, by decide, by decide,
    by decide, by decide⟩

/-- Arriving in room J in a game that is not over, with the stamina set to
`v`: with `v` above 0 the Victory handler runs and the Defeat handler does not,
otherwise the Defeat handler runs and the Victory handler does not; the game is
over in both cases. -/
theorem arrive_J (w : World) (v : Int) (hplay : w.game.gameOver = false) :
    (((w.setPlayerRoom 9).setStaminaD v).enter 9).game.gameOver = true ∧
    (((w.setPlayerRoom 9).setStaminaD v).enter 9).game.player.currentRoom = 9 ∧
    (0 < v →
      (((w.setPlayerRoom 9).setStaminaD v).enter 9).victories = w.victories + 1 ∧
      (((w.setPlayerRoom 9).setStaminaD v).enter 9).defeats = w.defeats) ∧
    (v ≤ 0 →
      (((w.setPlayerRoom 9).setStaminaD v).enter 9).victories = w.victories ∧
      (((w.setPlayerRoom 9).setStaminaD v).enter 9).defeats = w.defeats + 1) := by
  have hJ : Room.getName 9 = "J" := by decide
  have hne1 : ¬ (Tok.lit "\n" = Tok.lit "Victory!") := by decide
  have hne2 : ¬ (Tok.lit "\n" = Tok.lit "Defeat!") := by decide
  have hne3 : ¬ (Tok.lit "Victory!" = Tok.lit "Defeat!") := by decide
  have hne4 : ¬ (Tok.lit "Defeat!" = Tok.lit "Victory!") := by decide
  by_cases hv : v ≤ 0
  · have hnv : ¬ (0 < v) := by omega
    simp [World.setStaminaD, World.death, World.enter, World.setPlayerRoom,
      World.setPlayerStamina, World.setOver, World.print, World.victories, World.defeats,
      List.count_append, List.count_cons, endl, hplay, hv, hnv, hJ, hne1, hne2, hne3, hne4]
  · have hnv : 0 < v := by omega
    simp [World.setStaminaD, World.death, World.enter, World.setPlayerRoom,
      World.setPlayerStamina, World.setOver, World.print, World.victories, World.defeats,
      List.count_append, List.count_cons, endl, hplay, hv, hnv, hJ, hne1, hne2, hne3, hne4]

/-- `Game::enemyMove` writes neither "Victory!" nor "Defeat!" and leaves the
player and gameOver. -/
theorem enemyMove_counts {w w1 : World} (hm : Game.enemyMove w = some w1) :
    w1.victories = w.victories ∧ w1.defeats = w.defeats ∧
    w1.game.player = w.game.player ∧ w1.game.gameOver = w.game.gameOver := by
  unfold Game.enemyMove at hm
  split_ifs at hm
  · split at hm
    · cases hm
    · dsimp only at hm
      split_ifs at hm <;> cases hm
      · exact ⟨rfl, rfl, rfl, rfl⟩
      · refine ⟨?_, ?_, rfl, rfl⟩
        · have h0 : List.count (Tok.lit "Victory!")
              [Tok.lit "An enemy died due to a lack of stamina!"] = 0 := by decide
          simp only [World.victories, World.print, List.count_append, h0, Nat.add_zero]
        · have h0 : List.count (Tok.lit "Defeat!")
              [Tok.lit "An enemy died due to a lack of stamina!"] = 0 := by decide
          simp only [World.defeats, World.print, List.count_append, h0, Nat.add_zero]
  · cases hm
    exact ⟨rfl, rfl, rfl, rfl⟩

/-- C23, amended. For every state with gameOver false: a `go` through an exit
to room J, and a teleport whose sampling stops at room J, return whenever the
roaming enemy can take its step, with the player in room J and gameOver true.
If the stamina before the command is above the cost of the move (the cost of
`go` for the inventory, 30 for teleport), the Victory handler runs during the
command: "Victory!" is written once more and "Defeat!" is not. If it is not
above the cost, the stamina falls to 0, the Defeat handler runs and the Victory
handler does not: "Defeat!" is written once more and "Victory!" is not. -/
theorem C23_victory_on_entering_J (depth : Nat) (w : World)
    (hplay : w.game.gameOver = false) :
    (∀ direction : String,
      Room.getExit w.game.player.currentRoom direction = some 9 → Game.canMove w →
      ∃ w1, Game.go (bus (depth + 3)) direction w = some w1 ∧
        w1.game.player.currentRoom = 9 ∧ w1.game.gameOver = true ∧
        (Game.goCost w.game.player.itemInventory < w.game.player.stamina →
          w1.victories = w.victories + 1 ∧ w1.defeats = w.defeats) ∧
        (w.game.player.stamina ≤ Game.goCost w.game.player.itemInventory →
          w1.victories = w.victories ∧ w1.defeats = w.defeats + 1)) ∧
    (∀ (pre : List Nat) (random : Nat) (rest : List Nat),
      w.rand = pre ++ random :: rest →
      (∀ x ∈ pre, roomAt x = 6 ∧ w.game.player.hasItem "key" = false) →
      roomAt random = 9 → Game.canMove { w with rand := rest } →
      ∃ w1, Game.teleport (bus (depth + 3)) w = some w1 ∧
        w1.game.player.currentRoom = 9 ∧ w1.game.gameOver = true ∧
        (30 < w.game.player.stamina →
          w1.victories = w.victories + 1 ∧ w1.defeats = w.defeats) ∧
        (w.game.player.stamina ≤ 30 →
          w1.victories = w.victories ∧ w1.defeats = w.defeats + 1)) := by
  have hl := bus_live depth
  constructor
  · intro direction hexit hcan
    obtain ⟨w2, h2⟩ := enemyMove_some w hcan
    obtain ⟨c1, c2, c3, c4⟩ := enemyMove_counts h2
    obtain ⟨a1, a2, a3, a4⟩ := arrive_J w2
      (w2.game.player.stamina - Game.goCost w2.game.player.itemInventory)
      (by rw [c4]; exact hplay)
    refine ⟨_, by rw [go_moves hl hexit (fun h => absurd h (by decide)), h2]; rfl, a2, a1,
      ?_, ?_⟩
    · intro hs
      rw [← c1, ← c2]
      exact a3 (by rw [c3]; omega)
    · intro hs
      rw [← c1, ← c2]
      exact a4 (by rw [c3]; omega)
  · intro pre random rest hrand hpre hsel hcan
    have heq := teleport_first hl w pre random rest hrand hpre
      (Or.inl (by rw [hsel]; decide))
    rw [hsel] at heq
    obtain ⟨a1, a2, a3, a4⟩ := arrive_J { w with rand := rest } (w.game.player.stamina - 30) hplay
    have hcan3 : Game.canMove (((World.setPlayerRoom { w with rand := rest } 9).setStaminaD
        (w.game.player.stamina - 30)).enter 9) := by
      unfold Game.canMove Game.enemyCheck at hcan ⊢
      simpa [World.setPlayerRoom, enter_rand, setStaminaD_rand] using hcan
    obtain ⟨w1, h1⟩ := enemyMove_some _ hcan3
    obtain ⟨c1, c2, c3, c4⟩ := enemyMove_counts h1
    refine ⟨w1, by rw [heq, h1], by rw [c3]; exact a2, by rw [c4]; exact a1, ?_, ?_⟩
    · intro hs
      rw [c1, c2]
      exact a3 (by omega)
    · intro hs
      rw [c1, c2]
      exact a4 (by omega)

/-- C23, amended, in room H with 2 stamina and nothing in hand: `go south`
costs 1 and the Victory handler runs. -/
theorem C23_victory_on_entering_J_witness :
    (gateWorld []).game.gameOver = false ∧
    Room.getExit (gateWorld []).game.player.currentRoom "south" = some 9 ∧
    Game.goCost (gateWorld []).game.player.itemInventory <
      (gateWorld []).game.player.stamina ∧
    ∃ w1, Game.go (bus (0 + 3)) "south" (gateWorld []) = some w1 ∧
      w1.game.player.currentRoom = 9 ∧ w1.game.gameOver = true ∧
      w1.victories = (gateWorld []).victories + 1 ∧ w1.defeats = (gateWorld []).defeats :=
  have h := (C23_victory_on_entering_J 0 (gateWorld []) (by decide)).1 "south" (by decide)
    (Or.inr ⟨1, by decide, by decide⟩)
  ⟨by decide, by decide, by decide, h.choose, h.choose_spec.1, h.choose_spec.2.1,
    h.choose_spec.2.2.1, (h.choose_spec.2.2.2.1 (by decide)).1,
    (h.choose_spec.2.2.2.1 (by decide)).2⟩

/-! ### The enemies of a room are different objects -/

theorem hitAll_pairwise (name : String) (l : List Enemy)
    (h : l.Pairwise (fun a b => a.addr ≠ b.addr)) :
    (hitAll name l).Pairwise (fun a b => a.addr ≠ b.addr) := by
  unfold hitAll
  apply List.Pairwise.filter
  rw [List.pairwise_map]
  refine List.Pairwise.imp ?_ h
  intro a b hab
  split_ifs <;> exact hab

/-- In every reachable state the enemies of every room are different objects,
so the hit branch of `Game::attack` does what C22 says there. -/
theorem reachable_objects (w : World) (hr : Reachable w) : w.game.DistinctEnemies := by
  refine reachable_invariant Game.DistinctEnemies ?_ ?_ w hr
  · intro i
    fin_cases i <;> decide
  · intro t hl l hc args w w1 _ h hrun
    refine step_cases Game.DistinctEnemies t ?_ ?_ ?_ ?_ ?_ l hc args w w1 h hrun
    · intro direction w w1 hrun h
      rcases go_effect hl hrun with ⟨out, rfl⟩ | ⟨n, w2, -, -, hm, rfl⟩
      · exact h
      · obtain ⟨m, rest, out, rfl, -, -⟩ := enemyMove_effect hm
        intro i
        rw [enter_rooms, setStaminaD_rooms]
        exact h i
    · intro itemName w w1 hrun h
      rw [take_live hl] at hrun
      cases hrun
      split_ifs
      · exact h
      · exact takeAll_keeps (fun w => w.game.DistinctEnemies) _
          (fun it w _ h i => by rw [(takeStep_frame it w).2.2.2.1 i]; exact h i) _ _ h
    · intro itemName w h i
      rw [use_rooms]
      exact h i
    · intro name w w1 hrun h
      rcases attack_effect hl hrun with ⟨out, -, rfl⟩ | ⟨random, rest, -, hcase⟩
      · exact h
      · rcases hcase with ⟨out, -, rfl⟩ | ⟨out, -, -, -, -, rfl⟩ | rfl
        · intro i
          rw [print_game, backfire_rooms]
          exact h i
        · exact h
        · obtain ⟨hroom, hp, -, -, -, -, hothers, -⟩ :=
            attackLoop_room name w.here.enemiesInRoom [] { w with rand := rest } rfl
              (h w.game.player.currentRoom)
          rw [List.nil_append] at hroom
          intro i
          by_cases hi : i = w.game.player.currentRoom
          · subst hi
            have hcur := congrArg Player.currentRoom hp
            have hhere : (Game.attackLoop name w.here.enemiesInRoom
                  { w with rand := rest }).game.rooms w.game.player.currentRoom =
                (Game.attackLoop name w.here.enemiesInRoom { w with rand := rest }).here := by
              show _ = (Game.attackLoop name w.here.enemiesInRoom
                { w with rand := rest }).game.rooms _
              rw [hcur]
            rw [hhere, hroom]
            exact hitAll_pairwise name _ (h w.game.player.currentRoom)
          · rw [hothers i hi]
            exact h i
    · intro w w1 hrun h
      obtain ⟨selected, rest, w3, -, rfl, hm⟩ := teleport_effect hl hrun
      obtain ⟨m, rest1, out, rfl, -, -⟩ := enemyMove_effect hm
      intro i
      show ((World.enter _ selected).game.rooms i).enemiesInRoom.Pairwise _
      rw [enter_rooms, setStaminaD_rooms]
      exact h i

/-! ### `use` and the inventory: C31 -/

/-- C31. `Game::use` never reads or changes the inventory. For every state:
with another inventory put in, the result of `use` is the same but for that
inventory; after any `use` the inventory of the player and the items of every
room are as before; `use potion` adds 20 health whenever the health is at most
80, also when no item named "potion" is in the inventory; and it can be
repeated: at 60 or less two uses add 40. The handler of `use` does the same in
a game that is not over. -/
theorem C31_use_ignores_inventory (w : World) (itemName : String) (items : List Item) :
    Game.use itemName
        { w with game := { w.game with player := { w.game.player with itemInventory := items } } } =
      { Game.use itemName w with
        game := { (Game.use itemName w).game with
          player := { (Game.use itemName w).game.player with itemInventory := items } } } ∧
    (Game.use itemName w).game.player.itemInventory = w.game.player.itemInventory ∧
    (∀ i, ((Game.use itemName w).game.rooms i).itemsInRoom = (w.game.rooms i).itemsInRoom) ∧
    (w.game.player.health ≤ 80 →
      (Game.use "potion" w).game.player.health = w.game.player.health + 20 ∧
      (w.game.player.hasItem "potion" = false →
        (Game.use "potion" w).game.player.health = w.game.player.health + 20) ∧
      (w.game.gameOver = false →
        Listener.run (bus 0) Listener.use (Payload.words ["use", "potion"]) w =
          some (Game.use "potion" w))) ∧
    (w.game.player.health ≤ 60 →
      (Game.use "potion" (Game.use "potion" w)).game.player.health =
        w.game.player.health + 40 ∧
      (Game.use "potion" (Game.use "potion" w)).game.player.itemInventory =
        w.game.player.itemInventory) := by
  have huse : ∀ v : World, v.game.player.health ≤ 80 →
      (Game.use "potion" v).game.player.health = v.game.player.health + 20 := by
    intro v hv
    rw [use_player]
    dsimp only
    rw [if_pos ⟨rfl, hv⟩]
  refine ⟨?_, by simp, fun i => by simp, ?_, ?_⟩
  · unfold Game.use
    split_ifs <;> rfl
  · intro h
    have h1 := huse w h
    refine ⟨h1, fun _ => h1, ?_⟩
    intro hplay
    simp [Listener.run, UseListener.run, Game.is_over, hplay]
  · intro h
    have h1 := huse w (by omega)
    have h2 := huse (Game.use "potion" w) (by rw [h1]; omega)
    refine ⟨by rw [h2, h1]; omega, by simp⟩

/-- C31 after one lost attack in room C: the health is 80, the inventory is
empty, and `use potion` brings the health to 100. -/
theorem C31_use_ignores_inventory_witness :
    fightWorld1.game.player.health ≤ 80 ∧ fightWorld1.game.player.itemInventory = [] ∧
    fightWorld1.game.player.hasItem "potion" = false ∧
    (Game.use "potion" fightWorld1).game.player.health = fightWorld1.game.player.health + 20 ∧
    (Game.use "potion" fightWorld1).game.player.itemInventory =
      fightWorld1.game.player.itemInventory :=
  have h := C31_use_ignores_inventory fightWorld1 "potion" []
  ⟨by decide, by decide, by decide, (h.2.2.2.1 (by decide)).2.1 (by decide), h.2.1⟩

/-! ### The roaming enemy tires: C32 -/

/-- Reading off the command behind a guarded handler, for a relation between
the game before and the game after. -/
theorem step_rel (R : Game → Game → Prop) (t : Trigger) (hrefl : ∀ g, R g g)
    (hgo : ∀ direction w w1, Game.go t direction w = some w1 → R w.game w1.game)
    (htake : ∀ itemName w w1, Game.take t itemName w = some w1 → R w.game w1.game)
    (huse : ∀ itemName w, R w.game (Game.use itemName w).game)
    (hattack : ∀ name w w1, Game.attack t name w = some w1 → R w.game w1.game)
    (hteleport : ∀ w w1, Game.teleport t w = some w1 → R w.game w1.game)
    (l : Listener)
    (hc : l ∈ [Listener.go, Listener.take, Listener.use, Listener.attack, Listener.teleport])
    (args : List String) (w w1 : World)
    (hrun : Listener.run t l (Payload.words args) w = some w1) : R w.game w1.game := by
  simp only [List.mem_cons, List.mem_singleton, List.not_mem_nil, or_false] at hc
  rcases hc with rfl | rfl | rfl | rfl | rfl
  · simp only [Listener.run, GoListener.run] at hrun
    split_ifs at hrun
    · cases hrun; exact hrefl _
    · exact hgo _ _ _ hrun
    · cases hrun; exact hrefl _
  · simp only [Listener.run, TakeListener.run] at hrun
    split_ifs at hrun
    · cases hrun; exact hrefl _
    · exact htake _ _ _ hrun
    · cases hrun; exact hrefl _
  · simp only [Listener.run, UseListener.run] at hrun
    split_ifs at hrun
    · cases hrun; exact hrefl _
    · cases hrun; exact huse _ _
    · cases hrun; exact hrefl _
  · simp only [Listener.run, AttackListener.run] at hrun
    split_ifs at hrun
    · cases hrun; exact hrefl _
    · exact hattack _ _ _ hrun
    · cases hrun; exact hrefl _
  · simp only [Listener.run, TeleportListener.run] at hrun
    split_ifs at hrun
    · cases hrun; exact hrefl _
    · exact hteleport _ _ hrun

theorem no_self_exit : ∀ (r : RoomId) (k : Fin 4), Room.getExit r (directions k.val) ≠ some r := by
  decide

theorem mojoStep_of_eq {g g1 : Game} (h : g1.mojo = g.mojo) : g.MojoStep g1 :=
  Or.inl ⟨by rw [h], by rw [h]⟩

theorem mojoStep_enemyMove {w w1 : World} (hm : Game.enemyMove w = some w1) :
    w.game.MojoStep w1.game := by
  obtain ⟨m, rest, out, rfl, -, hcase⟩ := enemyMove_effect hm
  rcases hcase with ⟨rfl, -⟩ | ⟨hc, hs, random, -, hex⟩
  · exact Or.inl ⟨rfl, rfl⟩
  · refine Or.inr ⟨hc, hs, ?_⟩
    intro heq
    have := no_self_exit w.game.mojo.currentRoom ⟨random % 4, Nat.mod_lt _ (by decide)⟩
    apply this
    show Room.getExit w.game.mojo.currentRoom (directions (random % 4)) = _
    rw [hex]
    exact congrArg some heq

theorem attackStep_mojo (e : Enemy) (w : World) :
    (Game.attackStep e w).game.mojo = w.game.mojo := by
  unfold Game.attackStep; dsimp only; split_ifs <;> rfl

/-- Every go, take, use, attack and teleport leaves the stamina and the room
of the roaming enemy, or moves it once to another room for 4 stamina. -/
theorem mojoStep_command {t : Trigger} (hl : Live t) (l : Listener)
    (hc : l ∈ [Listener.go, Listener.take, Listener.use, Listener.attack, Listener.teleport])
    (args : List String) (w w1 : World)
    (hrun : Listener.run t l (Payload.words args) w = some w1) : w.game.MojoStep w1.game := by
  refine step_rel Game.MojoStep t (fun g => Or.inl ⟨rfl, rfl⟩) ?_ ?_ ?_ ?_ ?_ l hc args w w1 hrun
  · intro direction w w1 hrun
    rcases go_effect hl hrun with ⟨out, rfl⟩ | ⟨n, w2, -, -, hm, rfl⟩
    · exact Or.inl ⟨rfl, rfl⟩
    · have h := mojoStep_enemyMove hm
      unfold Game.MojoStep at h ⊢
      simpa [World.setPlayerRoom] using h
  · intro itemName w w1 hrun
    rw [take_live hl] at hrun
    cases hrun
    split_ifs
    · exact Or.inl ⟨rfl, rfl⟩
    · apply mojoStep_of_eq
      exact takeAll_keeps (fun v => v.game.mojo = w.game.mojo) _
        (fun it v _ h => ((takeStep_frame it v).2.2.1).trans h) _ _ rfl
  · intro itemName w
    exact mojoStep_of_eq (use_mojo itemName w)
  · intro name w w1 hrun
    rcases attack_effect hl hrun with ⟨out, -, rfl⟩ | ⟨random, rest, -, hcase⟩
    · exact Or.inl ⟨rfl, rfl⟩
    · rcases hcase with ⟨out, -, rfl⟩ | ⟨out, -, -, -, -, rfl⟩ | rfl
      · apply mojoStep_of_eq
        rw [print_game, backfire_mojo]
      · exact Or.inl ⟨rfl, rfl⟩
      · apply mojoStep_of_eq
        exact attackLoop_keeps (fun v => v.game.mojo = w.game.mojo) name
          (fun e v _ h => (attackStep_mojo e v).trans h) _ _ rfl
  · intro w w1 hrun
    obtain ⟨selected, rest, w3, -, rfl, hm⟩ := teleport_effect hl hrun
    have h := mojoStep_enemyMove hm
    unfold Game.MojoStep Game.enemyCheck at h ⊢
    simpa [World.setPlayerRoom] using h

theorem enemyCheck_stamina {g : Game} (h : g.enemyCheck = true) : 0 < g.mojo.stamina := by
  unfold Game.enemyCheck at h
  split_ifs at h with hc
  push_neg at hc
  exact hc.2

/-- One command after `n` relocations: the count and the stamina of the
roaming enemy move together. -/
theorem relocated_step {n : Nat} {w w1 : World} (hn : n ≤ 25)
    (hs : w.game.mojo.stamina = 100 - 4 * (n : Int)) (hstep : w.game.MojoStep w1.game) :
    n + relocations w w1 ≤ 25 ∧
    w1.game.mojo.stamina = 100 - 4 * ((n + relocations w w1 : Nat) : Int) ∧
    (w.game.mojo.stamina = 0 →
      relocations w w1 = 0 ∧ w1.game.mojo.currentRoom = w.game.mojo.currentRoom ∧
      w1.game.mojo.stamina = 0) := by
  rcases hstep with ⟨h1, h2⟩ | ⟨hc, h1, h2⟩
  · have hr : relocations w w1 = 0 := by unfold relocations; rw [if_pos h2]
    rw [hr, h1]
    exact ⟨hn, hs, fun h0 => ⟨rfl, h2, h0⟩⟩
  · have hr : relocations w w1 = 1 := by unfold relocations; rw [if_neg h2]
    have hpos := enemyCheck_stamina hc
    rw [hr, h1]
    unfold Enemy.clamp
    refine ⟨by omega, ?_, fun h0 => by omega⟩
    split_ifs <;> push_cast <;> omega

theorem relocated_stamina {n : Nat} {w : World} (h : Relocated n w) :
    n ≤ 25 ∧ w.game.mojo.stamina = 100 - 4 * (n : Int) := by
  induction h with
  | fresh depth tape w h =>
    obtain ⟨w1, h1, hg, -, -⟩ := reset_game (bus depth) true _
    unfold Game.new at h
    rw [h1] at h
    cases h
    rw [hg]
    exact ⟨by decide, by decide⟩
  | restart depth args n w w1 _ hrun _ =>
    obtain ⟨w2, h2, hg, -, -⟩ := reset_game (bus depth) false w
    simp only [Listener.run, RestartListener.run] at hrun
    rw [h2] at hrun
    cases hrun
    rw [hg]
    exact ⟨by decide, by decide⟩
  | step depth l args n w w1 _ hl hrun ih =>
    have hc : l ∈ commands := by
      simp only [commands, List.mem_cons, List.mem_singleton, List.not_mem_nil, or_false]
        at hl ⊢
      tauto
    have hrun3 := run_mono (bus_sound depth) (bus_live 0) hc hrun
    have hstep := mojoStep_command (bus_live 0) l hl args w w1 hrun3
    obtain ⟨a, b, -⟩ := relocated_step ih.1 ih.2 hstep
    exact ⟨a, b⟩

/-- Every reachable state has a count of relocations since the last reset. -/
theorem reachable_relocated (w : World) (hr : Reachable w) : ∃ n, Relocated n w := by
  induction hr with
  | fresh depth tape w h => exact ⟨0, Relocated.fresh depth tape w h⟩
  | step depth l args w w1 _ hc hrun ih =>
    obtain ⟨n, hn⟩ := ih
    simp only [commands, List.mem_cons, List.mem_singleton, List.not_mem_nil, or_false] at hc
    by_cases hr : l = Listener.restart
    · subst hr
      exact ⟨0, Relocated.restart depth args n w w1 hn hrun⟩
    · exact ⟨_, Relocated.step depth l args n w w1 hn
        (by simp only [List.mem_cons, List.mem_singleton, List.not_mem_nil, or_false]; tauto)
        hrun⟩

/-- C32. In every state the program reaches, with `n` the number of
relocations of the roaming enemy since the fresh game or the last restart: `n`
is at most 25 and the stamina of the roaming enemy is 100 - 4 n, whatever the
commands and the random values were. After 25 relocations the stamina is 0,
`Game::enemyMove` does nothing, and every later go, take, use, attack and
teleport leaves the room of the roaming enemy and its stamina of 0, the count
staying at 25. -/
theorem C32_enemy_relocates_at_most_25_times (n : Nat) (w : World) (h : Relocated n w) :
    n ≤ 25 ∧ w.game.mojo.stamina = 100 - 4 * (n : Int) ∧
    (n = 25 →
      w.game.mojo.stamina = 0 ∧ Game.enemyMove w = some w ∧
      ∀ (depth : Nat) (l : Listener),
        l ∈ [Listener.go, Listener.take, Listener.use, Listener.attack, Listener.teleport] →
        ∀ (args : List String) (w1 : World),
          Listener.run (bus depth) l (Payload.words args) w = some w1 →
          w1.game.mojo.currentRoom = w.game.mojo.currentRoom ∧
          w1.game.mojo.stamina = 0 ∧ Relocated 25 w1) := by
  obtain ⟨hn, hs⟩ := relocated_stamina h
  refine ⟨hn, hs, ?_⟩
  intro h25
  subst h25
  have h0 : w.game.mojo.stamina = 0 := by rw [hs]; norm_num
  refine ⟨h0, ?_, ?_⟩
  · unfold Game.enemyMove
    rw [if_neg]
    intro hc
    have := enemyCheck_stamina hc
    omega
  · intro depth l hl args w1 hrun
    have hc : l ∈ commands := by
      simp only [commands, List.mem_cons, List.mem_singleton, List.not_mem_nil, or_false]
        at hl ⊢
      tauto
    have hrun3 := run_mono (bus_sound depth) (bus_live 0) hc hrun
    have hstep := mojoStep_command (bus_live 0) l hl args w w1 hrun3
    obtain ⟨-, -, hz⟩ := relocated_step hn hs hstep
    obtain ⟨z1, z2, z3⟩ := hz h0
    have hnext := Relocated.step depth l args 25 w w1 h hl hrun
    rw [z1] at hnext
    exact ⟨z2, z3, hnext⟩
/-- One more relocation: a command after which the roaming enemy is in another
room. -/
theorem Relocated.moved {n : Nat} {w : World} (h : Relocated n w) (depth : Nat) (l : Listener)
    (args : List String) (w1 : World)
    (hl : l ∈ [Listener.go, Listener.take, Listener.use, Listener.attack, Listener.teleport])
    (hrun : Listener.run (bus depth) l (Payload.words args) w = some w1)
    (hroom : w1.game.mojo.currentRoom ≠ w.game.mojo.currentRoom) : Relocated (n + 1) w1 := by
  have h1 := Relocated.step depth l args n w w1 h hl hrun
  have hr : relocations w w1 = 1 := by unfold relocations; rw [if_neg hroom]
  rw [hr] at h1
  exact h1

set_option maxRecDepth 8000

theorem roamStart_relocated : Relocated 0 roamStart :=
  Relocated.fresh 0 _ roamStart rfl

theorem roamWorld1_relocated : Relocated 1 roamWorld1 :=
  roamStart_relocated.moved 3 Listener.go ["go", "east"] roamWorld1 (by decide) rfl (by decide)

theorem roamWorld2_relocated : Relocated 2 roamWorld2 :=
  roamWorld1_relocated.moved 3 Listener.go ["go", "west"] roamWorld2 (by decide) rfl (by decide)

theorem roamWorld3_relocated : Relocated 3 roamWorld3 :=
  roamWorld2_relocated.moved 3 Listener.go ["go", "east"] roamWorld3 (by decide) rfl (by decide)

theorem roamWorld4_relocated : Relocated 4 roamWorld4 :=
  roamWorld3_relocated.moved 3 Listener.go ["go", "west"] roamWorld4 (by decide) rfl (by decide)

theorem roamWorld5_relocated : Relocated 5 roamWorld5 :=
  roamWorld4_relocated.moved 3 Listener.go ["go", "east"] roamWorld5 (by decide) rfl (by decide)

theorem roamWorld6_relocated : Relocated 6 roamWorld6 :=
  roamWorld5_relocated.moved 3 Listener.go ["go", "west"] roamWorld6 (by decide) rfl (by decide)

theorem roamWorld7_relocated : Relocated 7 roamWorld7 :=
  roamWorld6_relocated.moved 3 Listener.go ["go", "east"] roamWorld7 (by decide) rfl (by decide)

theorem roamWorld8_relocated : Relocated 8 roamWorld8 :=
  roamWorld7_relocated.moved 3 Listener.go ["go", "west"] roamWorld8 (by decide) rfl (by decide)

theorem roamWorld9_relocated : Relocated 9 roamWorld9 :=
  roamWorld8_relocated.moved 3 Listener.go ["go", "east"] roamWorld9 (by decide) rfl (by decide)

theorem roamWorld10_relocated : Relocated 10 roamWorld10 :=
  roamWorld9_relocated.moved 3 Listener.go ["go", "west"] roamWorld10 (by decide) rfl (by decide)

theorem roamWorld11_relocated : Relocated 11 roamWorld11 :=
  roamWorld10_relocated.moved 3 Listener.go ["go", "east"] roamWorld11 (by decide) rfl (by decide)

theorem roamWorld12_relocated : Relocated 12 roamWorld12 :=
  roamWorld11_relocated.moved 3 Listener.go ["go", "west"] roamWorld12 (by decide) rfl (by decide)

theorem roamWorld13_relocated : Relocated 13 roamWorld13 :=
  roamWorld12_relocated.moved 3 Listener.go ["go", "east"] roamWorld13 (by decide) rfl (by decide)

theorem roamWorld14_relocated : Relocated 14 roamWorld14 :=
  roamWorld13_relocated.moved 3 Listener.go ["go", "west"] roamWorld14 (by decide) rfl (by decide)

theorem roamWorld15_relocated : Relocated 15 roamWorld15 :=
  roamWorld14_relocated.moved 3 Listener.go ["go", "east"] roamWorld15 (by decide) rfl (by decide)

theorem roamWorld16_relocated : Relocated 16 roamWorld16 :=
  roamWorld15_relocated.moved 3 Listener.go ["go", "west"] roamWorld16 (by decide) rfl (by decide)

theorem roamWorld17_relocated : Relocated 17 roamWorld17 :=
  roamWorld16_relocated.moved 3 Listener.go ["go", "east"] roamWorld17 (by decide) rfl (by decide)

theorem roamWorld18_relocated : Relocated 18 roamWorld18 :=
  roamWorld17_relocated.moved 3 Listener.go ["go", "west"] roamWorld18 (by decide) rfl (by decide)

theorem roamWorld19_relocated : Relocated 19 roamWorld19 :=
  roamWorld18_relocated.moved 3 Listener.go ["go", "east"] roamWorld19 (by decide) rfl (by decide)

theorem roamWorld20_relocated : Relocated 20 roamWorld20 :=
  roamWorld19_relocated.moved 3 Listener.go ["go", "west"] roamWorld20 (by decide) rfl (by decide)

theorem roamWorld21_relocated : Relocated 21 roamWorld21 :=
  roamWorld20_relocated.moved 3 Listener.go ["go", "east"] roamWorld21 (by decide) rfl (by decide)

theorem roamWorld22_relocated : Relocated 22 roamWorld22 :=
  roamWorld21_relocated.moved 3 Listener.go ["go", "west"] roamWorld22 (by decide) rfl (by decide)

theorem roamWorld23_relocated : Relocated 23 roamWorld23 :=
  roamWorld22_relocated.moved 3 Listener.go ["go", "east"] roamWorld23 (by decide) rfl (by decide)

theorem roamWorld24_relocated : Relocated 24 roamWorld24 :=
  roamWorld23_relocated.moved 3 Listener.go ["go", "west"] roamWorld24 (by decide) rfl (by decide)

theorem roamWorld25_relocated : Relocated 25 roamWorld25 :=
  roamWorld24_relocated.moved 3 Listener.go ["go", "east"] roamWorld25 (by decide) rfl (by decide)


/-- C32 on a walk from a fresh game in which the roaming enemy moves at each
of 25 commands: it has no stamina left then, and the next `go` leaves it where
it is. -/
theorem C32_enemy_relocates_at_most_25_times_witness :
    Relocated 25 roamWorld25 ∧ roamWorld25.game.mojo.stamina = 0 ∧
    Listener.run (bus 3) Listener.go (Payload.words ["go", "west"]) roamWorld25 =
      some roamWorld26 ∧
    roamWorld26.game.player.currentRoom ≠ roamWorld25.game.player.currentRoom ∧
    roamWorld26.game.mojo.currentRoom = roamWorld25.game.mojo.currentRoom ∧
    roamWorld26.game.mojo.stamina = 0 ∧ Relocated 25 roamWorld26 :=
  have h := C32_enemy_relocates_at_most_25_times 25 roamWorld25 roamWorld25_relocated
  have h1 := (h.2.2 rfl).2.2 3 Listener.go (by decide) ["go", "west"] roamWorld26 rfl
  ⟨roamWorld25_relocated, (h.2.2 rfl).1, rfl, by decide, h1.1, h1.2.1, h1.2.2⟩

/-! ### The cost of a move: C9 -/

/-- Off the items of the game the two can differ, because 0.1, 29.9, 33.33 and
33.34 are not `float` values: the stored weights of 0.1 and 29.9 add up to less
than 30, those of 33.34, 33.33 and 33.33 to more than 100. -/
theorem goCost_off_the_game :
    Game.goCost [{ Game.fresh.key with weightGrams := centi 0 10 },
      { Game.fresh.key with addr := 2, weightGrams := centi 29 90 }] = 3 ∧
    specCost [{ Game.fresh.key with weightGrams := centi 0 10 },
      { Game.fresh.key with addr := 2, weightGrams := centi 29 90 }] = 5 ∧
    Game.goCost [{ Game.fresh.key with weightGrams := centi 33 34 },
      { Game.fresh.key with addr := 2, weightGrams := centi 33 33 },
      { Game.fresh.key with addr := 3, weightGrams := centi 33 33 }] = 7 ∧
    specCost [{ Game.fresh.key with weightGrams := centi 33 34 },
      { Game.fresh.key with addr := 2, weightGrams := centi 33 33 },
      { Game.fresh.key with addr := 3, weightGrams := centi 33 33 }] = 5 := by
  decide

/-- In every reachable state the inventory holds items of the game, each at
most once. -/
theorem reachable_items (w : World) (hr : Reachable w) :
    w.game.player.itemInventory.Nodup ∧
    ∀ x ∈ w.game.player.itemInventory, x ∈ Game.items := by
  obtain ⟨h1, h2, -⟩ := reachable_placed w hr
  refine ⟨h1, fun x hx => ?_⟩
  obtain ⟨i, hi⟩ := h2 x hx
  exact home_facts.2.2.2 i x hi

/-- The items of the game have different names and are different objects. -/
theorem items_facts :
    ∀ x ∈ Game.items, ∀ y ∈ Game.items,
      (x.description = y.description → x = y) ∧ (x.addr = y.addr → x = y) := by
  decide

/-- C30, as stated, fails: with the key in the inventory, `Player::addItem` of
another item object whose short description is "key" as well does not leave
the inventory: it appends the object, so two items named "key" are held. -/
theorem C30_second_key_is_added :
    (gateWorld [Game.fresh.key]).game.player.itemInventory = [Game.fresh.key] ∧
    ({ Game.fresh.key with addr := 9 } : Item).description = Game.fresh.key.description ∧
    ({ Game.fresh.key with addr := 9 } : Item).addr ≠ Game.fresh.key.addr ∧
    (∃ it ∈ (gateWorld [Game.fresh.key]).game.player.itemInventory,
      it.description = ({ Game.fresh.key with addr := 9 } : Item).description) ∧
    (Player.addItem { Game.fresh.key with addr := 9 }
      (gateWorld [Game.fresh.key])).game.player.itemInventory =
        [Game.fresh.key, { Game.fresh.key with addr := 9 }] ∧
    (Player.addItem { Game.fresh.key with addr := 9 }
      (gateWorld [Game.fresh.key])).game.player.itemInventory ≠
        (gateWorld [Game.fresh.key]).game.player.itemInventory := by
  decide

/-- C30, amended. `Player::addItem` adds no duplicate by identity. For every
inventory and every item `x`: if the inventory holds that item object already,
`addItem` changes nothing; otherwise, also when another object of the same
short description is held, it appends `x` at the end, the items held before
staying in their order, and changes nothing else of the game. In every
reachable state, for an item of the game, holding the object and holding an
item of its short description are the same, so there no item of a short
description already held is added. -/
theorem C30_addItem_adds_no_duplicate_object (x : Item) (w : World) :
    ((∃ it ∈ w.game.player.itemInventory, it.addr = x.addr) → Player.addItem x w = w) ∧
    ((∀ it ∈ w.game.player.itemInventory, it.addr ≠ x.addr) →
      (Player.addItem x w).game.player.itemInventory = w.game.player.itemInventory ++ [x] ∧
      (Player.addItem x w).game.player.health = w.game.player.health ∧
      (Player.addItem x w).game.player.stamina = w.game.player.stamina ∧
      (Player.addItem x w).game.player.currentRoom = w.game.player.currentRoom ∧
      (Player.addItem x w).game.rooms = w.game.rooms ∧
      (Player.addItem x w).game.mojo = w.game.mojo ∧
      (Player.addItem x w).game.gameOver = w.game.gameOver) ∧
    (Reachable w → x ∈ Game.items →
      ((∃ it ∈ w.game.player.itemInventory, it.description = x.description) ↔
        ∃ it ∈ w.game.player.itemInventory, it.addr = x.addr) ∧
      ((∃ it ∈ w.game.player.itemInventory, it.description = x.description) →
        Player.addItem x w = w) ∧
      ((∀ it ∈ w.game.player.itemInventory, it.description ≠ x.description) →
        (Player.addItem x w).game.player.itemInventory =
          w.game.player.itemInventory ++ [x])) := by
  have hsame : (∃ it ∈ w.game.player.itemInventory, it.addr = x.addr) →
      Player.addItem x w = w := by
    rintro ⟨it, hit, haddr⟩
    unfold Player.addItem
    rw [if_pos]
    rw [List.any_eq_true]
    exact ⟨it, hit, by simpa using haddr⟩
  have hnew : (∀ it ∈ w.game.player.itemInventory, it.addr ≠ x.addr) →
      Player.addItem x w =
        { w with
          game := { w.game with
            player := { w.game.player with
              itemInventory := w.game.player.itemInventory ++ [x] } },
          cout := w.cout ++
            [Tok.lit "You have picked up a new item! It has been added to your inventory.\n"] } := by
    intro hno
    unfold Player.addItem
    rw [if_neg]
    rw [List.any_eq_true]
    rintro ⟨it, hit, haddr⟩
    exact hno it hit (by simpa using haddr)
  refine ⟨hsame, ?_, ?_⟩
  · intro hno
    rw [hnew hno]
    exact ⟨rfl, rfl, rfl, rfl, rfl, rfl, rfl⟩
  · intro hr hx
    obtain ⟨-, hgame⟩ := reachable_items w hr
    have hiff : (∃ it ∈ w.game.player.itemInventory, it.description = x.description) ↔
        ∃ it ∈ w.game.player.itemInventory, it.addr = x.addr := by
      constructor
      · rintro ⟨it, hit, hd⟩
        exact ⟨it, hit, by rw [(items_facts it (hgame it hit) x hx).1 hd]⟩
      · rintro ⟨it, hit, ha⟩
        exact ⟨it, hit, by rw [(items_facts it (hgame it hit) x hx).2 ha]⟩
    refine ⟨hiff, fun h => hsame (hiff.mp h), ?_⟩
    intro hno
    rw [hnew (fun it hit ha => hno it hit (by rw [(items_facts it (hgame it hit) x hx).2 ha]))]

/-- C30, amended, with the key taken in room C: `addItem` of the key changes
nothing, `addItem` of the sword appends it. -/
theorem C30_addItem_adds_no_duplicate_object_witness :
    Reachable pathWorld2 ∧ Game.fresh.key ∈ Game.items ∧
    (∃ it ∈ pathWorld2.game.player.itemInventory, it.addr = Game.fresh.key.addr) ∧
    Player.addItem Game.fresh.key pathWorld2 = pathWorld2 ∧
    (∀ it ∈ pathWorld2.game.player.itemInventory, it.addr ≠ Game.fresh.sword.addr) ∧
    (Player.addItem Game.fresh.sword pathWorld2).game.player.itemInventory =
      pathWorld2.game.player.itemInventory ++ [Game.fresh.sword] :=
  ⟨pathWorld2_reachable, by decide, by decide,
    (C30_addItem_adds_no_duplicate_object Game.fresh.key pathWorld2).1 (by decide), by decide,
    ((C30_addItem_adds_no_duplicate_object Game.fresh.sword pathWorld2).2.1 (by decide)).1⟩

end Zork
